import Mathlib

/-!
# http_client.c : a shallow embedding

Bytes are natural numbers (character codes).  A C array is a list of bytes, a
C string is the part of an array before its first NUL byte.  The socket and
the output file are explicit environment values: the inbound side of the
socket is a list of pending fragments, a destination (the outbound side of the
socket, or the file) offers a capacity at each call of `send`/`write`.
-/

namespace HttpClient

/-! ## Constants of the source -/

/-- The buffer size `MAX_BUFFER`. -/
def MAX_BUFFER : Nat := 4096

/-- The text `"200 OK\r\n"` of `HTTP_RESPONSE_OK`. -/
def HTTP_RESPONSE_OK : List Nat := [50, 48, 48, 32, 79, 75, 13, 10]

/-- The text `"Content-Length:"` of `CONTENT_LENGTH_FIELD`. -/
def CONTENT_LENGTH_FIELD : List Nat :=
  [67, 111, 110, 116, 101, 110, 116, 45, 76, 101, 110, 103, 116, 104, 58]

/-- The text `"\r\n\r\n"` of `HEAD_CONTENT_SPLIT`. -/
def HEAD_CONTENT_SPLIT : List Nat := [13, 10, 13, 10]

/-- The text `"\r\n"` of `LINE_END`. -/
def LINE_END : List Nat := [13, 10]

/-! ## C library functions used by the source -/

/-- The C string stored at the start of a byte array: the bytes before the
first NUL.  The scan is bounded by the array. -/
def cstr (mem : List Nat) : List Nat := mem.takeWhile (fun b => b != 0)

/-- The function `strstr` on texts: the index of the first occurrence of
`needle` in `hay`, `none` for the C result `NULL`. -/
def strstr : List Nat → List Nat → Option Nat
  | [], needle => if needle.isPrefixOf [] then some 0 else none
  | h :: t, needle =>
    if needle.isPrefixOf (h :: t) then some 0
    else (strstr t needle).map (fun i => i + 1)

/-- The function `strlen` on a text. -/
def strlen (s : List Nat) : Nat := s.length

/-- The class `isspace` of the C locale: space, `\t`, `\n`, `\v`, `\f`, `\r`. -/
def isspace (c : Nat) : Bool := c == 32 || (9 ≤ c && c ≤ 13)

/-- The class `isdigit`: `'0'` to `'9'`. -/
def isdigit (c : Nat) : Bool := 48 ≤ c && c ≤ 57

/-- The value of the leading decimal digits of a text, continuing from `acc`. -/
def atoi_digits (acc : Nat) : List Nat → Nat
  | [] => acc
  | c :: cs => if isdigit c then atoi_digits (acc * 10 + (c - 48)) cs else acc

/-- The largest `long` of the platform (64 bits). -/
def LONG_MAX : Int := 9223372036854775807

/-- The smallest `long` of the platform (64 bits). -/
def LONG_MIN : Int := -9223372036854775808

/-- The function `strtol` in base 10, without its end pointer: leading white
space is skipped, an optional sign is read, then the leading decimal digits;
a value outside the range of `long` becomes `LONG_MAX` or `LONG_MIN`. -/
def strtol (s : List Nat) : Int :=
  match s.dropWhile isspace with
  | 45 :: r => max (- (atoi_digits 0 r : Int)) LONG_MIN
  | 43 :: r => min (atoi_digits 0 r : Int) LONG_MAX
  | r => min (atoi_digits 0 r : Int) LONG_MAX

/-- The digits of a text as `strtol` takes them: what follows the leading
white space and an optional sign. -/
def number_text (s : List Nat) : List Nat :=
  match s.dropWhile isspace with
  | 45 :: r => r
  | 43 :: r => r
  | r => r

/-- The conversion `(int)` of a `long`: reduction modulo `2^32` into
`-2147483648 .. 2147483647`. -/
def toInt (x : Int) : Int := (x + 2147483648) % 4294967296 - 2147483648

/-- The function `atoi` of the C library, `(int) strtol(s, NULL, 10)`: the
number `strtol` reads, kept to the 32 bits of an `int`.  The text
`"2147483648"` gives `-2147483648` and `"4294967297"` gives `1`. -/
def atoi (s : List Nat) : Int := toInt (strtol s)

/-- The conversion `(short)` of an `int`: reduction modulo `2^16` into
`-32768 .. 32767`. -/
def toShort (x : Int) : Int := (x + 32768) % 65536 - 32768

/-- The decimal text of a natural number, as `printf("%d")` writes it. -/
def decimalNat (n : Nat) : List Nat := (Nat.toDigits 10 n).map Char.toNat

/-- The text `printf("%d")` writes for an integer. -/
def decimal : Int → List Nat
  | Int.ofNat n => decimalNat n
  | Int.negSucc n => 45 :: decimalNat (n + 1)

/-! ## Destinations: the outbound socket and the output file -/

/-- A destination of `write` or `send`.  `cap i` is what the environment does
at the `i`-th call: `none` is a failure (the call returns `-1`), `some c` means
that at most `c` bytes are accepted.  `calls` counts the calls made so far and
`data` holds the bytes accepted so far, in order. -/
structure Dest where
  cap : Nat → Option Nat
  calls : Nat
  data : List Nat

/-- One call `write(fd, p, count)` or `send(fd, p, count, 0)`, where `src` are
the bytes at `p`.  `none` is the result `-1`; otherwise the number of bytes
accepted and the destination after the call. -/
def Dest.put (d : Dest) (src : List Nat) (count : Nat) : Option (Nat × Dest) :=
  match d.cap d.calls with
  | none => none
  | some c =>
    let tmp := min c count
    some (tmp, { d with calls := d.calls + 1, data := d.data ++ src.take tmp })

/-- Every call on the destination succeeds and accepts at least one byte. -/
def Accepting (cap : Nat → Option Nat) : Prop := ∀ i, ∃ c, cap i = some c ∧ 1 ≤ c

/-- The result of a full-transfer loop: it ran to its end, or it left the
program through `exit(1)`. -/
inductive Transfer where
  | done (d : Dest)
  | failed (d : Dest)

/-- The loop of `write_to_file`, with the local `offset` and the parameter
`buf_len`; `fuel` bounds the number of iterations and `none` means that the
bound was reached. -/
def write_loop : Nat → Dest → List Nat → Int → Int → Option Transfer
  | 0, d, _, _, buf_len => if buf_len > 0 then none else some (Transfer.done d)
  | fuel + 1, d, buf, offset, buf_len =>
    if buf_len > 0 then
      match d.put (buf.drop offset.toNat) buf_len.toNat with
      | none => some (Transfer.failed d)
      | some (tmp, d1) => write_loop fuel d1 buf (offset + tmp) (buf_len - tmp)
    else some (Transfer.done d)

/-- The function `write_to_file(fd, buf, buf_len)`. -/
def write_to_file (fuel : Nat) (fd : Dest) (buf : List Nat) (buf_len : Int) :
    Option Transfer :=
  write_loop fuel fd buf 0 buf_len

/-- The loop of `send_to_socket`. -/
def send_loop : Nat → Dest → List Nat → Int → Int → Option Transfer
  | 0, d, _, _, buf_len => if buf_len > 0 then none else some (Transfer.done d)
  | fuel + 1, d, buf, offset, buf_len =>
    if buf_len > 0 then
      match d.put (buf.drop offset.toNat) buf_len.toNat with
      | none => some (Transfer.failed d)
      | some (tmp, d1) => send_loop fuel d1 buf (offset + tmp) (buf_len - tmp)
    else some (Transfer.done d)

/-- The function `send_to_socket(fd, buf, buf_len)`. -/
def send_to_socket (fuel : Nat) (fd : Dest) (buf : List Nat) (buf_len : Int) :
    Option Transfer :=
  send_loop fuel fd buf 0 buf_len

/-! ## The request text and the output file name -/

/-- Storing `data` in the array `buf` from index `offset` on. -/
def poke (buf : List Nat) (offset : Nat) (data : List Nat) : List Nat :=
  buf.take offset ++ data ++ buf.drop (offset + data.length)

/-- The text `sprintf` produces for the format
`"GET %s HTTP/1.0\r\nHost: %s:%d\r\n\r\n"`. -/
def get_header_text (filepath host_name : List Nat) (port : Int) : List Nat :=
  [71, 69, 84, 32] ++ filepath ++
    [32, 72, 84, 84, 80, 47, 49, 46, 48, 13, 10, 72, 111, 115, 116, 58, 32] ++
    host_name ++ [58] ++ decimal port ++ [13, 10, 13, 10]

/-- The function `fill_get_header(buf, filepath, host_name, port)`: the array
after `sprintf` and the returned length.  `none` when the text and its closing
NUL do not fit the array (C leaves that case undefined). -/
def fill_get_header (buf : List Nat) (filepath host_name : List Nat) (port : Int) :
    Option (List Nat × Int) :=
  let text := get_header_text filepath host_name port
  if text.length + 1 ≤ MAX_BUFFER then
    some (poke buf 0 (text ++ [0]), (text.length : Int))
  else none

/-- The `while` loop of `parse_file_name`: `len` runs down from
`strlen(file_path)`, every byte that is not `'/'` is stored at `result_len`.
`none` when a store would fall outside `file_name`. -/
def scan_name (file_path : List Nat) : Nat → List Nat → Nat → Option (List Nat × Nat)
  | 0, file_name, result_len => some (file_name, result_len)
  | len + 1, file_name, result_len =>
    if file_path.getD len 0 != 47 then
      if result_len < MAX_BUFFER then
        scan_name file_path len (file_name.set result_len (file_path.getD len 0))
          (result_len + 1)
      else none
    else some (file_name, result_len)

/-- The body of the `for` loop of `parse_file_name` at index `i`: the bytes at
`i` and `result_len - 1 - i` change places. -/
def swap_step (result_len : Nat) (file_name : List Nat) (i : Nat) : List Nat :=
  let tmp := file_name.getD i 0
  let file_name1 := file_name.set i (file_name.getD (result_len - 1 - i) 0)
  file_name1.set (result_len - 1 - i) tmp

/-- The function `parse_file_name(file_path, file_name)`: the array
`file_name` after the call. -/
def parse_file_name (file_path : List Nat) (file_name : List Nat) : Option (List Nat) :=
  match scan_name file_path (strlen file_path) file_name 0 with
  | none => none
  | some (file_name1, result_len) =>
    some ((List.range (result_len / 2)).foldl (swap_step result_len) file_name1)

/-! ## The inbound side of the socket -/

/-- One call of `recv` as the socket saw it: the index in the buffer the bytes
were to be stored at, the count asked for, and the count delivered. -/
structure RecvCall where
  pos : Nat
  count : Nat
  got : Nat
deriving DecidableEq, Repr

/-- The inbound side of the socket: the fragments still to be delivered, and
the calls of `recv` made so far.  When no fragment is left the peer has closed
the stream. -/
structure Sock where
  pending : List (List Nat)
  log : List RecvCall
deriving DecidableEq, Repr

/-- One call `recv(fd, &buf[pos], count, 0)`: the bytes delivered and the
socket after the call.  A fragment longer than `count` is delivered in part
and its rest stays pending; no bytes means that `recv` returned 0. -/
def Sock.recv (s : Sock) (pos count : Nat) : List Nat × Sock :=
  match s.pending with
  | [] => ([], { s with log := s.log ++ [⟨pos, count, 0⟩] })
  | f :: rest =>
    if f.length ≤ count then
      (f, { pending := rest, log := s.log ++ [⟨pos, count, f.length⟩] })
    else
      (f.take count,
        { pending := f.drop count :: rest, log := s.log ++ [⟨pos, count, count⟩] })

/-- What `read_from_socket` leaves behind: the returned flag, the buffer, the
values stored through `poffset` and `pread_length`, and the socket. -/
structure ReadResult where
  ret : Bool
  buf : List Nat
  offset : Nat
  read_length : Nat
  sock : Sock
deriving DecidableEq, Repr

/-- The test at the head of the loop of `read_from_socket`: one of the three
`break` conditions holds. -/
def stop_check (first_line read_content_length read_split : Bool) (buf : List Nat) :
    Bool :=
  if first_line && (strstr (cstr buf) LINE_END).isSome then true
  else if read_content_length &&
      ((strstr (cstr buf) HEAD_CONTENT_SPLIT).isSome ||
        (strstr (cstr buf) CONTENT_LENGTH_FIELD).isSome) then true
  else if read_split && (strstr (cstr buf) HEAD_CONTENT_SPLIT).isSome then true
  else false

/-- The `do ... while (left_bytes > 0)` loop of `read_from_socket`.  `fuel`
bounds the number of iterations and `none` means that the bound was reached. -/
def read_loop (first_line read_content_length read_split : Bool) :
    Nat → List Nat → Nat → Nat → Nat → Sock → Option ReadResult
  | 0, _, _, _, _, _ => none
  | fuel + 1, buf, offset, left_bytes, read_length, fd =>
    if stop_check first_line read_content_length read_split buf then
      some ⟨true, buf, offset, read_length, fd⟩
    else
      let r := fd.recv offset left_bytes
      let tmp := r.1.length
      if tmp = 0 then
        some ⟨false, buf, offset, read_length, r.2⟩
      else
        if left_bytes - tmp > 0 then
          read_loop first_line read_content_length read_split fuel
            (poke buf offset r.1) (offset + tmp) (left_bytes - tmp) (read_length + tmp) r.2
        else
          some ⟨true, poke buf offset r.1, offset + tmp, read_length + tmp, r.2⟩

/-- The function `read_from_socket`.  `offset` and `read_length` are the values
behind `poffset` and `pread_length` at the call.  The counts are natural
numbers: `main` passes no negative one. -/
def read_from_socket (fd : Sock) (buf : List Nat) (max_bytes : Nat)
    (first_line read_content_length read_split : Bool) (offset read_length : Nat) :
    Option ReadResult :=
  if offset ≥ max_bytes then
    some ⟨true, buf, offset, read_length, fd⟩
  else
    read_loop first_line read_content_length read_split (max_bytes - offset)
      buf offset (max_bytes - offset) 0 fd

/-! ## The program -/

/-- How a run of `main` ends. -/
inductive Outcome where
  /-- The count `argc` is not 4: usage message, `exit(1)`. -/
  | usage
  /-- The call `gethostbyname` failed: `exit(1)`. -/
  | resolveFailed
  /-- The call `socket` failed: `exit(1)`. -/
  | socketFailed
  /-- The call `connect` failed: `exit(1)`. -/
  | connectFailed
  /-- A store of `parse_file_name` fell outside `file_name` (undefined in C). -/
  | nameOverflow
  /-- The request text does not fit `buf` (undefined in C). -/
  | requestOverflow
  /-- A `send` returned `-1`: `exit(1)`. -/
  | sendFailed
  /-- No `"\r\n"` in the buffer: "can not read the first line.", `exit(1)`. -/
  | firstLineMissing
  /-- No `"200 OK\r\n"` in the buffer: the first line is printed, `exit(1)`. -/
  | badStatus (line : List Nat)
  /-- No `"Content-Length:"` in the buffer: "file length unknown", `exit(1)`. -/
  | lengthUnknown
  /-- The call `fopen` failed: `exit(1)`. -/
  | openFailed
  /-- The call `strstr(buf, HEAD_CONTENT_SPLIT)` returned `NULL` and `main`
  went on to compute with it (undefined in C). -/
  | splitMissing
  /-- A `write` returned `-1`: `exit(1)`. -/
  | writeFailed
  /-- The end of `main` was reached: `return 0`. -/
  | finished
deriving DecidableEq, Repr

/-- The exit status of the process, `none` where C leaves the run undefined. -/
def Outcome.exitStatus : Outcome → Option Nat
  | Outcome.finished => some 0
  | Outcome.nameOverflow => none
  | Outcome.requestOverflow => none
  | Outcome.splitMissing => none
  | _ => some 1

/-- What a run of `main` has done when it ends: how it ended, the bytes the
socket accepted, the name of the output file if `fopen` was called and
succeeded, and the bytes the file accepted. -/
structure Run where
  outcome : Outcome
  sent : List Nat
  opened : Option (List Nat)
  written : List Nat
deriving DecidableEq, Repr

/-- The variables of `main` after the three header reads (line 143). -/
structure Session where
  buf : List Nat
  offset : Nat
  length : Nat
  should_continue : Bool
  content_length : Int
  sockfd : Sock
deriving DecidableEq, Repr

/-- Either `main` has left through `exit`, or it goes on with a session. -/
inductive Stage where
  | exit (outcome : Outcome)
  | go (s : Session)
deriving DecidableEq, Repr

/-- Lines 110 to 143 of `main`: the buffer is cleared, the first line is read
and tested, the content length is read and parsed, the split is read. -/
def main_header (sockfd : Sock) : Option Stage :=
  let offset := 0
  let length := 0
  let buf := List.replicate MAX_BUFFER 0
  match read_from_socket sockfd buf MAX_BUFFER true false false offset length with
  | none => none
  | some r1 =>
    match strstr (cstr r1.buf) LINE_END with
    | none => some (Stage.exit Outcome.firstLineMissing)
    | some first_line_end =>
      if (strstr (cstr r1.buf) HTTP_RESPONSE_OK).isNone then
        some (Stage.exit (Outcome.badStatus ((cstr r1.buf).take first_line_end)))
      else
        match (if r1.ret then
            read_from_socket r1.sock r1.buf MAX_BUFFER false true false r1.offset
              r1.read_length
          else some r1) with
        | none => none
        | some r2 =>
          match strstr (cstr r2.buf) CONTENT_LENGTH_FIELD with
          | none => some (Stage.exit Outcome.lengthUnknown)
          | some content_length_str =>
            let content_length :=
              atoi ((cstr r2.buf).drop (content_length_str + strlen CONTENT_LENGTH_FIELD))
            match (if r2.ret then
                read_from_socket r2.sock r2.buf MAX_BUFFER false false true r2.offset
                  r2.read_length
              else some r2) with
            | none => none
            | some r3 =>
              some (Stage.go ⟨r3.buf, r3.offset, r3.read_length, r3.ret, content_length,
                r3.sock⟩)

/-- Lines 151 to 158 of `main`, where `split` is the index `strstr` found the
separator at: the bytes of the buffer after the separator are written, at most
`content_length` of them.  The result is the transfer and the new value of
`content_length`. -/
def initial_flush (buf : List Nat) (offset : Nat) (content_length : Int) (output_fd : Dest)
    (split : Nat) : Option (Transfer × Int) :=
  let content_begin := split + strlen HEAD_CONTENT_SPLIT
  let already_length : Int := (offset : Int) - (content_begin : Int)
  let already_length := if already_length > content_length then content_length
    else already_length
  match write_to_file already_length.toNat output_fd (buf.drop content_begin)
      already_length with
  | none => none
  | some t => some (t, content_length - already_length)

/-- The `while (should_continue && content_length > 0)` loop of `main` (lines
160 to 171).  The result is how the run ends and the output file. -/
def body_loop : Nat → Bool → Int → List Nat → Nat → Sock → Dest → Option (Outcome × Dest)
  | 0, should_continue, content_length, _, _, _, output_fd =>
    if should_continue && decide (content_length > 0) then none
    else some (Outcome.finished, output_fd)
  | fuel + 1, should_continue, content_length, buf, length, sockfd, output_fd =>
    if should_continue && decide (content_length > 0) then
      let offset := 0
      match read_from_socket sockfd buf
          (if content_length < (MAX_BUFFER : Int) then content_length.toNat else MAX_BUFFER)
          false false false offset length with
      | none => none
      | some r =>
        if r.offset > 0 then
          match write_to_file r.offset output_fd r.buf (r.offset : Int) with
          | none => none
          | some (Transfer.failed d) => some (Outcome.writeFailed, d)
          | some (Transfer.done d) =>
            body_loop fuel r.ret (content_length - (r.offset : Int)) r.buf r.read_length
              r.sock d
        else some (Outcome.finished, output_fd)
    else some (Outcome.finished, output_fd)

/-- Lines 145 to 176 of `main`: the output file is opened, the body bytes
already in the buffer are written, the rest of the body is read and written.
`can_open` tells whether `fopen` succeeds and `file_cap` is the behaviour of
the file at each `write`. -/
def main_body (s : Session) (file_name : List Nat) (can_open : Bool)
    (file_cap : Nat → Option Nat) : Option Run :=
  if !can_open then some ⟨Outcome.openFailed, [], none, []⟩
  else
    let output_fd : Dest := ⟨file_cap, 0, []⟩
    match strstr (cstr s.buf) HEAD_CONTENT_SPLIT with
    | none => some ⟨Outcome.splitMissing, [], some (cstr file_name), []⟩
    | some split =>
      match initial_flush s.buf s.offset s.content_length output_fd split with
      | none => none
      | some (Transfer.failed d, _) =>
        some ⟨Outcome.writeFailed, [], some (cstr file_name), d.data⟩
      | some (Transfer.done d, content_length) =>
        match body_loop content_length.toNat s.should_continue content_length s.buf
            s.length s.sockfd d with
        | none => none
        | some (outcome, d1) => some ⟨outcome, [], some (cstr file_name), d1.data⟩

/-- Lines 110 to 176 of `main`: everything after the request has been sent. -/
def main_response (sockfd : Sock) (file_name : List Nat) (can_open : Bool)
    (file_cap : Nat → Option Nat) : Option Run :=
  match main_header sockfd with
  | none => none
  | some (Stage.exit outcome) => some ⟨outcome, [], none, []⟩
  | some (Stage.go s) => main_body s file_name can_open file_cap

/-- The environment of a run: whether the host name resolves, whether a socket
can be made and connected, the behaviour of the socket at each `send`, the
fragments the peer delivers before it closes the stream, whether the output
file can be opened, and the behaviour of the file at each `write`. -/
structure Env where
  resolves : Bool
  socket_ok : Bool
  connects : Bool
  send_cap : Nat → Option Nat
  incoming : List (List Nat)
  can_open : Bool
  file_cap : Nat → Option Nat

/-- The function `main`; `argv` holds the program name and the arguments, each
a text without NUL. -/
def main (argv : List (List Nat)) (env : Env) : Option Run :=
  match argv with
  | [_, host, port, file_path] =>
    match parse_file_name file_path (List.replicate MAX_BUFFER 0) with
    | none => some ⟨Outcome.nameOverflow, [], none, []⟩
    | some file_name =>
      if !env.resolves then some ⟨Outcome.resolveFailed, [], none, []⟩
      else if !env.socket_ok then some ⟨Outcome.socketFailed, [], none, []⟩
      else
        let serve_port := toShort (atoi port)
        if !env.connects then some ⟨Outcome.connectFailed, [], none, []⟩
        else
          match fill_get_header (List.replicate MAX_BUFFER 0) file_path host serve_port with
          | none => some ⟨Outcome.requestOverflow, [], none, []⟩
          | some (buf, buf_len) =>
            match send_to_socket buf_len.toNat ⟨env.send_cap, 0, []⟩ buf buf_len with
            | none => none
            | some (Transfer.failed d) => some ⟨Outcome.sendFailed, d.data, none, []⟩
            | some (Transfer.done d) =>
              match main_response ⟨env.incoming, []⟩ file_name env.can_open
                  env.file_cap with
              | none => none
              | some run => some { run with sent := d.data }
  | _ => some ⟨Outcome.usage, [], none, []⟩

/-- The buffer of a read result holds the bytes `D` received so far, followed
by zeros; the fragments still pending are not empty, and a read that reported
the end of the stream left nothing pending. -/
def Holds (D : List Nat) (r : ReadResult) : Prop :=
  r.buf = D ++ List.replicate (MAX_BUFFER - D.length) 0 ∧ r.offset = D.length ∧
    D.length ≤ MAX_BUFFER ∧ (∀ f ∈ r.sock.pending, f ≠ []) ∧
    (r.ret = false → r.sock.pending = [])

/-! ## Sessions used as examples -/

/-- The header `"HTTP/1.0 200 OK\r\nContent-Length: 5\r\n\r\n"` of the two
scenarios of the specification. -/
def scenario_header : List Nat :=
  [72, 84, 84, 80, 47, 49, 46, 48, 32, 50, 48, 48, 32, 79, 75, 13, 10, 67, 111, 110, 116, 101,
    110, 116, 45, 76, 101, 110, 103, 116, 104, 58, 32, 53, 13, 10, 13, 10]

/-- The body `"Hello"` of the two scenarios. -/
def scenario_body : List Nat := [72, 101, 108, 108, 111]

/-- The session `main` reaches when the peer sends the scenario header
together with `"Hello, world"` in one fragment. -/
def long_session : Session :=
  ⟨scenario_header ++ [72, 101, 108, 108, 111, 44, 32, 119, 111, 114, 108, 100] ++
      List.replicate 4046 0, 50, 0, true, 5, ⟨[], [⟨0, 4096, 50⟩]⟩⟩

/-! ## The calls of `recv` seen by the socket -/

/-- The calls of `recv` made by one call of `read_from_socket` with the bound
`max_bytes`, the first of them at the fill position `pos`: every call is made
at the current fill position, asks for all that is left up to `max_bytes`, and
is given no more than it asked for. -/
def Fills (max_bytes : Nat) : Nat → List RecvCall → Prop
  | _, [] => True
  | pos, c :: cs =>
    c.pos = pos ∧ c.count = max_bytes - pos ∧ c.got ≤ c.count ∧
      Fills max_bytes (pos + c.got) cs

/-- One of the calls of `recv` returned 0: the peer had closed the stream. -/
def SawEnd (calls : List RecvCall) : Prop := ∃ c ∈ calls, c.got = 0

/-- The number of bytes a list of calls of `recv` delivered. -/
def delivered (calls : List RecvCall) : Nat := (calls.map RecvCall.got).sum

/-- The content length of a session, if the header reads ended in one. -/
def parsed_length : Option Stage → Option Int
  | some (Stage.go s) => some s.content_length
  | _ => none

/-- The text `"200 OK"`. -/
def STATUS_OK : List Nat := [50, 48, 48, 32, 79, 75]

/-- The header `"HTTP/1.0 200 OK\r\nContent-Length: 2147483648\r\n\r\n"`, which
declares one byte more than the largest `int`. -/
def huge_header : List Nat :=
  [72, 84, 84, 80, 47, 49, 46, 48, 32, 50, 48, 48, 32, 79, 75, 13, 10, 67, 111, 110, 116, 101,
    110, 116, 45, 76, 101, 110, 103, 116, 104, 58, 32, 50, 49, 52, 55, 52, 56, 51, 54, 52, 56, 13,
    10, 13, 10]

/-! # Properties -/

/-! ## Texts and arrays -/

/-- An occurrence found by `strstr` lies inside the text. -/
theorem strstr_bound (needle : List Nat) : ∀ (hay : List Nat) (i : Nat),
    strstr hay needle = some i → needle <+: hay.drop i ∧ i + needle.length ≤ hay.length := by
  intro hay
  induction hay with
  | nil =>
    intro i h
    simp only [strstr] at h
    split at h
    · rename_i hp
      cases h
      rw [List.isPrefixOf_iff_prefix] at hp
      have := List.prefix_nil.mp hp
      subst this
      simp
    · cases h
  | cons a t ih =>
    intro i h
    simp only [strstr] at h
    split at h
    · rename_i hp
      cases h
      rw [List.isPrefixOf_iff_prefix] at hp
      exact ⟨by simpa using hp, by simpa using hp.length_le⟩
    · cases ht : strstr t needle with
      | none => rw [ht] at h; cases h
      | some j =>
        rw [ht] at h
        cases h
        obtain ⟨h1, h2⟩ := ih j ht
        exact ⟨by simpa using h1, by simp only [List.length_cons]; omega⟩

/-- An occurrence found by `strstr` is still the first one when the text grows
at its end. -/
theorem strstr_append (needle : List Nat) (b : List Nat) : ∀ (a : List Nat) (i : Nat),
    strstr a needle = some i → strstr (a ++ b) needle = some i := by
  intro a
  induction a with
  | nil =>
    intro i h
    simp only [strstr] at h
    split at h
    · rename_i hp
      cases h
      rw [List.isPrefixOf_iff_prefix] at hp
      have := List.prefix_nil.mp hp
      subst this
      cases b <;> simp [strstr]
    · cases h
  | cons x t ih =>
    intro i h
    simp only [strstr] at h
    split at h
    · rename_i hp
      cases h
      rw [List.isPrefixOf_iff_prefix] at hp
      have hp2 : needle <+: (x :: t) ++ b := hp.trans (List.prefix_append _ _)
      rw [← List.isPrefixOf_iff_prefix] at hp2
      simp only [List.cons_append] at hp2 ⊢
      simp [strstr, hp2]
    · rename_i hp
      cases ht : strstr t needle with
      | none => rw [ht] at h; cases h
      | some j =>
        rw [ht] at h
        cases h
        have := ih j ht
        simp only [List.cons_append, strstr]
        by_cases hq : needle.isPrefixOf (x :: (t ++ b)) = true
        · -- an occurrence at 0 in the longer text lies inside `x :: t`
          exfalso
          rw [List.isPrefixOf_iff_prefix] at hq
          obtain ⟨h1, h2⟩ := strstr_bound needle t j ht
          have hlen : needle.length ≤ (x :: t).length := by simp only [List.length_cons]; omega
          have : needle <+: x :: t := by
            have hq2 : needle <+: (x :: t) ++ b := by simpa using hq
            exact List.prefix_of_prefix_length_le hq2 (List.prefix_append _ _) hlen
          rw [← List.isPrefixOf_iff_prefix] at this
          exact hp this
        · simp [hq, this]

/-- A text that contains the needle has a first occurrence of it. -/
theorem strstr_mid (needle b : List Nat) : ∀ (a : List Nat),
    ∃ i, strstr (a ++ needle ++ b) needle = some i := by
  intro a
  induction a with
  | nil =>
    have hp : needle <+: needle ++ b := List.prefix_append _ _
    rw [← List.isPrefixOf_iff_prefix] at hp
    cases hn : needle ++ b with
    | nil => rw [hn] at hp; exact ⟨0, by rw [List.nil_append, hn]; simp only [strstr]; rw [if_pos hp]⟩
    | cons x t => rw [hn] at hp; exact ⟨0, by rw [List.nil_append, hn]; simp only [strstr]; rw [if_pos hp]⟩
  | cons x t ih =>
    obtain ⟨i, hi⟩ := ih
    by_cases hq : needle.isPrefixOf (x :: (t ++ needle ++ b)) = true
    · refine ⟨0, ?_⟩
      show strstr (x :: (t ++ needle ++ b)) needle = some 0
      rw [strstr, if_pos hq]
    · refine ⟨i + 1, ?_⟩
      show strstr (x :: (t ++ needle ++ b)) needle = some (i + 1)
      rw [strstr, if_neg hq, hi]
      rfl

/-- Zeros after the data do not change the C string. -/
theorem cstr_zeros (D : List Nat) (n : Nat) : cstr (D ++ List.replicate n 0) = cstr D := by
  induction D with
  | nil => cases n <;> simp [cstr, List.replicate_succ]
  | cons a t ih =>
    simp only [cstr] at ih ⊢
    by_cases h : a = 0
    · simp [h]
    · simp [List.takeWhile_cons, h, ih]

theorem cstr_length_le (D : List Nat) : (cstr D).length ≤ D.length :=
  (List.takeWhile_prefix _).length_le

/-- A part without NUL at the start of an array belongs to its C string. -/
theorem cstr_append (H X : List Nat) (h : ∀ b ∈ H, b ≠ 0) : cstr (H ++ X) = H ++ cstr X := by
  induction H with
  | nil => simp
  | cons a t ih =>
    have ha : a ≠ 0 := h a (by simp)
    have := ih (fun b hb => h b (by simp [hb]))
    simp only [cstr] at this ⊢
    simp [List.takeWhile_cons, ha, this]

theorem poke_nil (buf : List Nat) (off : Nat) : poke buf off [] = buf := by
  simp [poke]

theorem poke_length (buf : List Nat) (off : Nat) (X : List Nat) (h : off + X.length ≤ buf.length) :
    (poke buf off X).length = buf.length := by
  simp only [poke, List.length_append, List.length_take, List.length_drop]
  omega

theorem poke_poke (buf : List Nat) (off : Nat) (A B : List Nat) (h : off ≤ buf.length) :
    poke (poke buf off A) (off + A.length) B = poke buf off (A ++ B) := by
  have e1 : (buf.take off ++ A).length = off + A.length := by
    simp [List.length_take, Nat.min_eq_left h]
  have e2 : (poke buf off A).take (off + A.length) = buf.take off ++ A := by
    unfold poke
    rw [← e1, List.take_left]
  have e3 : (poke buf off A).drop (off + A.length + B.length) =
      buf.drop (off + (A ++ B).length) := by
    unfold poke
    rw [← e1, List.drop_append, List.drop_drop, e1, List.length_append]
    congr 1; omega
  rw [poke, e2, e3, poke]
  simp [List.append_assoc]

theorem poke_zeros (D X : List Nat) (n : Nat) :
    poke (D ++ List.replicate n 0) D.length X = (D ++ X) ++ List.replicate (n - X.length) 0 := by
  unfold poke
  rw [List.take_left, List.drop_append, List.drop_replicate]

/-! ## Full transfer -/

theorem take_split (l : List Nat) (t n : Nat) (h : t ≤ n) :
    l.take t ++ (l.drop t).take (n - t) = l.take n := by
  have := List.take_add l t (n - t)
  rw [Nat.add_sub_cancel' h] at this
  exact this.symm

/-- On a destination that accepts at least one byte at each call, the loop of
`write_to_file` ends within `n` iterations and hands over the `n` bytes from
`off` on, in order. -/
theorem write_loop_accepting (fuel : Nat) : ∀ (d : Dest) (buf : List Nat) (off n : Nat),
    Accepting d.cap → n ≤ fuel →
    ∃ d1, write_loop fuel d buf (off : Int) (n : Int) = some (Transfer.done d1) ∧
      d1.data = d.data ++ (buf.drop off).take n ∧ d1.cap = d.cap ∧
      d.calls ≤ d1.calls ∧ d1.calls ≤ d.calls + n := by
  induction fuel with
  | zero =>
    intro d buf off n _ hn
    have : n = 0 := by omega
    subst this
    exact ⟨d, by simp [write_loop], by simp, rfl, le_refl _, le_refl _⟩
  | succ fuel ih =>
    intro d buf off n hcap hn
    rcases Nat.eq_zero_or_pos n with h0 | hpos
    · subst h0
      exact ⟨d, by simp [write_loop], by simp, rfl, le_refl _, le_refl _⟩
    · obtain ⟨c, hc, hc1⟩ := hcap d.calls
      have hlt : (0 : Int) < (n : Int) := by exact_mod_cast hpos
      have hmin : min c n ≤ n := Nat.min_le_right _ _
      have hmin1 : 1 ≤ min c n := by
        rw [Nat.le_min]; exact ⟨hc1, hpos⟩
      obtain ⟨d1, h1, h2, h3, h4, h5⟩ :=
        ih ⟨d.cap, d.calls + 1, d.data ++ (buf.drop off).take (min c n)⟩ buf
          (off + min c n) (n - min c n) hcap (by omega)
      refine ⟨d1, ?_, ?_, h3, ?_, ?_⟩
      · have e1 : ((off : Int) + ((min c n : Nat) : Int)) = ((off + min c n : Nat) : Int) := by
          push_cast; rfl
        have e2 : ((n : Int) - ((min c n : Nat) : Int)) = ((n - min c n : Nat) : Int) := by
          rw [Nat.cast_sub hmin]
        simp only [write_loop, hlt, gt_iff_lt, if_true, Dest.put, hc, Int.toNat_ofNat, e1, e2]
        exact h1
      · rw [h2]
        simp only [List.append_assoc, List.drop_drop]
        congr 1
        have := take_split (buf.drop off) (min c n) n hmin
        rw [List.drop_drop] at this
        exact this
      · simp only at h4; omega
      · simp only at h5; omega

/-! ## Reading from the socket -/

/-- The loop of `read_from_socket` on a stream of non-empty fragments: it
returns, the bytes `D` it stored are the next bytes of the stream, at most
`left` of them; it reports the end of the stream only when nothing is pending,
and otherwise it stopped on a full count or on its stop test. -/
theorem read_loop_spec (fl rc rs : Bool) (fuel : Nat) :
    ∀ (buf : List Nat) (off left rl : Nat) (sock : Sock),
    0 < left → left ≤ fuel → off ≤ buf.length → (∀ f ∈ sock.pending, f ≠ []) →
    ∃ r D, read_loop fl rc rs fuel buf off left rl sock = some r ∧
      r.buf = poke buf off D ∧ r.offset = off + D.length ∧
      r.read_length = rl + D.length ∧ D.length ≤ left ∧
      sock.pending.flatten = D ++ r.sock.pending.flatten ∧
      (∀ f ∈ r.sock.pending, f ≠ []) ∧
      (r.ret = false → r.sock.pending = [] ∧ D.length < left) ∧
      (r.ret = true → D.length = left ∨ stop_check fl rc rs r.buf = true) ∧
      (stop_check fl rc rs buf = false →
        ∀ f rest, sock.pending = f :: rest → f.take left <+: D) := by
  induction fuel with
  | zero => intro buf off left rl sock h0 h1; omega
  | succ fuel ih =>
    intro buf off left rl sock hpos hfuel hoff hne
    by_cases hs : stop_check fl rc rs buf = true
    · refine ⟨⟨true, buf, off, rl, sock⟩, [], ?_, ?_, ?_, ?_, ?_, ?_, hne, ?_, ?_, ?_⟩
      · simp [read_loop, hs]
      · simp [poke_nil]
      · simp
      · simp
      · simp
      · simp
      · intro h; cases h
      · intro _; right; exact hs
      · intro h; rw [hs] at h; cases h
    · have hs2 : stop_check fl rc rs buf = false := by
        cases h : stop_check fl rc rs buf
        · rfl
        · exact absurd h hs
      obtain ⟨pending, log⟩ := sock
      cases pending with
      | nil =>
        refine ⟨⟨false, buf, off, rl, ⟨[], log ++ [⟨off, left, 0⟩]⟩⟩, [], ?_, ?_, ?_, ?_, ?_, ?_,
          ?_, ?_, ?_, ?_⟩
        · simp [read_loop, hs2, Sock.recv]
        · simp [poke_nil]
        · simp
        · simp
        · simp
        · simp
        · simp
        · intro _; exact ⟨rfl, by simpa using hpos⟩
        · intro h; cases h
        · intro _ f rest h; cases h
      | cons f rest =>
        have hf : f ≠ [] := hne f (by simp)
        have hflen : 0 < f.length := List.length_pos.mpr hf
        have hrest : ∀ g ∈ rest, g ≠ [] := fun g hg => hne g (by simp [hg])
        by_cases hfl : f.length ≤ left
        · by_cases hmore : left - f.length > 0
          · obtain ⟨r, D, h1, h2, h3, h4, h5, h6, h7, h8, h9, _⟩ :=
              ih (poke buf off f) (off + f.length) (left - f.length) (rl + f.length)
                ⟨rest, log ++ [⟨off, left, f.length⟩]⟩ hmore (by omega)
                (by simp only [poke, List.length_append, List.length_take, List.length_drop]
                    omega)
                hrest
            refine ⟨r, f ++ D, ?_, ?_, ?_, ?_, ?_, ?_, h7, ?_, ?_, ?_⟩
            · simp only [read_loop, hs2, Sock.recv, hfl, if_true, Bool.false_eq_true, if_false]
              rw [if_neg (Nat.pos_iff_ne_zero.mp hflen), if_pos hmore]
              exact h1
            · rw [h2, poke_poke _ _ _ _ hoff]
            · rw [h3, List.length_append]; omega
            · rw [h4, List.length_append]; omega
            · rw [List.length_append]; omega
            · simp only [List.flatten_cons, List.append_assoc]
              simp only at h6
              rw [h6]
            · intro hr
              obtain ⟨a, b⟩ := h8 hr
              exact ⟨a, by rw [List.length_append]; omega⟩
            · intro hr
              rcases h9 hr with a | a
              · left; rw [List.length_append]; omega
              · right; exact a
            · intro _ f2 rest2 he
              cases he
              rw [List.take_of_length_le hfl]
              exact List.prefix_append _ _
          · refine ⟨⟨true, poke buf off f, off + f.length, rl + f.length,
              ⟨rest, log ++ [⟨off, left, f.length⟩]⟩⟩, f, ?_, rfl, rfl, rfl, hfl, ?_, hrest,
              ?_, ?_, ?_⟩
            · simp only [read_loop, hs2, Sock.recv, hfl, if_true, Bool.false_eq_true, if_false]
              rw [if_neg (Nat.pos_iff_ne_zero.mp hflen), if_neg hmore]
            · simp
            · intro h; cases h
            · intro _; left; omega
            · intro _ f2 rest2 he
              cases he
              rw [List.take_of_length_le hfl]
        · have hlt : left < f.length := by omega
          have hlen : (f.take left).length = left := by
            rw [List.length_take]; omega
          refine ⟨⟨true, poke buf off (f.take left), off + left, rl + left,
            ⟨f.drop left :: rest, log ++ [⟨off, left, left⟩]⟩⟩, f.take left, ?_, rfl, ?_, ?_,
            ?_, ?_, ?_, ?_, ?_, ?_⟩
          · simp only [read_loop, hs2, Sock.recv, hfl, if_false, hlen, Bool.false_eq_true]
            rw [if_neg (Nat.pos_iff_ne_zero.mp hpos), if_neg (by simp)]
          · rw [hlen]
          · rw [hlen]
          · rw [hlen]
          · show f ++ rest.flatten = f.take left ++ (f.drop left ++ rest.flatten)
            rw [← List.append_assoc, List.take_append_drop]
          · intro g hg
            simp only [List.mem_cons] at hg
            rcases hg with rfl | hg
            · intro h0
              have : (f.drop left).length = 0 := by rw [h0]; rfl
              rw [List.length_drop] at this
              omega
            · exact hrest g hg
          · intro h; cases h
          · intro _; left; exact hlen
          · intro _ f2 rest2 he
            cases he
            exact List.prefix_refl _

/-- The same for `read_from_socket` itself. -/
theorem read_from_socket_spec (fl rc rs : Bool) (buf : List Nat) (max_bytes off rl : Nat)
    (sock : Sock) (hmax : max_bytes ≤ buf.length) (hne : ∀ f ∈ sock.pending, f ≠ []) :
    ∃ r D, read_from_socket sock buf max_bytes fl rc rs off rl = some r ∧
      r.buf = poke buf off D ∧ r.offset = off + D.length ∧
      D.length ≤ max_bytes - off ∧
      sock.pending.flatten = D ++ r.sock.pending.flatten ∧
      (∀ f ∈ r.sock.pending, f ≠ []) ∧
      (r.ret = false → r.sock.pending = [] ∧ r.offset < max_bytes) ∧
      (r.ret = true → max_bytes ≤ r.offset ∨ stop_check fl rc rs r.buf = true) ∧
      (off < max_bytes → stop_check fl rc rs buf = false →
        ∀ f rest, sock.pending = f :: rest → f.take (max_bytes - off) <+: D) := by
  by_cases h : off ≥ max_bytes
  · refine ⟨⟨true, buf, off, rl, sock⟩, [], ?_, ?_, ?_, ?_, ?_, hne, ?_, ?_, ?_⟩
    · simp [read_from_socket, h]
    · simp [poke_nil]
    · simp
    · simp
    · simp
    · intro h2; cases h2
    · intro _; left; simpa using h
    · intro h2; omega
  · have hlt : off < max_bytes := by omega
    obtain ⟨r, D, h1, h2, h3, _, h5, h6, h7, h8, h9, h10⟩ :=
      read_loop_spec fl rc rs (max_bytes - off) buf off (max_bytes - off) 0 sock
        (by omega) (le_refl _) (by omega) hne
    refine ⟨r, D, ?_, h2, h3, ?_, h6, h7, ?_, ?_, ?_⟩
    · simp only [read_from_socket, if_neg h]
      exact h1
    · omega
    · intro hr
      obtain ⟨a, b⟩ := h8 hr
      exact ⟨a, by omega⟩
    · intro hr
      rcases h9 hr with a | a
      · left; omega
      · right; exact a
    · intro _ hs
      exact h10 hs

theorem write_to_file_accepting (fuel : Nat) (d : Dest) (buf : List Nat) (n : Nat)
    (hcap : Accepting d.cap) (hn : n ≤ fuel) :
    ∃ d1, write_to_file fuel d buf (n : Int) = some (Transfer.done d1) ∧
      d1.data = d.data ++ buf.take n ∧ d1.cap = d.cap ∧
      d.calls ≤ d1.calls ∧ d1.calls ≤ d.calls + n := by
  have := write_loop_accepting fuel d buf 0 n hcap hn
  simpa [write_to_file] using this

theorem write_to_file_nonpos (fuel : Nat) (d : Dest) (buf : List Nat) (n : Int) (hn : n ≤ 0) :
    write_to_file fuel d buf n = some (Transfer.done d) := by
  have h : ¬ n > 0 := by omega
  cases fuel <;> simp [write_to_file, write_loop, h]

theorem stop_check_body (buf : List Nat) : stop_check false false false buf = false := by
  simp [stop_check]

/-! ## The body loop -/

/-- The body loop writes the next `content_length` bytes of the stream, or all
of them when the stream is shorter, and reaches the end of `main`. -/
theorem body_loop_spec (fuel : Nat) : ∀ (sc : Bool) (cl : Int) (buf : List Nat) (len : Nat)
    (sock : Sock) (d : Dest),
    Accepting d.cap → cl.toNat ≤ fuel → buf.length = MAX_BUFFER →
    (∀ f ∈ sock.pending, f ≠ []) → (sc = false → sock.pending = []) →
    ∃ d1, body_loop fuel sc cl buf len sock d = some (Outcome.finished, d1) ∧
      d1.data = d.data ++ sock.pending.flatten.take cl.toNat ∧ d1.cap = d.cap := by
  induction fuel with
  | zero =>
    intro sc cl buf len sock d _ hfuel _ _ _
    have hcl : ¬ cl > 0 := by omega
    have h0 : cl.toNat = 0 := by omega
    exact ⟨d, by simp [body_loop, hcl], by simp [h0], rfl⟩
  | succ fuel ih =>
    intro sc cl buf len sock d hcap hfuel hbuf hne hsc
    by_cases hc : sc = true ∧ cl > 0
    · obtain ⟨hsct, hclpos⟩ := hc
      have hm1 : 1 ≤ (if cl < (MAX_BUFFER : Int) then cl.toNat else MAX_BUFFER) := by
        split
        · omega
        · simp [MAX_BUFFER]
      have hm2 : (if cl < (MAX_BUFFER : Int) then cl.toNat else MAX_BUFFER) ≤ MAX_BUFFER := by
        split
        · rename_i h; omega
        · exact le_refl _
      have hm3 : (if cl < (MAX_BUFFER : Int) then cl.toNat else MAX_BUFFER) ≤ cl.toNat := by
        split
        · exact le_refl _
        · rename_i h; omega
      generalize hm : (if cl < (MAX_BUFFER : Int) then cl.toNat else MAX_BUFFER) = m at hm1 hm2 hm3
      obtain ⟨r, D, h1, h2, h3, h4, h5, h6, h7, h8, _⟩ :=
        read_from_socket_spec false false false buf m 0 len sock (by omega) hne
      have hoff : r.offset = D.length := by omega
      have hDm : D.length ≤ m := by omega
      by_cases hD : r.offset > 0
      · obtain ⟨d', w1, w2, w3, _, _⟩ :=
          write_to_file_accepting r.offset d r.buf r.offset hcap (le_refl _)
        have hlen : r.buf.length = MAX_BUFFER := by
          rw [h2, poke_length _ _ _ (by omega)]; exact hbuf
        obtain ⟨d1, b1, b2, b3⟩ := ih r.ret (cl - (r.offset : Int)) r.buf r.read_length r.sock d'
          (by rw [w3]; exact hcap) (by omega) hlen h6 (fun hr => (h7 hr).1)
        refine ⟨d1, ?_, ?_, ?_⟩
        · simp only [body_loop, hsct, hclpos, Bool.true_and, decide_True, if_true, hm, h1,
            hD, w1]
          exact b1
        · rw [b2, w2, h5, h2]
          have e1 : (poke buf 0 D).take r.offset = D := by
            simp [poke, hoff]
          have e2 : (cl - (r.offset : Int)).toNat = cl.toNat - D.length := by omega
          have hDcl : D.length ≤ cl.toNat := by omega
          rw [e1, e2, List.take_append_eq_append_take, List.take_of_length_le hDcl,
            List.append_assoc]
        · rw [b3, w3]
      · have hD0 : D = [] := List.length_eq_zero.mp (by omega)
        have hret : r.ret = false := by
          cases hr : r.ret
          · rfl
          · rcases h8 hr with a | a
            · omega
            · rw [stop_check_body] at a; cases a
        have hp := (h7 hret).1
        refine ⟨d, ?_, ?_, rfl⟩
        · simp only [body_loop, hsct, hclpos, Bool.true_and, decide_True, if_true, hm, h1]
          rw [if_neg hD]
        · rw [h5, hD0, hp]; simp
    · refine ⟨d, ?_, ?_, rfl⟩
      · have : (sc && decide (cl > 0)) = false := by
          cases sc
          · rfl
          · simp only [true_and] at hc; simp [hc]
        simp [body_loop, this]
      · cases sc
        · rw [hsc rfl]; simp
        · simp only [true_and] at hc
          have h0 : cl.toNat = 0 := by omega
          simp [h0]

/-! ## The header reads -/

theorem strstr_nil (needle : List Nat) (h : needle ≠ []) : strstr [] needle = none := by
  cases needle with
  | nil => exact absurd rfl h
  | cons a t => simp [strstr, List.isPrefixOf]

theorem stop_check_zeros (fl rc rs : Bool) :
    stop_check fl rc rs (List.replicate MAX_BUFFER 0) = false := by
  have hc : cstr (List.replicate MAX_BUFFER 0) = [] := by
    have := cstr_zeros [] MAX_BUFFER
    simp only [List.nil_append] at this
    rw [this]; rfl
  simp [stop_check, hc, strstr_nil, LINE_END, HEAD_CONTENT_SPLIT, CONTENT_LENGTH_FIELD]

/-- The first read of `main`, on the cleared buffer: it stores at least the
first fragment, cut at the buffer size. -/
theorem header_first (fl rc rs : Bool) (sock : Sock) (hne : ∀ f ∈ sock.pending, f ≠ []) :
    ∃ r D, read_from_socket sock (List.replicate MAX_BUFFER 0) MAX_BUFFER fl rc rs 0 0 = some r ∧
      Holds D r ∧ sock.pending.flatten = D ++ r.sock.pending.flatten ∧
      (∀ f rest, sock.pending = f :: rest → f.take MAX_BUFFER <+: D) := by
  obtain ⟨r, D, h1, h2, h3, h4, h5, h6, h7, _, h9⟩ :=
    read_from_socket_spec fl rc rs (List.replicate MAX_BUFFER 0) MAX_BUFFER 0 0 sock
      (by simp) hne
  refine ⟨r, D, h1, ⟨?_, by omega, by omega, h6, fun hr => (h7 hr).1⟩, h5, ?_⟩
  · have := poke_zeros [] D MAX_BUFFER
    simp only [List.nil_append, List.length_nil] at this
    rw [h2, this]
  · intro f rest hp
    have := h9 (by simp [MAX_BUFFER]) (stop_check_zeros fl rc rs) f rest hp
    simpa using this

/-- A later header read, made only when the one before returned `true`. -/
theorem header_next (fl rc rs : Bool) (r : ReadResult) (D : List Nat) (h : Holds D r) :
    ∃ r' D', (if r.ret then
        read_from_socket r.sock r.buf MAX_BUFFER fl rc rs r.offset r.read_length
      else some r) = some r' ∧
      Holds (D ++ D') r' ∧ r.sock.pending.flatten = D' ++ r'.sock.pending.flatten := by
  obtain ⟨hb, ho, hl, hne, hret⟩ := h
  cases hr : r.ret
  · refine ⟨r, [], by simp, ?_, by simp⟩
    simp only [List.append_nil]
    exact ⟨hb, ho, hl, hne, hret⟩
  · have hlen : r.buf.length = MAX_BUFFER := by
      rw [hb]; simp only [List.length_append, List.length_replicate]; omega
    obtain ⟨r', D', h1, h2, h3, h4, h5, h6, h7, _, _⟩ :=
      read_from_socket_spec fl rc rs r.buf MAX_BUFFER r.offset r.read_length r.sock
        (by omega) hne
    refine ⟨r', D', by simpa using h1, ⟨?_, ?_, ?_, h6, fun hr => (h7 hr).1⟩, h5⟩
    · rw [h2, hb, ho, poke_zeros, List.length_append]
      congr 2
      omega
    · rw [h3, ho, List.length_append]
    · rw [List.length_append]; omega

/-- The three header reads of `main` always return; the lines 110 to 143 then
depend only on what `strstr` finds in the buffers they left. -/
theorem main_header_shape (sock : Sock) (hne : ∀ f ∈ sock.pending, f ≠ []) :
    ∃ r1 r2 r3 D1 D2 D3,
      Holds D1 r1 ∧ Holds (D1 ++ D2) r2 ∧ Holds (D1 ++ D2 ++ D3) r3 ∧
      sock.pending.flatten = D1 ++ D2 ++ D3 ++ r3.sock.pending.flatten ∧
      (∀ f rest, sock.pending = f :: rest → f.take MAX_BUFFER <+: D1) ∧
      main_header sock =
        (match strstr (cstr r1.buf) LINE_END with
        | none => some (Stage.exit Outcome.firstLineMissing)
        | some first_line_end =>
          if (strstr (cstr r1.buf) HTTP_RESPONSE_OK).isNone then
            some (Stage.exit (Outcome.badStatus ((cstr r1.buf).take first_line_end)))
          else
            match strstr (cstr r2.buf) CONTENT_LENGTH_FIELD with
            | none => some (Stage.exit Outcome.lengthUnknown)
            | some content_length_str =>
              some (Stage.go ⟨r3.buf, r3.offset, r3.read_length, r3.ret,
                atoi ((cstr r2.buf).drop (content_length_str + strlen CONTENT_LENGTH_FIELD)),
                r3.sock⟩)) := by
  obtain ⟨r1, D1, a1, a2, a3, a4⟩ := header_first true false false sock hne
  obtain ⟨r2, D2, b1, b2, b3⟩ := header_next false true false r1 D1 a2
  obtain ⟨r3, D3, c1, c2, c3⟩ := header_next false false true r2 (D1 ++ D2) b2
  refine ⟨r1, r2, r3, D1, D2, D3, a2, b2, c2, ?_, a4, ?_⟩
  · rw [a3, b3, c3]; simp [List.append_assoc]
  · simp only [main_header, a1]
    cases h1 : strstr (cstr r1.buf) LINE_END with
    | none => rfl
    | some fle =>
      simp only []
      by_cases h2 : (strstr (cstr r1.buf) HTTP_RESPONSE_OK).isNone = true
      · simp [h2]
      · simp only [h2, if_false, Bool.false_eq_true, b1]
        cases h3 : strstr (cstr r2.buf) CONTENT_LENGTH_FIELD with
        | none => rfl
        | some cls => simp only [c1]

/-! ## The session after the header reads -/

/-- In a session that has passed the header reads, the buffer holds the first
`offset` bytes of the stream followed by zeros. -/
theorem session_inv (sock : Sock) (s : Session) (hne : ∀ f ∈ sock.pending, f ≠ [])
    (hs : main_header sock = some (Stage.go s)) :
    ∃ D, s.buf = D ++ List.replicate (MAX_BUFFER - D.length) 0 ∧ s.offset = D.length ∧
      D.length ≤ MAX_BUFFER ∧ sock.pending.flatten = D ++ s.sockfd.pending.flatten ∧
      (∀ f ∈ s.sockfd.pending, f ≠ []) ∧ (s.should_continue = false → s.sockfd.pending = []) := by
  obtain ⟨r1, r2, r3, D1, D2, D3, _, _, h3, h4, _, h6⟩ := main_header_shape sock hne
  rw [h6] at hs
  obtain ⟨c1, c2, c3, c4, c5⟩ := h3
  split at hs
  · cases hs
  · split at hs
    · cases hs
    · split at hs
      · cases hs
      · cases hs
        exact ⟨D1 ++ D2 ++ D3, c1, c2, c3, h4, c4, c5⟩

theorem split_inside (D : List Nat) (n i : Nat)
    (h : strstr (cstr (D ++ List.replicate n 0)) HEAD_CONTENT_SPLIT = some i) :
    i + 4 ≤ D.length := by
  rw [cstr_zeros] at h
  have := (strstr_bound _ _ _ h).2
  have h2 := cstr_length_le D
  simp only [HEAD_CONTENT_SPLIT, List.length_cons, List.length_nil] at this
  omega

/-- The initial flush writes the first `min k L` bytes buffered after the
separator, `k` being their number and `L` the content length. -/
theorem initial_flush_spec (D : List Nat) (n i : Nat) (L : Int) (d : Dest)
    (hi : i + 4 ≤ D.length) (hcap : Accepting d.cap) :
    ∃ d1, initial_flush (D ++ List.replicate n 0) D.length L d i =
        some (Transfer.done d1, L - min ((D.length - (i + 4) : Nat) : Int) L) ∧
      d1.data = d.data ++ (D.drop (i + 4)).take (min (D.length - (i + 4)) L.toNat) ∧
      d1.cap = d.cap := by
  have hk : ((D.length : Int) - ((i + 4 : Nat) : Int)) =
      ((D.length - (i + 4) : Nat) : Int) := by
    omega
  generalize hkk : D.length - (i + 4) = k at hk
  have ha : (if (k : Int) > L then L else (k : Int)) = min (k : Int) L := by
    split
    · rename_i h; rw [min_eq_right (le_of_lt h)]
    · rename_i h; rw [min_eq_left (by omega)]
  have hsl : i + strlen HEAD_CONTENT_SPLIT = i + 4 := by
    simp [strlen, HEAD_CONTENT_SPLIT]
  by_cases hpos : min (k : Int) L ≤ 0
  · refine ⟨d, ?_, ?_, rfl⟩
    · simp only [initial_flush, hsl, hk, ha, write_to_file_nonpos _ _ _ _ hpos]
    · have : min k L.toNat = 0 := by omega
      simp [this]
  · have hcast : min (k : Int) L = ((min k L.toNat : Nat) : Int) := by omega
    obtain ⟨d1, w1, w2, w3, _, _⟩ :=
      write_to_file_accepting (min k L.toNat) d ((D ++ List.replicate n 0).drop (i + 4))
        (min k L.toNat) hcap (le_refl _)
    refine ⟨d1, ?_, ?_, w3⟩
    · simp only [initial_flush, hsl, hk, ha]
      rw [hcast, Int.toNat_ofNat, w1]
    · rw [w2]
      congr 1
      rw [List.drop_append_of_le_length (by omega), List.take_append_of_le_length]
      rw [List.length_drop]
      omega

/-- Once the separator has been found at index `i`, the lines 145 to 176 write
the first `content_length` bytes the stream carries after index `i + 4` (all of
them when there are fewer), and `main` returns 0. -/
theorem main_body_spec (sock : Sock) (s : Session) (file_name : List Nat)
    (file_cap : Nat → Option Nat) (i : Nat) (hne : ∀ f ∈ sock.pending, f ≠ [])
    (hs : main_header sock = some (Stage.go s))
    (hsplit : strstr (cstr s.buf) HEAD_CONTENT_SPLIT = some i) (hcap : Accepting file_cap) :
    main_body s file_name true file_cap =
      some ⟨Outcome.finished, [], some (cstr file_name),
        (sock.pending.flatten.drop (i + 4)).take s.content_length.toNat⟩ := by
  obtain ⟨D, h1, h2, h3, h4, h5, h6⟩ := session_inv sock s hne hs
  have hi : i + 4 ≤ D.length := by
    rw [h1] at hsplit
    exact split_inside D _ i hsplit
  obtain ⟨d1, f1, f2, f3⟩ :=
    initial_flush_spec D (MAX_BUFFER - D.length) i s.content_length ⟨file_cap, 0, []⟩ hi hcap
  have hlen : s.buf.length = MAX_BUFFER := by
    rw [h1]; simp only [List.length_append, List.length_replicate]; omega
  obtain ⟨d2, b1, b2, _⟩ :=
    body_loop_spec (s.content_length - min ((D.length - (i + 4) : Nat) : Int) s.content_length).toNat
      s.should_continue
      (s.content_length - min ((D.length - (i + 4) : Nat) : Int) s.content_length)
      s.buf s.length s.sockfd d1 (by rw [f3]; exact hcap) (le_refl _) hlen h5 h6
  simp only [main_body, Bool.not_true, Bool.false_eq_true, if_false, hsplit]
  rw [h1, h2, f1]
  simp only []
  rw [← h1, b1]
  simp only [Option.some.injEq, Run.mk.injEq, true_and]
  rw [b2, f2, h4, List.drop_append_of_le_length hi, List.take_append_eq_append_take,
    List.length_drop]
  simp only [List.nil_append]
  have hX : (D.drop (i + 4)).length = D.length - (i + 4) := List.length_drop _ _
  generalize D.drop (i + 4) = X at hX ⊢
  generalize D.length - (i + 4) = k at hX ⊢
  generalize s.content_length = L
  rcases le_or_lt L (k : Int) with hle | hlt
  · have e1 : min k L.toNat = L.toNat := by omega
    have e2 : (L - min (k : Int) L).toNat = 0 := by omega
    have e3 : L.toNat - k = 0 := by omega
    rw [e1, e2, e3]
  · have e1 : min k L.toNat = k := by omega
    have e2 : (L - min (k : Int) L).toNat = L.toNat - k := by omega
    rw [e1, e2, List.take_of_length_le (le_of_eq hX),
      List.take_of_length_le (l := X) (by omega)]

/-! ## Decimal texts -/

theorem digitChar_code (m : Nat) (h : m < 10) :
    isdigit (Nat.digitChar m).toNat = true ∧ (Nat.digitChar m).toNat - 48 = m := by
  interval_cases m <;> exact ⟨by decide, by decide⟩

theorem atoi_digits_core (fuel : Nat) : ∀ (n : Nat) (ds : List Char) (rest : List Nat),
    n < fuel →
    atoi_digits 0 ((Nat.toDigitsCore 10 fuel n ds).map Char.toNat ++ rest) =
      atoi_digits n (ds.map Char.toNat ++ rest) := by
  induction fuel with
  | zero => intro n ds rest h; omega
  | succ fuel ih =>
    intro n ds rest h
    obtain ⟨hd, hv⟩ := digitChar_code (n % 10) (Nat.mod_lt _ (by decide))
    by_cases h0 : n / 10 = 0
    · have hn : n % 10 = n := Nat.mod_eq_of_lt (by omega)
      rw [hn] at hd hv
      simp only [Nat.toDigitsCore, h0, if_true, List.map_cons, List.cons_append, atoi_digits, hn]
      rw [if_pos hd, hv, Nat.zero_mul, Nat.zero_add]
    · have hlt : n / 10 < fuel := by omega
      simp only [Nat.toDigitsCore, h0, if_false]
      rw [ih (n / 10) _ rest hlt]
      simp only [List.map_cons, List.cons_append, atoi_digits, hd, if_true, hv]
      congr 1
      omega

theorem toDigitsCore_head (fuel : Nat) : ∀ (n : Nat) (ds : List Char), n < fuel →
    ∃ c cs, Nat.toDigitsCore 10 fuel n ds = c :: cs ∧ isdigit c.toNat = true := by
  induction fuel with
  | zero => intro n ds h; omega
  | succ fuel ih =>
    intro n ds h
    by_cases h0 : n / 10 = 0
    · exact ⟨Nat.digitChar (n % 10), ds, by simp [Nat.toDigitsCore, h0],
        (digitChar_code (n % 10) (Nat.mod_lt _ (by decide))).1⟩
    · have hlt : n / 10 < fuel := by omega
      obtain ⟨c, cs, hc, hd⟩ := ih (n / 10) (Nat.digitChar (n % 10) :: ds) hlt
      exact ⟨c, cs, by simp [Nat.toDigitsCore, h0, hc], hd⟩

theorem atoi_digits_decimal (N : Nat) (rest : List Nat) :
    atoi_digits 0 (decimalNat N ++ rest) = atoi_digits N rest := by
  have := atoi_digits_core (N + 1) N [] rest (by omega)
  simpa [decimalNat, Nat.toDigits] using this

/-- The function `strtol` reads `N`, kept to the range of `long`, from a
space, the decimal text of `N` and a rest that does not go on with a digit. -/
theorem strtol_number (N : Nat) (Z : List Nat) (hZ : ∀ c ∈ Z.head?, isdigit c = false) :
    strtol (32 :: (decimalNat N ++ Z)) = min (N : Int) LONG_MAX := by
  obtain ⟨c, cs, hc, hd⟩ := toDigitsCore_head (N + 1) N [] (by omega)
  have hdec : decimalNat N = c.toNat :: cs.map Char.toNat := by
    simp [decimalNat, Nat.toDigits, hc]
  have hval := atoi_digits_decimal N Z
  rw [hdec] at hval
  have hsp : isspace c.toNat = false := by
    simp only [isdigit, Bool.and_eq_true, decide_eq_true_eq] at hd
    simp only [isspace, Bool.or_eq_false_iff, Bool.and_eq_false_iff, beq_eq_false_iff_ne,
      decide_eq_false_iff_not]
    omega
  have h45 : c.toNat ≠ 45 := by
    simp only [isdigit, Bool.and_eq_true, decide_eq_true_eq] at hd; omega
  have h43 : c.toNat ≠ 43 := by
    simp only [isdigit, Bool.and_eq_true, decide_eq_true_eq] at hd; omega
  have hdrop : (32 :: (decimalNat N ++ Z)).dropWhile isspace =
      c.toNat :: (cs.map Char.toNat ++ Z) := by
    rw [hdec]
    have h32 : isspace 32 = true := by decide
    simp only [List.dropWhile_cons, h32, if_true, List.cons_append, hsp, Bool.false_eq_true,
      if_false]
  have hstop : atoi_digits N Z = N := by
    cases Z with
    | nil => rfl
    | cons z zs =>
      have := hZ z (by simp)
      simp [atoi_digits, this]
  unfold strtol
  rw [hdrop]
  split
  · rename_i h; simp only [List.cons.injEq] at h; exact absurd h.1 h45
  · rename_i h; simp only [List.cons.injEq] at h; exact absurd h.1 h43
  · simp only [List.cons_append] at hval
    rw [hval, hstop]

/-- A number below `2^31` is not changed by `strtol` and the conversion to
`int`. -/
theorem toInt_small (N : Nat) (hN : N < 2 ^ 31) : toInt (min (N : Int) LONG_MAX) = (N : Int) := by
  have h1 : min (N : Int) LONG_MAX = (N : Int) := by
    simp only [LONG_MAX]; omega
  rw [h1]
  simp only [toInt]
  omega

/-- The function `atoi` reads `N < 2^31` from a space, the decimal text of `N`
and a rest that does not go on with a digit. -/
theorem atoi_number (N : Nat) (Z : List Nat) (hN : N < 2 ^ 31)
    (hZ : ∀ c ∈ Z.head?, isdigit c = false) :
    atoi (32 :: (decimalNat N ++ Z)) = (N : Int) := by
  rw [atoi, strtol_number N Z hZ, toInt_small N hN]

/-- The function `atoi` reads `N < 2^31` from `" N\r"`, where `N` is written
in decimal. -/
theorem atoi_field (N : Nat) (tail : List Nat) (hN : N < 2 ^ 31) :
    atoi (32 :: (decimalNat N ++ 13 :: tail)) = (N : Int) :=
  atoi_number N (13 :: tail) hN (by intro c hc; simp at hc; subst hc; decide)

/-! ## A header that arrives whole -/

theorem cstr_of_prefix (H D : List Nat) (n : Nat) (hnul : ∀ b ∈ H, b ≠ 0) (hp : H <+: D) :
    ∃ Y, cstr (D ++ List.replicate n 0) = H ++ Y := by
  obtain ⟨X, rfl⟩ := hp
  exact ⟨cstr X, by rw [cstr_zeros, cstr_append H X hnul]⟩

/-- A header that arrives whole in the first fragment: the content length is
the declared number as `atoi` returns it, kept to the range of `long` and then
to the 32 bits of an `int`, and the separator is found at the end of the
header. -/
theorem header_session_int (H : List Nat) (N j : Nat) (tail : List Nat) (sock : Sock)
    (hnul : ∀ b ∈ H, b ≠ 0) (hok : HTTP_RESPONSE_OK <:+: H)
    (hsplit : strstr H HEAD_CONTENT_SPLIT = some (H.length - 4))
    (hj : strstr H CONTENT_LENGTH_FIELD = some j)
    (hfield : H.drop (j + 15) = 32 :: (decimalNat N ++ 13 :: tail))
    (hlen : H.length ≤ MAX_BUFFER) (hne : ∀ f ∈ sock.pending, f ≠ [])
    (hfirst : ∃ f rest, sock.pending = f :: rest ∧ H <+: f) :
    ∃ s, main_header sock = some (Stage.go s) ∧
      s.content_length = toInt (min (N : Int) LONG_MAX) ∧
      strstr (cstr s.buf) HEAD_CONTENT_SPLIT = some (H.length - 4) := by
  obtain ⟨r1, r2, r3, D1, D2, D3, a1, a2, a3, _, a5, a6⟩ := main_header_shape sock hne
  obtain ⟨f, rest, hf, hHf⟩ := hfirst
  have hD1 : H <+: D1 := by
    have h1 := a5 f rest hf
    obtain ⟨X, rfl⟩ := hHf
    have : H <+: (H ++ X).take MAX_BUFFER := by
      rw [List.take_append_eq_append_take, List.take_of_length_le hlen]
      exact List.prefix_append _ _
    exact this.trans h1
  have hD2 : H <+: D1 ++ D2 := hD1.trans (List.prefix_append _ _)
  have hD3 : H <+: D1 ++ D2 ++ D3 := hD2.trans (List.prefix_append _ _)
  obtain ⟨Y1, c1⟩ := cstr_of_prefix H D1 (MAX_BUFFER - D1.length) hnul hD1
  obtain ⟨Y2, c2⟩ := cstr_of_prefix H (D1 ++ D2) (MAX_BUFFER - (D1 ++ D2).length) hnul hD2
  obtain ⟨Y3, c3⟩ := cstr_of_prefix H (D1 ++ D2 ++ D3) (MAX_BUFFER - (D1 ++ D2 ++ D3).length)
    hnul hD3
  rw [← a1.1] at c1
  rw [← a2.1] at c2
  rw [← a3.1] at c3
  -- the first line and the status
  obtain ⟨u, v, huv⟩ := hok
  have hline : ∃ i, strstr H LINE_END = some i := by
    have := strstr_mid LINE_END v (u ++ [50, 48, 48, 32, 79, 75])
    rw [← huv]
    simpa [HTTP_RESPONSE_OK, LINE_END, List.append_assoc] using this
  have hstat : ∃ i, strstr H HTTP_RESPONSE_OK = some i := by
    have := strstr_mid HTTP_RESPONSE_OK v u
    rw [← huv]
    exact this
  obtain ⟨i1, hi1⟩ := hline
  obtain ⟨i2, hi2⟩ := hstat
  have e1 : strstr (cstr r1.buf) LINE_END = some i1 := by
    rw [c1]; exact strstr_append _ _ _ _ hi1
  have e2 : strstr (cstr r1.buf) HTTP_RESPONSE_OK = some i2 := by
    rw [c1]; exact strstr_append _ _ _ _ hi2
  have e3 : strstr (cstr r2.buf) CONTENT_LENGTH_FIELD = some j := by
    rw [c2]; exact strstr_append _ _ _ _ hj
  have e4 : strstr (cstr r3.buf) HEAD_CONTENT_SPLIT = some (H.length - 4) := by
    rw [c3]; exact strstr_append _ _ _ _ hsplit
  have hjb : j + 15 ≤ H.length := by
    have := (strstr_bound _ _ _ hj).2
    simpa [CONTENT_LENGTH_FIELD] using this
  have e5 : atoi ((cstr r2.buf).drop (j + strlen CONTENT_LENGTH_FIELD)) =
      toInt (min (N : Int) LONG_MAX) := by
    have hs : j + strlen CONTENT_LENGTH_FIELD = j + 15 := by
      simp [strlen, CONTENT_LENGTH_FIELD]
    rw [hs, c2, List.drop_append_of_le_length hjb, hfield]
    have := strtol_number N (13 :: (tail ++ Y2)) (by intro c hc; simp at hc; subst hc; decide)
    rw [atoi]
    simpa [List.append_assoc] using congrArg toInt this
  refine ⟨⟨r3.buf, r3.offset, r3.read_length, r3.ret, toInt (min (N : Int) LONG_MAX), r3.sock⟩,
    ?_, rfl, e4⟩
  rw [a6, e1]
  simp only [e2, Option.isNone_some, Bool.false_eq_true, if_false, e3, e5]

/-- A header that arrives whole in the first fragment and declares a length
`N < 2^31` is parsed as it reads: the content length is `N` and the separator
is found at its end. -/
theorem header_session (H : List Nat) (N j : Nat) (tail : List Nat) (sock : Sock)
    (hnul : ∀ b ∈ H, b ≠ 0) (hok : HTTP_RESPONSE_OK <:+: H)
    (hsplit : strstr H HEAD_CONTENT_SPLIT = some (H.length - 4))
    (hj : strstr H CONTENT_LENGTH_FIELD = some j)
    (hfield : H.drop (j + 15) = 32 :: (decimalNat N ++ 13 :: tail))
    (hlen : H.length ≤ MAX_BUFFER) (hN : N < 2 ^ 31) (hne : ∀ f ∈ sock.pending, f ≠ [])
    (hfirst : ∃ f rest, sock.pending = f :: rest ∧ H <+: f) :
    ∃ s, main_header sock = some (Stage.go s) ∧ s.content_length = (N : Int) ∧
      strstr (cstr s.buf) HEAD_CONTENT_SPLIT = some (H.length - 4) := by
  obtain ⟨s, s1, s2, s3⟩ := header_session_int H N j tail sock hnul hok hsplit hj hfield hlen hne
    hfirst
  exact ⟨s, s1, by rw [s2, toInt_small N hN], s3⟩

/-! ## The download -/

/-- C2 (amended). A 200 OK response whose complete header `H` (no NUL byte,
containing `"200 OK\r\n"`, first text `"Content-Length:"` followed by
`" N\r"` with `N < 2^31`, first `"\r\n\r\n"` at its end, no longer than the
buffer) arrives in the first fragment, together with the first `k` body bytes,
the other body bytes being cut into non-empty fragments in any way: the lines
110 to 176 of `main` reach `return 0` and the file holds exactly the first `N`
body bytes, in order. -/
theorem header_in_first_fragment (H : List Nat) (N j : Nat) (tail body : List Nat) (k : Nat)
    (frags : List (List Nat)) (log : List RecvCall) (file_name : List Nat)
    (file_cap : Nat → Option Nat)
    (hnul : ∀ b ∈ H, b ≠ 0) (hok : HTTP_RESPONSE_OK <:+: H)
    (hsplit : strstr H HEAD_CONTENT_SPLIT = some (H.length - 4))
    (hj : strstr H CONTENT_LENGTH_FIELD = some j)
    (hfield : H.drop (j + 15) = 32 :: (decimalNat N ++ 13 :: tail))
    (hlen : H.length ≤ MAX_BUFFER) (hN : N < 2 ^ 31)
    (hfr : ∀ f ∈ frags, f ≠ []) (hjoin : frags.flatten = body.drop k)
    (hcap : Accepting file_cap) :
    ∃ run, main_response ⟨(H ++ body.take k) :: frags, log⟩ file_name true file_cap = some run ∧
      run.outcome = Outcome.finished ∧ run.outcome.exitStatus = some 0 ∧
      run.opened = some (cstr file_name) ∧ run.written = body.take N := by
  have h4 : 4 ≤ H.length := by
    have := (strstr_bound _ _ _ hsplit).2
    simp only [HEAD_CONTENT_SPLIT, List.length_cons, List.length_nil] at this
    omega
  have hne : ∀ f ∈ (⟨(H ++ body.take k) :: frags, log⟩ : Sock).pending, f ≠ [] := by
    intro f hf
    simp only [List.mem_cons] at hf
    rcases hf with rfl | hf
    · intro h0
      have : (H ++ body.take k).length = 0 := by rw [h0]; rfl
      rw [List.length_append] at this
      omega
    · exact hfr f hf
  obtain ⟨s, s1, s2, s3⟩ := header_session H N j tail ⟨(H ++ body.take k) :: frags, log⟩ hnul hok
    hsplit hj hfield hlen hN hne ⟨_, _, rfl, List.prefix_append _ _⟩
  have hb := main_body_spec _ s file_name file_cap (H.length - 4) hne s1 s3 hcap
  have hr : main_response ⟨(H ++ body.take k) :: frags, log⟩ file_name true file_cap =
      main_body s file_name true file_cap := by
    simp only [main_response, s1]
  rw [hb] at hr
  refine ⟨_, hr, rfl, rfl, rfl, ?_⟩
  have e : H.length - 4 + 4 = H.length := by omega
  simp only [List.flatten_cons, hjoin, List.append_assoc, List.take_append_drop, e, s2,
    Int.toNat_ofNat, List.drop_left]

/-- Witness of C2 (amended): the two scenarios of the specification,
`"Hello"` bundled with the header, and `"Hel"` then `"lo"` after it. -/
theorem header_in_first_fragment_witness :
    (∃ run, main_response ⟨(scenario_header ++ scenario_body.take 5) :: [], []⟩ [111, 117, 116]
        true (fun _ => some 4096) = some run ∧
      run.outcome = Outcome.finished ∧ run.outcome.exitStatus = some 0 ∧
      run.opened = some (cstr [111, 117, 116]) ∧ run.written = scenario_body.take 5) ∧
    (∃ run, main_response ⟨(scenario_header ++ scenario_body.take 0) ::
          [[72, 101, 108], [108, 111]], []⟩ [111, 117, 116] true (fun _ => some 1) = some run ∧
      run.outcome = Outcome.finished ∧ run.outcome.exitStatus = some 0 ∧
      run.opened = some (cstr [111, 117, 116]) ∧ run.written = scenario_body.take 5) :=
  ⟨header_in_first_fragment scenario_header 5 17 [10, 13, 10] scenario_body 5 [] [] _ _
      (by decide) ⟨[72, 84, 84, 80, 47, 49, 46, 48, 32],
        [67, 111, 110, 116, 101, 110, 116, 45, 76, 101, 110, 103, 116, 104, 58, 32, 53, 13, 10,
          13, 10], rfl⟩
      (by decide) (by decide) (by decide) (by decide) (by decide) (by decide) (by decide)
      (fun _ => ⟨4096, rfl, by decide⟩),
    header_in_first_fragment scenario_header 5 17 [10, 13, 10] scenario_body 0
      [[72, 101, 108], [108, 111]] [] _ _
      (by decide) ⟨[72, 84, 84, 80, 47, 49, 46, 48, 32],
        [67, 111, 110, 116, 101, 110, 116, 45, 76, 101, 110, 103, 116, 104, 58, 32, 53, 13, 10,
          13, 10], rfl⟩
      (by decide) (by decide) (by decide) (by decide) (by decide) (by decide) (by decide)
      (fun _ => ⟨1, rfl, by decide⟩)⟩


/-- C3. A session of `main` that has located the header/body split at index
`i` of the buffer and parsed a content length `L ≥ 0`, with
`k = offset - (i + 4)` bytes buffered past the split: the initial flush writes
exactly the first `min k L` of those bytes and leaves `L - min k L` as the
remaining length; the file ends as those bytes followed by at most
`L - min k L` bytes read later from the stream, so when `k ≥ L` the file is
exactly the first `L` buffered bytes and no byte of the excess is written. -/
theorem flush_clamp (sock : Sock) (s : Session) (file_name : List Nat)
    (file_cap : Nat → Option Nat) (i : Nat) (hne : ∀ f ∈ sock.pending, f ≠ [])
    (hs : main_header sock = some (Stage.go s))
    (hsplit : strstr (cstr s.buf) HEAD_CONTENT_SPLIT = some i)
    (hL : 0 ≤ s.content_length) (hcap : Accepting file_cap) :
    i + 4 ≤ s.offset ∧
    (∃ d, initial_flush s.buf s.offset s.content_length ⟨file_cap, 0, []⟩ i =
        some (Transfer.done d,
          s.content_length - ((min (s.offset - (i + 4)) s.content_length.toNat : Nat) : Int)) ∧
      d.data = ((s.buf.drop (i + 4)).take (s.offset - (i + 4))).take
        (min (s.offset - (i + 4)) s.content_length.toNat)) ∧
    (∃ run, main_response sock file_name true file_cap = some run ∧
      run.written = ((s.buf.drop (i + 4)).take (s.offset - (i + 4))).take
          (min (s.offset - (i + 4)) s.content_length.toNat) ++
        s.sockfd.pending.flatten.take
          (s.content_length.toNat - min (s.offset - (i + 4)) s.content_length.toNat) ∧
      (s.content_length.toNat ≤ s.offset - (i + 4) →
        run.written = ((s.buf.drop (i + 4)).take (s.offset - (i + 4))).take
          s.content_length.toNat)) := by
  obtain ⟨D, h1, h2, h3, h4, h5, h6⟩ := session_inv sock s hne hs
  have hi : i + 4 ≤ D.length := by
    rw [h1] at hsplit
    exact split_inside D _ i hsplit
  obtain ⟨d1, f1, f2, _⟩ :=
    initial_flush_spec D (MAX_BUFFER - D.length) i s.content_length ⟨file_cap, 0, []⟩ hi hcap
  have hb := main_body_spec sock s file_name file_cap i hne hs hsplit hcap
  have hr : main_response sock file_name true file_cap = main_body s file_name true file_cap := by
    simp only [main_response, hs]
  rw [hb] at hr
  have hbund : (s.buf.drop (i + 4)).take (s.offset - (i + 4)) = D.drop (i + 4) := by
    rw [h1, h2, List.drop_append_of_le_length hi, List.take_append_of_le_length
      (by rw [List.length_drop]), List.take_of_length_le (by rw [List.length_drop])]
  have hX : (D.drop (i + 4)).length = D.length - (i + 4) := List.length_drop _ _
  have hwr : (sock.pending.flatten.drop (i + 4)).take s.content_length.toNat =
      (D.drop (i + 4)).take (min (D.length - (i + 4)) s.content_length.toNat) ++
        s.sockfd.pending.flatten.take
          (s.content_length.toNat - min (D.length - (i + 4)) s.content_length.toNat) := by
    rw [h4, List.drop_append_of_le_length hi, List.take_append_eq_append_take, hX]
    generalize D.drop (i + 4) = X at hX ⊢
    rcases Nat.le_total (D.length - (i + 4)) s.content_length.toNat with h | h
    · rw [Nat.min_eq_left h, List.take_of_length_le (by omega),
        List.take_of_length_le (l := X) (by omega)]
    · rw [Nat.min_eq_right h]
      have e : s.content_length.toNat - (D.length - (i + 4)) = 0 := by omega
      rw [e, Nat.sub_self]
  refine ⟨by omega, ⟨d1, ?_, ?_⟩, ⟨_, hr, ?_, ?_⟩⟩
  · rw [h1, h2, f1]
    congr 2
    omega
  · rw [f2, hbund, h2]
    simp
  · rw [hbund, h2]
    exact hwr
  · intro hle
    rw [hbund]
    show (sock.pending.flatten.drop (i + 4)).take s.content_length.toNat = _
    rw [hwr, h2] at *
    rw [Nat.min_eq_right hle, Nat.sub_self]
    simp

/-- Witness of C3: the scenario header with `"Hello, world"` in one fragment;
12 bytes are buffered past the split and 5 are declared. -/
theorem flush_clamp_witness :
    4 + 34 ≤ long_session.offset ∧ ∃ run,
      main_response ⟨[scenario_header ++ [72, 101, 108, 108, 111, 44, 32, 119, 111, 114, 108,
        100]], []⟩ [111, 117, 116] true (fun _ => some 2) = some run ∧
      run.written = scenario_body := by
  have h := flush_clamp ⟨[scenario_header ++ [72, 101, 108, 108, 111, 44, 32, 119, 111, 114, 108,
        100]], []⟩ long_session [111, 117, 116] (fun _ => some 2) 34 (by decide) (by rfl)
      (by rfl) (by decide) (fun _ => ⟨2, rfl, by decide⟩)
  obtain ⟨h1, _, run, h3, _, h5⟩ := h
  refine ⟨by omega, run, h3, ?_⟩
  rw [h5 (by decide)]
  decide

/-! ## The output file name -/

theorem set_eq_poke (fn : List Nat) (rl c : Nat) (h : rl < fn.length) :
    fn.set rl c = poke fn rl [c] := by
  rw [List.set_eq_take_append_cons_drop, if_pos h]
  simp [poke]

/-- The `while` loop of `parse_file_name` stores the bytes after the last
`'/'`, last byte first. -/
theorem scan_name_spec (path : List Nat) : ∀ (len : Nat) (fn : List Nat) (rl : Nat),
    len ≤ path.length →
    rl + ((path.take len).reverse.takeWhile (fun b => b != 47)).length ≤ MAX_BUFFER →
    rl + ((path.take len).reverse.takeWhile (fun b => b != 47)).length ≤ fn.length →
    scan_name path len fn rl =
      some (poke fn rl ((path.take len).reverse.takeWhile (fun b => b != 47)),
        rl + ((path.take len).reverse.takeWhile (fun b => b != 47)).length) := by
  intro len
  induction len with
  | zero => intro fn rl _ _ _; simp [scan_name, poke_nil]
  | succ len ih =>
    intro fn rl hlen hmax hfn
    have hlt : len < path.length := by omega
    have hget : path.getD len 0 = path[len] := by
      simp [List.getD_eq_getElem?_getD, List.getElem?_eq_getElem hlt]
    have htake : (path.take (len + 1)).reverse = path[len] :: (path.take len).reverse := by
      rw [List.take_succ, List.getElem?_eq_getElem hlt]
      simp
    rw [htake] at hmax hfn ⊢
    by_cases hc : (path[len] != 47) = true
    · have e : List.takeWhile (fun b => b != 47) (path[len] :: (path.take len).reverse) =
          path[len] :: List.takeWhile (fun b => b != 47) (path.take len).reverse := by
        simp only [List.takeWhile_cons, hc, if_true]
      rw [e] at hmax hfn ⊢
      simp only [List.length_cons] at hmax hfn ⊢
      have h1 : rl < MAX_BUFFER := by omega
      have h2 : rl < fn.length := by omega
      simp only [scan_name, hget, hc, if_true, h1]
      rw [ih (fn.set rl path[len]) (rl + 1) (by omega) (by omega)
        (by rw [List.length_set]; omega)]
      rw [set_eq_poke fn rl _ h2]
      have := poke_poke fn rl [path[len]] ((path.take len).reverse.takeWhile (fun b => b != 47))
        (by omega)
      simp only [List.length_singleton, List.singleton_append] at this
      rw [this]
      congr 2
      omega
    · have e : List.takeWhile (fun b => b != 47) (path[len] :: (path.take len).reverse) = [] := by
        simp only [List.takeWhile_cons, hc, if_false, Bool.false_eq_true]
      rw [e]
      simp only [scan_name, hget, hc, Bool.false_eq_true, if_false, poke_nil, List.length_nil,
        Nat.add_zero]

theorem swap_loop_get (k : Nat) (fn : List Nat) (hk : k ≤ fn.length) : ∀ (j : Nat), j ≤ k / 2 →
    ∀ p, ((List.range j).foldl (swap_step k) fn)[p]? =
      if p < j ∨ (k - j ≤ p ∧ p < k) then fn[k - 1 - p]? else fn[p]? := by
  intro j
  induction j with
  | zero =>
    intro _ p
    have : ¬ (p < 0 ∨ (k - 0 ≤ p ∧ p < k)) := by omega
    rw [if_neg this]
    rfl
  | succ j ih =>
    intro hj p
    have hj' : j ≤ k / 2 := by omega
    have ihj := ih hj'
    rw [List.range_succ, List.foldl_append]
    simp only [List.foldl_cons, List.foldl_nil]
    generalize hst : (List.range j).foldl (swap_step k) fn = st at ihj ⊢
    have hlen : st.length = fn.length := by
      have h1 : ∀ q : Nat, st[q]? = none ↔ fn[q]? = none := by
        intro q
        rw [ihj q]
        split
        · rename_i h
          simp only [List.getElem?_eq_none_iff]
          constructor
          · intro h2; omega
          · intro h2; omega
        · rfl
      have a := (h1 st.length).mp (List.getElem?_eq_none (l := st) (le_refl _))
      have b := (h1 fn.length).mpr (List.getElem?_eq_none (l := fn) (le_refl _))
      rw [List.getElem?_eq_none_iff] at a b
      omega
    have hjlt : j < k - 1 - j := by omega
    have hA : st[j]? = fn[j]? := by
      rw [ihj j, if_neg (by omega)]
    have hB : st[k - 1 - j]? = fn[k - 1 - j]? := by
      rw [ihj (k - 1 - j), if_neg (by omega)]
    have hAv : fn[j]? = some fn[j] := List.getElem?_eq_getElem (by omega)
    have hBv : fn[k - 1 - j]? = some fn[k - 1 - j] := List.getElem?_eq_getElem (by omega)
    simp only [swap_step, List.getD_eq_getElem?_getD, hA, hB, hAv, hBv, Option.getD_some,
      List.getElem?_set, List.length_set, hlen]
    by_cases h1 : k - 1 - j = p
    · subst h1
      rw [if_pos rfl, if_pos (by omega), if_pos (by omega)]
      have : k - 1 - (k - 1 - j) = j := by omega
      rw [this, hAv]
    · rw [if_neg h1]
      by_cases h2 : j = p
      · subst h2
        rw [if_pos rfl, if_pos (by omega), if_pos (by omega), hBv]
      · rw [if_neg h2, ihj p]
        by_cases h3 : p < j ∨ (k - j ≤ p ∧ p < k)
        · rw [if_pos h3, if_pos (by omega)]
        · rw [if_neg h3, if_neg (by omega)]

/-- The `for` loop of `parse_file_name` reverses the first `result_len` bytes. -/
theorem swap_loop_reverse (X rest : List Nat) :
    (List.range (X.length / 2)).foldl (swap_step X.length) (X ++ rest) = X.reverse ++ rest := by
  apply List.ext_getElem?
  intro p
  rw [swap_loop_get X.length (X ++ rest) (by simp) (X.length / 2) (le_refl _) p]
  by_cases hp : p < X.length
  · have hq : X.length - 1 - p < X.length := by omega
    have hp' : p < X.reverse.length := by simpa using hp
    rw [List.getElem?_append_left hp', List.getElem?_reverse hp, List.getElem?_append_left hq]
    split
    · rfl
    · have : X.length - 1 - p = p := by omega
      rw [this, List.getElem?_append_left hp]
  · rw [if_neg (by omega), List.getElem?_append_right (by omega),
      List.getElem?_append_right (by simp; omega)]
    simp

theorem prefix_takeWhile (p : Nat → Bool) : ∀ (l s : List Nat), s <+: l → (∀ x ∈ s, p x = true) →
    s.length ≤ (l.takeWhile p).length := by
  intro l
  induction l with
  | nil => intro s hs _; have := List.prefix_nil.mp hs; subst this; simp
  | cons a t ih =>
    intro s hs hall
    cases s with
    | nil => simp
    | cons b u =>
      obtain ⟨rfl, hu⟩ := List.cons_prefix_cons.mp hs
      have hb : p b = true := hall b (by simp)
      simp only [List.takeWhile_cons, hb, if_true, List.length_cons]
      have := ih u hu (fun x hx => hall x (by simp [hx]))
      omega

/-- C9. For a file path shorter than the buffer (a text, so without NUL),
`parse_file_name` leaves in `file_name` the final `'/'`-delimited segment of
the path: the longest suffix of the path without `'/'`, in the original order.
It is the whole path when the path has no `'/'` and it is empty when the path
is empty or ends in `'/'`. -/
theorem parse_file_name_segment (file_path : List Nat) (hlen : file_path.length < MAX_BUFFER)
    (hnul : ∀ b ∈ file_path, b ≠ 0) :
    ∃ file_name, parse_file_name file_path (List.replicate MAX_BUFFER 0) = some file_name ∧
      cstr file_name = (file_path.reverse.takeWhile (fun b => b != 47)).reverse ∧
      cstr file_name <:+ file_path ∧ 47 ∉ cstr file_name ∧
      (∀ s, s <:+ file_path → 47 ∉ s → s.length ≤ (cstr file_name).length) ∧
      (47 ∉ file_path → cstr file_name = file_path) ∧
      (∀ p, file_path = p ++ [47] → cstr file_name = []) ∧
      (file_path = [] → cstr file_name = []) := by
  generalize hseg : file_path.reverse.takeWhile (fun b => b != 47) = seg
  have hpre : seg <+: file_path.reverse := by rw [← hseg]; exact List.takeWhile_prefix _
  have hsuf : seg.reverse <:+ file_path := by
    have := List.reverse_suffix.mpr hpre
    rwa [List.reverse_reverse] at this
  have hseglen : seg.length ≤ file_path.length := by
    have := hpre.length_le; simpa using this
  have hscan := scan_name_spec file_path file_path.length (List.replicate MAX_BUFFER 0) 0
    (le_refl _) (by rw [List.take_length, hseg]; omega)
    (by rw [List.take_length, hseg, List.length_replicate]; omega)
  rw [List.take_length, hseg] at hscan
  have hpoke : poke (List.replicate MAX_BUFFER 0) 0 seg =
      seg ++ List.replicate (MAX_BUFFER - seg.length) 0 := by
    have := poke_zeros [] seg MAX_BUFFER
    simpa using this
  have hname : cstr (seg.reverse ++ List.replicate (MAX_BUFFER - seg.length) 0) = seg.reverse := by
    rw [cstr_zeros]
    have := cstr_append seg.reverse [] (fun b hb => hnul b (hsuf.subset hb))
    simpa [cstr] using this
  have hno : 47 ∉ seg.reverse := by
    intro h
    rw [List.mem_reverse, ← hseg] at h
    have := List.mem_takeWhile_imp h
    simp at this
  refine ⟨seg.reverse ++ List.replicate (MAX_BUFFER - seg.length) 0, ?_, ?_, ?_, ?_, ?_, ?_, ?_, ?_⟩
  · simp only [parse_file_name, strlen, hscan, hpoke, Nat.zero_add]
    rw [swap_loop_reverse]
  · rw [hname]
  · rw [hname]; exact hsuf
  · rw [hname]; exact hno
  · intro s hs h47
    rw [hname, List.length_reverse, ← hseg]
    have h1 : s.reverse <+: file_path.reverse := List.reverse_prefix.mpr hs
    have h2 := prefix_takeWhile (fun b => b != 47) file_path.reverse s.reverse h1
      (by
        intro x hx
        rw [List.mem_reverse] at hx
        have : x ≠ 47 := fun h => h47 (h ▸ hx)
        simpa using this)
    simpa using h2
  · intro h47
    rw [hname]
    have h2 := prefix_takeWhile (fun b => b != 47) file_path.reverse file_path.reverse
      (List.prefix_refl _)
      (by
        intro x hx
        rw [List.mem_reverse] at hx
        have : x ≠ 47 := fun h => h47 (h ▸ hx)
        simpa using this)
    rw [hseg] at h2
    have h3 : seg.reverse.length = file_path.length := by
      simp only [List.length_reverse] at h2 ⊢; omega
    exact hsuf.eq_of_length h3
  · intro p hp
    rw [hname, ← hseg, hp]
    simp
  · intro hp
    rw [hname, ← hseg, hp]
    simp

/-- Witness of C9: `'/software/make/manual/make.html'` gives `'make.html'`. -/
theorem parse_file_name_segment_witness :
    ∃ file_name, parse_file_name
        [47, 115, 111, 102, 116, 119, 97, 114, 101, 47, 109, 97, 107, 101, 47, 109, 97, 110, 117,
          97, 108, 47, 109, 97, 107, 101, 46, 104, 116, 109, 108]
        (List.replicate MAX_BUFFER 0) = some file_name ∧
      cstr file_name = [109, 97, 107, 101, 46, 104, 116, 109, 108] := by
  obtain ⟨file_name, h1, h2, _⟩ := parse_file_name_segment
    [47, 115, 111, 102, 116, 119, 97, 114, 101, 47, 109, 97, 107, 101, 47, 109, 97, 110, 117,
      97, 108, 47, 109, 97, 107, 101, 46, 104, 116, 109, 108] (by decide) (by decide)
  exact ⟨file_name, h1, by rw [h2]; decide⟩

/-! ## Full transfer, as claimed -/

/-- The loops of `send_to_socket` and `write_to_file` are the same loop. -/
theorem send_loop_eq (fuel : Nat) : ∀ (d : Dest) (buf : List Nat) (off n : Int),
    send_loop fuel d buf off n = write_loop fuel d buf off n := by
  induction fuel with
  | zero => intro d buf off n; simp [send_loop, write_loop]
  | succ fuel ih =>
    intro d buf off n
    simp only [send_loop, write_loop]
    split
    · split
      · rfl
      · exact ih _ _ _ _
    · rfl

/-- C10. For a byte sequence `buf`, a count `n` of its bytes, and a
destination that at every call accepts at least one byte and never more than
the count outstanding, `write_to_file` and `send_to_socket` end after at most
`n` calls (any bound `fuel ≥ n` on the iterations is enough) and the bytes
handed to the destination are exactly `buf[0..n)`, each once and in order;
with `n ≤ 0` no call is made and the destination is unchanged. -/
theorem full_transfer (fuel : Nat) (d : Dest) (buf : List Nat) (n : Nat)
    (hcap : Accepting d.cap) (hfuel : n ≤ fuel) (_hlen : n ≤ buf.length) :
    (∃ d1, write_to_file fuel d buf (n : Int) = some (Transfer.done d1) ∧
      d1.data = d.data ++ buf.take n ∧ d1.calls ≤ d.calls + n) ∧
    (∃ d1, send_to_socket fuel d buf (n : Int) = some (Transfer.done d1) ∧
      d1.data = d.data ++ buf.take n ∧ d1.calls ≤ d.calls + n) ∧
    (∀ m : Int, m ≤ 0 → ∀ fuel0 : Nat,
      write_to_file fuel0 d buf m = some (Transfer.done d) ∧
      send_to_socket fuel0 d buf m = some (Transfer.done d)) := by
  obtain ⟨d1, h1, h2, _, _, h5⟩ := write_to_file_accepting fuel d buf n hcap hfuel
  refine ⟨⟨d1, h1, h2, h5⟩, ⟨d1, ?_, h2, h5⟩, ?_⟩
  · rw [send_to_socket, send_loop_eq]
    exact h1
  · intro m hm fuel0
    refine ⟨write_to_file_nonpos fuel0 d buf m hm, ?_⟩
    rw [send_to_socket, send_loop_eq]
    exact write_to_file_nonpos fuel0 d buf m hm

/-- Witness of C10: five bytes to a destination that accepts two bytes at a
call. -/
theorem full_transfer_witness :
    (∃ d1, write_to_file 5 ⟨fun _ => some 2, 0, []⟩ [1, 2, 3, 4, 5] ((5 : Nat) : Int) =
        some (Transfer.done d1) ∧
      d1.data = [] ++ [1, 2, 3, 4, 5].take 5 ∧ d1.calls ≤ 0 + 5) ∧
    (∃ d1, send_to_socket 5 ⟨fun _ => some 2, 0, []⟩ [1, 2, 3, 4, 5] ((5 : Nat) : Int) =
        some (Transfer.done d1) ∧
      d1.data = [] ++ [1, 2, 3, 4, 5].take 5 ∧ d1.calls ≤ 0 + 5) :=
  have h := full_transfer 5 ⟨fun _ => some 2, 0, []⟩ [1, 2, 3, 4, 5] 5
    (fun _ => ⟨2, rfl, by decide⟩) (by decide) (by decide)
  ⟨h.1, h.2.1⟩

/-! ## Runs on which the program and the specification part -/

/-- C1 (failing input). The response
`"HTTP/1.0 200 OK\r\nContent-Length: 10\r\n\r\n0123456789"` delivered in one
fragment gives the file `"0123456789"`; the same bytes cut between the digits
`1` and `0` of the length give the file `"0"`. -/
theorem cut_inside_digits :
    main_response ⟨[[72, 84, 84, 80, 47, 49, 46, 48, 32, 50, 48, 48, 32, 79, 75, 13, 10, 67, 111,
        110, 116, 101, 110, 116, 45, 76, 101, 110, 103, 116, 104, 58, 32, 49, 48, 13, 10, 13, 10,
        48, 49, 50, 51, 52, 53, 54, 55, 56, 57]], []⟩ [111, 117, 116] true (fun _ => some 4096) =
      some ⟨Outcome.finished, [], some [111, 117, 116], [48, 49, 50, 51, 52, 53, 54, 55, 56, 57]⟩ ∧
    main_response ⟨[[72, 84, 84, 80, 47, 49, 46, 48, 32, 50, 48, 48, 32, 79, 75, 13, 10, 67, 111,
        110, 116, 101, 110, 116, 45, 76, 101, 110, 103, 116, 104, 58, 32, 49],
        [48, 13, 10, 13, 10, 48, 49, 50, 51, 52, 53, 54, 55, 56, 57]], []⟩ [111, 117, 116] true
        (fun _ => some 4096) =
      some ⟨Outcome.finished, [], some [111, 117, 116], [48]⟩ := by
  constructor <;> rfl

/-- C5 (failing input). The response
`"HTTP/1.0 404 Not Found\r\nX-Was: 200 OK\r\nContent-Length: 3\r\n\r\nabc"`
delivered in one fragment is taken for a success: the file is opened, `"abc"`
is written and `main` returns 0.  Cut after the status line, the same bytes
end in the non-success exit. -/
theorem not_found_taken_for_ok :
    main_response ⟨[[72, 84, 84, 80, 47, 49, 46, 48, 32, 52, 48, 52, 32, 78, 111, 116, 32, 70, 111,
        117, 110, 100, 13, 10, 88, 45, 87, 97, 115, 58, 32, 50, 48, 48, 32, 79, 75, 13, 10, 67,
        111, 110, 116, 101, 110, 116, 45, 76, 101, 110, 103, 116, 104, 58, 32, 51, 13, 10, 13, 10,
        97, 98, 99]], []⟩ [111, 117, 116] true (fun _ => some 4096) =
      some ⟨Outcome.finished, [], some [111, 117, 116], [97, 98, 99]⟩ ∧
    main_response ⟨[[72, 84, 84, 80, 47, 49, 46, 48, 32, 52, 48, 52, 32, 78, 111, 116, 32, 70, 111,
        117, 110, 100, 13, 10], [88, 45, 87, 97, 115, 58, 32, 50, 48, 48, 32, 79, 75, 13, 10, 67,
        111, 110, 116, 101, 110, 116, 45, 76, 101, 110, 103, 116, 104, 58, 32, 51, 13, 10, 13, 10,
        97, 98, 99]], []⟩ [111, 117, 116] true (fun _ => some 4096) =
      some ⟨Outcome.badStatus [72, 84, 84, 80, 47, 49, 46, 48, 32, 52, 48, 52, 32, 78, 111, 116,
        32, 70, 111, 117, 110, 100], [], none, []⟩ := by
  constructor <;> rfl

/-- C6 (failing input). The response
`"HTTP/1.0 200 OK\r\nServer: x\r\n\r\nContent-Length: 2\r\n"`, whose header
has no `Content-Length:` field and whose body is the text
`"Content-Length: 2\r\n"`, delivered in one fragment: the field name is found
in the body, the file is opened, `"Co"` is written and `main` returns 0. -/
theorem field_name_in_body :
    main_response ⟨[[72, 84, 84, 80, 47, 49, 46, 48, 32, 50, 48, 48, 32, 79, 75, 13, 10, 83, 101,
        114, 118, 101, 114, 58, 32, 120, 13, 10, 13, 10, 67, 111, 110, 116, 101, 110, 116, 45, 76,
        101, 110, 103, 116, 104, 58, 32, 50, 13, 10]], []⟩ [111, 117, 116] true
        (fun _ => some 4096) =
      some ⟨Outcome.finished, [], some [111, 117, 116], [67, 111]⟩ := by
  rfl

/-- C7 (failing input). The peer sends
`"HTTP/1.0 200 OK\r\nContent-Length: 5\r\n"` and closes the stream: the
output file is opened and `main` computes with the result `NULL` of the
separator lookup, which C leaves undefined; there is no failure exit. -/
theorem split_used_unfound :
    main_response ⟨[[72, 84, 84, 80, 47, 49, 46, 48, 32, 50, 48, 48, 32, 79, 75, 13, 10, 67, 111,
        110, 116, 101, 110, 116, 45, 76, 101, 110, 103, 116, 104, 58, 32, 53, 13, 10]], []⟩
        [111, 117, 116] true (fun _ => some 4096) =
      some ⟨Outcome.splitMissing, [], some [111, 117, 116], []⟩ ∧
    Outcome.splitMissing.exitStatus = none := by
  constructor <;> rfl

/-- C8 (failing input). With the arguments `example.com 40000 /index.html` the
request sent is `"GET /index.html HTTP/1.0\r\nHost: example.com:-25536\r\n\r\n"`:
the port goes through a `short`. -/
theorem request_port_40000 :
    (main [[104, 116, 116, 112, 95, 99, 108, 105, 101, 110, 116],
        [101, 120, 97, 109, 112, 108, 101, 46, 99, 111, 109], [52, 48, 48, 48, 48],
        [47, 105, 110, 100, 101, 120, 46, 104, 116, 109, 108]]
      ⟨true, true, true, fun _ => some 4096, [scenario_header ++ scenario_body], true,
        fun _ => some 4096⟩) =
      some ⟨Outcome.finished,
        [71, 69, 84, 32, 47, 105, 110, 100, 101, 120, 46, 104, 116, 109, 108, 32, 72, 84, 84, 80,
          47, 49, 46, 48, 13, 10, 72, 111, 115, 116, 58, 32, 101, 120, 97, 109, 112, 108, 101, 46,
          99, 111, 109, 58, 45, 50, 53, 53, 51, 54, 13, 10, 13, 10],
        some [105, 110, 100, 101, 120, 46, 104, 116, 109, 108], scenario_body⟩ ∧
    toShort (atoi [52, 48, 48, 48, 48]) = -25536 := by
  constructor <;> rfl

/-! ## The calls of `recv` -/

theorem recv_log (s : Sock) (pos count : Nat) :
    (s.recv pos count).2.log = s.log ++ [⟨pos, count, (s.recv pos count).1.length⟩] ∧
      (s.recv pos count).1.length ≤ count := by
  obtain ⟨pending, log⟩ := s
  cases pending with
  | nil => simp [Sock.recv]
  | cons f rest =>
    by_cases h : f.length ≤ count
    · simp [Sock.recv, h]
    · simp only [Sock.recv, h, if_false, List.length_take]
      exact ⟨by rw [Nat.min_eq_left (by omega)], Nat.min_le_left _ _⟩

theorem read_loop_stop (fl rc rs : Bool) (fuel : Nat) (buf : List Nat) (off left rl : Nat)
    (sock : Sock) (h : stop_check fl rc rs buf = true) :
    read_loop fl rc rs (fuel + 1) buf off left rl sock = some ⟨true, buf, off, rl, sock⟩ := by
  simp [read_loop, h]

/-- The loop of `read_from_socket` on any stream: it returns within `left`
calls of `recv`, each made at the fill position for all that is left; the new
offset and count are the old ones plus the bytes delivered; the result is
`false` exactly when a call delivered nothing. -/
theorem read_loop_log (fl rc rs : Bool) (fuel : Nat) :
    ∀ (buf : List Nat) (off left rl : Nat) (sock : Sock), 0 < left → left ≤ fuel →
    ∃ r calls, read_loop fl rc rs fuel buf off left rl sock = some r ∧
      r.sock.log = sock.log ++ calls ∧ calls.length ≤ left ∧
      Fills (off + left) off calls ∧
      r.offset = off + delivered calls ∧ r.offset ≤ off + left ∧
      r.read_length = rl + delivered calls ∧
      (r.ret = false ↔ SawEnd calls) ∧
      (off + left ≤ buf.length → r.buf.length = buf.length) ∧
      (r.ret = false → stop_check fl rc rs r.buf = false ∧ r.offset < off + left) := by
  induction fuel with
  | zero => intro buf off left rl sock h0 h1; omega
  | succ fuel ih =>
    intro buf off left rl sock hpos hfuel
    by_cases hs : stop_check fl rc rs buf = true
    · refine ⟨⟨true, buf, off, rl, sock⟩, [], read_loop_stop fl rc rs fuel buf off left rl sock hs,
        by simp, by simp, trivial, by simp [delivered], by simp, by simp [delivered], ?_,
        fun _ => rfl, fun h => by cases h⟩
      simp [SawEnd]
    · have hs2 : stop_check fl rc rs buf = false := by
        cases h : stop_check fl rc rs buf
        · rfl
        · exact absurd h hs
      obtain ⟨hlog, hle⟩ := recv_log sock off left
      generalize hrec : sock.recv off left = res at hlog hle
      obtain ⟨data, sock1⟩ := res
      simp only at hlog hle
      by_cases h0 : data.length = 0
      · refine ⟨⟨false, buf, off, rl, sock1⟩, [⟨off, left, data.length⟩], ?_, hlog, ?_, ?_, ?_,
          ?_, ?_, ?_, fun _ => rfl, fun _ => ⟨hs2, by simp only; omega⟩⟩
        · simp [read_loop, hs2, hrec, h0]
        · simp only [List.length_singleton]; omega
        · exact ⟨rfl, by simp, hle, trivial⟩
        · simp [delivered, h0]
        · simp
        · simp [delivered, h0]
        · simp [SawEnd, h0]
      · by_cases hmore : left - data.length > 0
        · obtain ⟨r, calls, h1, h2, h3, h4, h5, h6, h7, h8, h9, h10⟩ :=
            ih (poke buf off data) (off + data.length) (left - data.length) (rl + data.length)
              sock1 hmore (by omega)
          have hsum : off + data.length + (left - data.length) = off + left := by omega
          rw [hsum] at h4 h6 h9 h10
          refine ⟨r, ⟨off, left, data.length⟩ :: calls, ?_, ?_, ?_, ?_, ?_, h6, ?_, ?_, ?_, h10⟩
          · simp only [read_loop, hs2, hrec, Bool.false_eq_true, if_false]
            rw [if_neg h0, if_pos hmore]
            exact h1
          · rw [h2, hlog]; simp
          · simp only [List.length_cons]; omega
          · exact ⟨rfl, by simp, hle, h4⟩
          · rw [h5]; simp only [delivered, List.map_cons, List.sum_cons]; omega
          · rw [h7]; simp only [delivered, List.map_cons, List.sum_cons]; omega
          · rw [h8]
            unfold SawEnd
            constructor
            · rintro ⟨c, hc, hg⟩
              exact ⟨c, by simp [hc], hg⟩
            · rintro ⟨c, hc, hg⟩
              simp only [List.mem_cons] at hc
              rcases hc with rfl | hc
              · exact absurd hg h0
              · exact ⟨c, hc, hg⟩
          · intro hb
            have hp : (poke buf off data).length = buf.length :=
              poke_length buf off data (by omega)
            rw [h9 (by rw [hp]; exact hb), hp]
        · refine ⟨⟨true, poke buf off data, off + data.length, rl + data.length, sock1⟩,
            [⟨off, left, data.length⟩], ?_, hlog, ?_, ?_, ?_, ?_, ?_, ?_, ?_, ?_⟩
          · simp only [read_loop, hs2, hrec, Bool.false_eq_true, if_false]
            rw [if_neg h0, if_neg hmore]
          · simp only [List.length_singleton]; omega
          · exact ⟨rfl, by simp, hle, trivial⟩
          · simp [delivered]
          · simp only; omega
          · simp [delivered]
          · simp [SawEnd, h0]
          · intro hb
            exact poke_length buf off data (by omega)
          · intro h; cases h

/-- The same for `read_from_socket` itself, entered below its bound. -/
theorem read_from_socket_log (fl rc rs : Bool) (buf : List Nat) (max_bytes off rl : Nat)
    (sock : Sock) (h : off < max_bytes) :
    ∃ r calls, read_from_socket sock buf max_bytes fl rc rs off rl = some r ∧
      r.sock.log = sock.log ++ calls ∧ calls.length ≤ max_bytes - off ∧
      Fills max_bytes off calls ∧
      r.offset = off + delivered calls ∧ r.offset ≤ max_bytes ∧
      r.read_length = delivered calls ∧
      (r.ret = false ↔ SawEnd calls) ∧
      (max_bytes ≤ buf.length → r.buf.length = buf.length) ∧
      (r.ret = false → stop_check fl rc rs r.buf = false ∧ r.offset < max_bytes) := by
  obtain ⟨r, calls, h1, h2, h3, h4, h5, h6, h7, h8, h9, h10⟩ :=
    read_loop_log fl rc rs (max_bytes - off) buf off (max_bytes - off) 0 sock (by omega)
      (le_refl _)
  have e : off + (max_bytes - off) = max_bytes := by omega
  rw [e] at h4 h6 h9 h10
  refine ⟨r, calls, ?_, h2, h3, h4, h5, h6, by simpa using h7, h8, h9, h10⟩
  simp only [read_from_socket, if_neg (by omega : ¬ off ≥ max_bytes)]
  exact h1

/-- Entered at or above its bound, `read_from_socket` returns `true` at once
and stores nothing. -/
theorem read_from_socket_full (fl rc rs : Bool) (buf : List Nat) (max_bytes off rl : Nat)
    (sock : Sock) (h : off ≥ max_bytes) :
    read_from_socket sock buf max_bytes fl rc rs off rl = some ⟨true, buf, off, rl, sock⟩ := by
  simp [read_from_socket, h]

theorem fills_bound (m : Nat) : ∀ (calls : List RecvCall) (p : Nat), Fills m p calls → p ≤ m →
    ∀ c ∈ calls, p ≤ c.pos ∧ c.pos + c.count = m ∧ c.got ≤ c.count := by
  intro calls
  induction calls with
  | nil => intro p _ _ c hc; cases hc
  | cons a t ih =>
    intro p hf hp c hc
    obtain ⟨h1, h2, h3, h4⟩ := hf
    simp only [List.mem_cons] at hc
    rcases hc with rfl | hc
    · exact ⟨by omega, by omega, h3⟩
    · have := ih (p + a.got) h4 (by omega) c hc
      exact ⟨by omega, this.2.1, this.2.2⟩

/-- C11. In each of the three modes of `read_from_socket` (first line: the
buffer contains `"\r\n"`; content length: it contains `"\r\n\r\n"` or
`"Content-Length:"`; split: it contains `"\r\n\r\n"`), when the condition of
the mode holds of the buffer on entry and `offset < max_bytes`, the call
returns `true`, makes no call of `recv` (the socket and its log are unchanged),
leaves the buffer and the offset as they were and stores 0 as the read
length. -/
theorem predicate_already_satisfied (fd : Sock) (buf : List Nat) (max_bytes offset rl : Nat)
    (first_line read_content_length read_split : Bool) (hoff : offset < max_bytes)
    (hmode : (first_line = true ∧ (strstr (cstr buf) LINE_END).isSome = true) ∨
      (read_content_length = true ∧
        ((strstr (cstr buf) HEAD_CONTENT_SPLIT).isSome = true ∨
          (strstr (cstr buf) CONTENT_LENGTH_FIELD).isSome = true)) ∨
      (read_split = true ∧ (strstr (cstr buf) HEAD_CONTENT_SPLIT).isSome = true)) :
    read_from_socket fd buf max_bytes first_line read_content_length read_split offset rl =
      some ⟨true, buf, offset, 0, fd⟩ := by
  have hs : stop_check first_line read_content_length read_split buf = true := by
    unfold stop_check
    rcases hmode with ⟨h1, h2⟩ | ⟨h1, h2⟩ | ⟨h1, h2⟩
    · simp [h1, h2]
    · rcases h2 with h2 | h2 <;> simp [h1, h2]
    · simp [h1, h2]
  have hpos : max_bytes - offset = (max_bytes - offset - 1) + 1 := by omega
  simp only [read_from_socket, if_neg (by omega : ¬ offset ≥ max_bytes)]
  rw [hpos]
  exact read_loop_stop _ _ _ _ _ _ _ _ _ hs

/-- Witness of C11: the three modes on a buffer that starts with
`"\r\n\r\n"`. -/
theorem predicate_already_satisfied_witness :
    read_from_socket ⟨[[65]], []⟩ [13, 10, 13, 10, 0] 5 true false false 4 7 =
        some ⟨true, [13, 10, 13, 10, 0], 4, 0, ⟨[[65]], []⟩⟩ ∧
      read_from_socket ⟨[[65]], []⟩ [13, 10, 13, 10, 0] 5 false true false 4 7 =
        some ⟨true, [13, 10, 13, 10, 0], 4, 0, ⟨[[65]], []⟩⟩ ∧
      read_from_socket ⟨[[65]], []⟩ [13, 10, 13, 10, 0] 5 false false true 4 7 =
        some ⟨true, [13, 10, 13, 10, 0], 4, 0, ⟨[[65]], []⟩⟩ :=
  ⟨predicate_already_satisfied _ _ 5 4 7 true false false (by decide)
      (Or.inl ⟨rfl, by decide⟩),
    predicate_already_satisfied _ _ 5 4 7 false true false (by decide)
      (Or.inr (Or.inl ⟨rfl, Or.inl (by decide)⟩)),
    predicate_already_satisfied _ _ 5 4 7 false false true (by decide)
      (Or.inr (Or.inr ⟨rfl, by decide⟩))⟩

/-- A call of `read_from_socket` with `offset ≤ max_bytes ≤ MAX_BUFFER` on the
4096-byte buffer keeps the offset between its old value and `max_bytes`, and
every call of `recv` it makes stays inside the buffer. -/
theorem read_bounded (fl rc rs : Bool) (buf : List Nat) (max_bytes off rl : Nat) (sock : Sock)
    (h1 : off ≤ max_bytes) (h2 : max_bytes ≤ MAX_BUFFER) (hbuf : buf.length = MAX_BUFFER) :
    ∃ r calls, read_from_socket sock buf max_bytes fl rc rs off rl = some r ∧
      r.sock.log = sock.log ++ calls ∧ off ≤ r.offset ∧ r.offset ≤ max_bytes ∧
      r.buf.length = MAX_BUFFER ∧ Fills max_bytes off calls ∧
      r.offset = off + delivered calls ∧
      (∀ c ∈ calls, off ≤ c.pos ∧ c.count ≤ max_bytes - off ∧ c.pos + c.count = max_bytes ∧
        c.got ≤ c.count) := by
  by_cases h : off < max_bytes
  · obtain ⟨r, calls, a1, a2, _, a4, a5, a6, _, _, a9, _⟩ :=
      read_from_socket_log fl rc rs buf max_bytes off rl sock h
    refine ⟨r, calls, a1, a2, by omega, a6, ?_, a4, a5, ?_⟩
    · rw [a9 (by omega), hbuf]
    · intro c hc
      obtain ⟨b1, b2, b3⟩ := fills_bound max_bytes calls off a4 h1 c hc
      exact ⟨b1, by omega, b2, b3⟩
  · refine ⟨⟨true, buf, off, rl, sock⟩, [], read_from_socket_full _ _ _ _ _ _ _ _ (by omega),
      by simp, le_refl _, h1, hbuf, trivial, by simp [delivered], ?_⟩
    intro c hc; cases hc

/-- A session comes from three reads, the second and the third made only
when the one before returned `true`. -/
theorem main_header_reads (sock : Sock) (s : Session) (hs : main_header sock = some (Stage.go s)) :
    ∃ r1 r2 r3 j,
      read_from_socket sock (List.replicate MAX_BUFFER 0) MAX_BUFFER true false false 0 0 =
        some r1 ∧
      (if r1.ret then
          read_from_socket r1.sock r1.buf MAX_BUFFER false true false r1.offset r1.read_length
        else some r1) = some r2 ∧
      (if r2.ret then
          read_from_socket r2.sock r2.buf MAX_BUFFER false false true r2.offset r2.read_length
        else some r2) = some r3 ∧
      strstr (cstr r2.buf) CONTENT_LENGTH_FIELD = some j ∧
      s = ⟨r3.buf, r3.offset, r3.read_length, r3.ret,
        atoi ((cstr r2.buf).drop (j + strlen CONTENT_LENGTH_FIELD)), r3.sock⟩ := by
  simp only [main_header] at hs
  split at hs
  · cases hs
  · rename_i r1 h1
    split at hs
    · cases hs
    · split at hs
      · cases hs
      · split at hs
        · cases hs
        · rename_i r2 h2
          split at hs
          · cases hs
          · rename_i j hj
            split at hs
            · cases hs
            · rename_i r3 h3
              cases hs
              exact ⟨r1, r2, r3, j, h1, h2, h3, hj, rfl⟩

/-- C13. A call of `read_from_socket` entered with
`offset ≤ max_bytes ≤ 4096` on the 4096-byte buffer returns with
`old offset ≤ new offset ≤ max_bytes`; each call of `recv` it makes is made at
the current fill position, for `max_bytes` minus that position bytes, which is
at most `max_bytes - offset`, and is given no more than it asked for.  Hence in
`main` the offset of a session is at most 4096, every call of `recv` of the
header reads stays inside the buffer, and so does every read of the body
loop. -/
theorem buffer_bound (fl rc rs : Bool) (buf : List Nat) (max_bytes offset rl : Nat)
    (sock : Sock) (h1 : offset ≤ max_bytes) (h2 : max_bytes ≤ MAX_BUFFER)
    (hbuf : buf.length = MAX_BUFFER) :
    (∃ r calls, read_from_socket sock buf max_bytes fl rc rs offset rl = some r ∧
      r.sock.log = sock.log ++ calls ∧ offset ≤ r.offset ∧ r.offset ≤ max_bytes ∧
      r.buf.length = MAX_BUFFER ∧ Fills max_bytes offset calls ∧
      (∀ c ∈ calls, offset ≤ c.pos ∧ c.count ≤ max_bytes - offset ∧
        c.pos + c.count = max_bytes ∧ c.got ≤ c.count)) ∧
    (∀ (pending : List (List Nat)) (s : Session),
      main_header ⟨pending, []⟩ = some (Stage.go s) →
      s.offset ≤ MAX_BUFFER ∧ s.buf.length = MAX_BUFFER ∧
        ∀ c ∈ s.sockfd.log, c.pos + c.count = MAX_BUFFER ∧ c.got ≤ c.count) ∧
    (∀ (content_length : Int) (length : Nat) (sockfd : Sock), 0 < content_length →
      ∃ r calls, read_from_socket sockfd buf
          (if content_length < (MAX_BUFFER : Int) then content_length.toNat else MAX_BUFFER)
          false false false 0 length = some r ∧
        r.sock.log = sockfd.log ++ calls ∧ r.offset ≤ MAX_BUFFER ∧ r.buf.length = MAX_BUFFER ∧
        ∀ c ∈ calls, c.pos + c.count ≤ MAX_BUFFER ∧ c.got ≤ c.count) := by
  refine ⟨?_, ?_, ?_⟩
  · obtain ⟨r, calls, a1, a2, a3, a4, a5, a6, _, a8⟩ :=
      read_bounded fl rc rs buf max_bytes offset rl sock h1 h2 hbuf
    exact ⟨r, calls, a1, a2, a3, a4, a5, a6, a8⟩
  · intro pending s hs
    obtain ⟨r1, r2, r3, j, e1, e2, e3, _, rfl⟩ := main_header_reads _ s hs
    obtain ⟨q1, c1, a1, a2, _, a4, a5, _, _, a8⟩ :=
      read_bounded true false false (List.replicate MAX_BUFFER 0) MAX_BUFFER 0 0 ⟨pending, []⟩
        (Nat.zero_le _) (le_refl _) (by simp)
    rw [e1] at a1
    cases a1
    have hl1 : ∀ c ∈ r1.sock.log, c.pos + c.count = MAX_BUFFER ∧ c.got ≤ c.count := by
      intro c hc
      rw [a2] at hc
      simp only [List.nil_append] at hc
      exact ⟨(a8 c hc).2.2.1, (a8 c hc).2.2.2⟩
    have step : ∀ (fl rc rs : Bool) (r r' : ReadResult),
        r.offset ≤ MAX_BUFFER → r.buf.length = MAX_BUFFER →
        (∀ c ∈ r.sock.log, c.pos + c.count = MAX_BUFFER ∧ c.got ≤ c.count) →
        (if r.ret then
            read_from_socket r.sock r.buf MAX_BUFFER fl rc rs r.offset r.read_length
          else some r) = some r' →
        r'.offset ≤ MAX_BUFFER ∧ r'.buf.length = MAX_BUFFER ∧
          ∀ c ∈ r'.sock.log, c.pos + c.count = MAX_BUFFER ∧ c.got ≤ c.count := by
      intro fl rc rs r r' ho hb hl he
      cases hr : r.ret
      · rw [hr] at he
        simp only [Bool.false_eq_true, if_false] at he
        cases he
        exact ⟨ho, hb, hl⟩
      · rw [hr] at he
        simp only [if_true] at he
        obtain ⟨q, cs, b1, b2, _, b4, b5, _, _, b8⟩ :=
          read_bounded fl rc rs r.buf MAX_BUFFER r.offset r.read_length r.sock ho (le_refl _) hb
        rw [he] at b1
        cases b1
        refine ⟨b4, b5, ?_⟩
        intro c hc
        rw [b2, List.mem_append] at hc
        rcases hc with hc | hc
        · exact hl c hc
        · exact ⟨(b8 c hc).2.2.1, (b8 c hc).2.2.2⟩
    obtain ⟨o2, b2, l2⟩ := step false true false r1 r2 a4 a5 hl1 e2
    exact step false false true r2 r3 o2 b2 l2 e3
  · intro content_length length sockfd hpos
    have hm : (if content_length < (MAX_BUFFER : Int) then content_length.toNat else MAX_BUFFER) ≤
        MAX_BUFFER := by
      split
      · rename_i h; omega
      · exact le_refl _
    obtain ⟨r, calls, a1, a2, _, a4, a5, _, _, a8⟩ :=
      read_bounded false false false buf _ 0 length sockfd (Nat.zero_le _) hm hbuf
    refine ⟨r, calls, a1, a2, by omega, a5, ?_⟩
    intro c hc
    obtain ⟨_, _, b3, b4⟩ := a8 c hc
    exact ⟨by omega, b4⟩

/-- Witness of C13: a read of at most 6 bytes into the buffer, entered at
offset 2. -/
theorem buffer_bound_witness :
    ∃ r calls, read_from_socket ⟨[[65, 66], [67]], []⟩ (List.replicate MAX_BUFFER 0) 6 false
        false false 2 0 = some r ∧
      r.sock.log = [] ++ calls ∧ 2 ≤ r.offset ∧ r.offset ≤ 6 ∧
      r.buf.length = MAX_BUFFER ∧ Fills 6 2 calls ∧
      (∀ c ∈ calls, 2 ≤ c.pos ∧ c.count ≤ 6 - 2 ∧ c.pos + c.count = 6 ∧ c.got ≤ c.count) :=
  (buffer_bound false false false (List.replicate MAX_BUFFER 0) 6 2 0 ⟨[[65, 66], [67]], []⟩
    (by decide) (by decide) (by simp)).1

/-! ## One iteration of the body loop -/

/-- One iteration of the body loop entered with `content_length > 0`: the read
asks for at most `min content_length 4096` bytes; when it delivers nothing the
loop is left, and otherwise the bytes delivered are written and the loop goes
on with `content_length` lowered by their number. -/
theorem body_step (fuel : Nat) (cl : Int) (buf : List Nat) (len : Nat) (sock : Sock) (d : Dest)
    (hcl : 0 < cl) (hbuf : buf.length = MAX_BUFFER) (hcap : Accepting d.cap) :
    ∃ r calls, read_from_socket sock buf
        (if cl < (MAX_BUFFER : Int) then cl.toNat else MAX_BUFFER) false false false 0 len =
        some r ∧
      r.sock.log = sock.log ++ calls ∧
      (∀ c ∈ calls, (c.count : Int) ≤ min cl (MAX_BUFFER : Int)) ∧
      (r.offset : Int) ≤ min cl (MAX_BUFFER : Int) ∧ r.buf.length = MAX_BUFFER ∧
      (r.offset = 0 →
        body_loop (fuel + 1) true cl buf len sock d = some (Outcome.finished, d)) ∧
      (0 < r.offset → ∃ d1, d1.cap = d.cap ∧ d1.data = d.data ++ r.buf.take r.offset ∧
        d1.data.length = d.data.length + r.offset ∧
        body_loop (fuel + 1) true cl buf len sock d =
          body_loop fuel r.ret (cl - (r.offset : Int)) r.buf r.read_length r.sock d1) := by
  have hm : (if cl < (MAX_BUFFER : Int) then cl.toNat else MAX_BUFFER) ≤ MAX_BUFFER := by
    split
    · rename_i h; omega
    · exact le_refl _
  have hm2 : ((if cl < (MAX_BUFFER : Int) then cl.toNat else MAX_BUFFER : Nat) : Int) =
      min cl (MAX_BUFFER : Int) := by
    split
    · rename_i h; rw [min_eq_left (le_of_lt h)]; omega
    · rename_i h; rw [min_eq_right (by omega)]
  generalize hmdef : (if cl < (MAX_BUFFER : Int) then cl.toNat else MAX_BUFFER) = m at hm hm2
  obtain ⟨r, calls, a1, a2, _, a4, a5, _, _, a8⟩ :=
    read_bounded false false false buf m 0 len sock (Nat.zero_le _) hm hbuf
  refine ⟨r, calls, a1, a2, ?_, by omega, a5, ?_, ?_⟩
  · intro c hc
    obtain ⟨_, b2, _, _⟩ := a8 c hc
    omega
  · intro h0
    simp only [body_loop, Bool.true_and, decide_eq_true_eq, hcl, gt_iff_lt, if_true, hmdef, a1]
    rw [if_neg (by omega)]
  · intro hpos
    obtain ⟨d1, w1, w2, w3, _, _⟩ :=
      write_to_file_accepting r.offset d r.buf r.offset hcap (le_refl _)
    refine ⟨d1, w3, w2, ?_, ?_⟩
    · rw [w2, List.length_append, List.length_take, Nat.min_eq_left (by omega)]
    · simp only [body_loop, Bool.true_and, decide_eq_true_eq, hcl, gt_iff_lt, if_true, hmdef, a1]
      rw [if_pos hpos, w1]


/-- The body loop returns within `max content_length 0` iterations on any
stream, writing at most that many bytes. -/
theorem body_loop_total (fuel : Nat) : ∀ (sc : Bool) (cl : Int) (buf : List Nat) (len : Nat)
    (sock : Sock) (d : Dest), Accepting d.cap → cl.toNat ≤ fuel → buf.length = MAX_BUFFER →
    ∃ d1, body_loop fuel sc cl buf len sock d = some (Outcome.finished, d1) ∧ d1.cap = d.cap ∧
      (d1.data.length : Int) ≤ (d.data.length : Int) + max cl 0 ∧ d.data <+: d1.data := by
  induction fuel with
  | zero =>
    intro sc cl buf len sock d _ hfuel _
    have hcl : ¬ cl > 0 := by omega
    refine ⟨d, by simp [body_loop, hcl], rfl, ?_, List.prefix_refl _⟩
    have := le_max_right cl 0
    omega
  | succ fuel ih =>
    intro sc cl buf len sock d hcap hfuel hbuf
    by_cases hc : sc = true ∧ cl > 0
    · obtain ⟨hsc, hcl⟩ := hc
      subst hsc
      obtain ⟨r, calls, _, _, _, a4, a5, a6, a7⟩ := body_step fuel cl buf len sock d hcl hbuf hcap
      rcases Nat.eq_zero_or_pos r.offset with h0 | hpos
      · refine ⟨d, a6 h0, rfl, ?_, List.prefix_refl _⟩
        have := le_max_right cl 0
        omega
      · obtain ⟨d1, w1, w2, w3, w4⟩ := a7 hpos
        have hle : (r.offset : Int) ≤ cl := le_trans a4 (min_le_left _ _)
        obtain ⟨d2, b1, b2, b3, b4⟩ := ih r.ret (cl - (r.offset : Int)) r.buf r.read_length
          r.sock d1 (by rw [w1]; exact hcap) (by omega) a5
        refine ⟨d2, by rw [w4]; exact b1, by rw [b2, w1], ?_, ?_⟩
        · have e1 : max (cl - (r.offset : Int)) 0 = cl - r.offset := max_eq_left (by omega)
          have e2 : max cl 0 = cl := max_eq_left (by omega)
          rw [e1, w3] at b3
          rw [e2]
          push_cast at b3
          omega
        · exact (List.prefix_append _ _).trans (w2 ▸ b4)
    · refine ⟨d, ?_, rfl, ?_, List.prefix_refl _⟩
      · have : (sc && decide (cl > 0)) = false := by
          cases sc
          · rfl
          · simp only [true_and] at hc; simp [hc]
        simp [body_loop, this]
      · have := le_max_right cl 0
        omega

/-- C19. In a session of `main` with parsed content length `L ≥ 0`: after the
initial flush, the bytes written plus the remaining length are `L` and the
remaining length is not negative; an iteration of the body loop asks `recv`
for at most `min remaining 4096` bytes, and either leaves the loop or writes
what it read and lowers the remaining length by as much, so that the bytes
written plus the remaining length stay the same and the remaining length stays
non-negative; the file never holds more than `L` bytes. -/
theorem byte_accounting (sock : Sock) (s : Session) (file_name : List Nat)
    (file_cap : Nat → Option Nat) (i : Nat) (hne : ∀ f ∈ sock.pending, f ≠ [])
    (hs : main_header sock = some (Stage.go s))
    (hsplit : strstr (cstr s.buf) HEAD_CONTENT_SPLIT = some i)
    (hL : 0 ≤ s.content_length) (hcap : Accepting file_cap) :
    (∃ d remaining, initial_flush s.buf s.offset s.content_length ⟨file_cap, 0, []⟩ i =
        some (Transfer.done d, remaining) ∧
      (d.data.length : Int) + remaining = s.content_length ∧ 0 ≤ remaining) ∧
    (∀ (fuel : Nat) (remaining : Int) (buf : List Nat) (length : Nat) (sockfd : Sock)
      (output_fd : Dest), 0 < remaining → buf.length = MAX_BUFFER → Accepting output_fd.cap →
      ∃ r calls, read_from_socket sockfd buf
          (if remaining < (MAX_BUFFER : Int) then remaining.toNat else MAX_BUFFER)
          false false false 0 length = some r ∧
        r.sock.log = sockfd.log ++ calls ∧
        (∀ c ∈ calls, (c.count : Int) ≤ min remaining (MAX_BUFFER : Int)) ∧
        (r.offset = 0 → body_loop (fuel + 1) true remaining buf length sockfd output_fd =
          some (Outcome.finished, output_fd)) ∧
        (0 < r.offset → ∃ d1,
          (d1.data.length : Int) + (remaining - (r.offset : Int)) =
            (output_fd.data.length : Int) + remaining ∧
          0 ≤ remaining - (r.offset : Int) ∧
          body_loop (fuel + 1) true remaining buf length sockfd output_fd =
            body_loop fuel r.ret (remaining - (r.offset : Int)) r.buf r.read_length r.sock d1)) ∧
    (∃ run, main_response sock file_name true file_cap = some run ∧
      (run.written.length : Int) ≤ s.content_length) := by
  obtain ⟨D, h1, h2, h3, h4, h5, h6⟩ := session_inv sock s hne hs
  have hi : i + 4 ≤ D.length := by
    rw [h1] at hsplit
    exact split_inside D _ i hsplit
  refine ⟨?_, ?_, ?_⟩
  · obtain ⟨d1, f1, f2, _⟩ :=
      initial_flush_spec D (MAX_BUFFER - D.length) i s.content_length ⟨file_cap, 0, []⟩ hi hcap
    refine ⟨d1, _, by rw [h1, h2]; exact f1, ?_, ?_⟩
    · rw [f2]
      simp only [List.nil_append, List.length_take, List.length_drop]
      omega
    · omega
  · intro fuel remaining buf length sockfd output_fd hpos hbuf hc
    obtain ⟨r, calls, a1, a2, a3, a4, _, a6, a7⟩ :=
      body_step fuel remaining buf length sockfd output_fd hpos hbuf hc
    refine ⟨r, calls, a1, a2, a3, a6, ?_⟩
    intro hr
    obtain ⟨d1, _, _, w3, w4⟩ := a7 hr
    have hle : (r.offset : Int) ≤ remaining := le_trans a4 (min_le_left _ _)
    exact ⟨d1, by rw [w3]; push_cast; omega, by omega, w4⟩
  · have hb := main_body_spec sock s file_name file_cap i hne hs hsplit hcap
    have hr : main_response sock file_name true file_cap =
        main_body s file_name true file_cap := by
      simp only [main_response, hs]
    rw [hb] at hr
    refine ⟨_, hr, ?_⟩
    simp only [List.length_take]
    omega

/-- Witness of C19: the scenario header with `"Hello, world"` in one fragment;
5 bytes are declared and the file holds no more. -/
theorem byte_accounting_witness :
    ∃ run, main_response ⟨[scenario_header ++ [72, 101, 108, 108, 111, 44, 32, 119, 111, 114, 108,
        100]], []⟩ [111, 117, 116] true (fun _ => some 3) = some run ∧
      (run.written.length : Int) ≤ long_session.content_length :=
  (byte_accounting ⟨[scenario_header ++ [72, 101, 108, 108, 111, 44, 32, 119, 111, 114, 108,
      100]], []⟩ long_session [111, 117, 116] (fun _ => some 3) 34 (by decide) (by rfl)
    (by rfl) (by decide) (fun _ => ⟨3, rfl, by decide⟩)).2.2

/-- C20. On any stream, a call of `read_from_socket` entered with
`offset < max_bytes` returns after at most `max_bytes - offset` calls of
`recv`; the body loop of `main`, entered with the content length `L`, returns
within `max L 0` iterations, because an iteration either leaves the loop or
goes on with a strictly smaller content length. -/
theorem termination_bounds (fl rc rs : Bool) (buf : List Nat) (max_bytes offset rl : Nat)
    (sock : Sock) (h : offset < max_bytes) :
    (∃ r calls, read_from_socket sock buf max_bytes fl rc rs offset rl = some r ∧
      r.sock.log = sock.log ++ calls ∧ calls.length ≤ max_bytes - offset) ∧
    (∀ (sc : Bool) (L : Int) (buf1 : List Nat) (length : Nat) (sockfd : Sock) (output_fd : Dest),
      buf1.length = MAX_BUFFER → Accepting output_fd.cap →
      ∃ out, body_loop (max L 0).toNat sc L buf1 length sockfd output_fd = some out) ∧
    (∀ (fuel : Nat) (L : Int) (buf1 : List Nat) (length : Nat) (sockfd : Sock) (output_fd : Dest),
      0 < L → buf1.length = MAX_BUFFER → Accepting output_fd.cap →
      body_loop (fuel + 1) true L buf1 length sockfd output_fd =
          some (Outcome.finished, output_fd) ∨
        ∃ (sc1 : Bool) (L1 : Int) (buf2 : List Nat) (length1 : Nat) (sockfd1 : Sock)
          (output_fd1 : Dest), L1 < L ∧
          body_loop (fuel + 1) true L buf1 length sockfd output_fd =
            body_loop fuel sc1 L1 buf2 length1 sockfd1 output_fd1) := by
  refine ⟨?_, ?_, ?_⟩
  · obtain ⟨r, calls, a1, a2, a3, _⟩ := read_from_socket_log fl rc rs buf max_bytes offset rl sock h
    exact ⟨r, calls, a1, a2, a3⟩
  · intro sc L buf1 length sockfd output_fd hbuf hcap
    have hle : L.toNat ≤ (max L 0).toNat := Int.toNat_le_toNat (le_max_left _ _)
    obtain ⟨d1, b1, _⟩ := body_loop_total (max L 0).toNat sc L buf1 length sockfd output_fd hcap
      hle hbuf
    exact ⟨_, b1⟩
  · intro fuel L buf1 length sockfd output_fd hpos hbuf hcap
    obtain ⟨r, calls, _, _, _, _, _, a6, a7⟩ :=
      body_step fuel L buf1 length sockfd output_fd hpos hbuf hcap
    rcases Nat.eq_zero_or_pos r.offset with h0 | hr
    · exact Or.inl (a6 h0)
    · obtain ⟨d1, _, _, _, w4⟩ := a7 hr
      exact Or.inr ⟨r.ret, L - (r.offset : Int), r.buf, r.read_length, r.sock, d1, by omega, w4⟩

/-- Witness of C20: a read of at most 4 bytes returns after at most 4 calls of
`recv`. -/
theorem termination_bounds_witness :
    ∃ r calls, read_from_socket ⟨[[65, 66], [67]], []⟩ (List.replicate MAX_BUFFER 0) 6 false
        false false 2 0 = some r ∧
      r.sock.log = [] ++ calls ∧ calls.length ≤ 6 - 2 :=
  (termination_bounds false false false (List.replicate MAX_BUFFER 0) 6 2 0
    ⟨[[65, 66], [67]], []⟩ (by decide)).1

/-! ## The first line -/

theorem strstr_infix (needle hay : List Nat) (i : Nat) (h : strstr hay needle = some i) :
    needle <:+: hay := by
  obtain ⟨⟨t, ht⟩, _⟩ := strstr_bound needle hay i h
  refine ⟨hay.take i, t, ?_⟩
  rw [List.append_assoc, ht, List.take_append_drop]

/-- C15. On a stream (non-empty fragments, then the peer closes) whose bytes
contain no `"\r\n"` at all, the empty stream included, `main` ends with "can
not read the first line." and exit status 1; the output file is not opened and
nothing is written. -/
theorem missing_status_line (sock : Sock) (file_name : List Nat) (can_open : Bool)
    (file_cap : Nat → Option Nat) (hne : ∀ f ∈ sock.pending, f ≠ [])
    (hno : ¬ LINE_END <:+: sock.pending.flatten) :
    main_response sock file_name can_open file_cap =
        some ⟨Outcome.firstLineMissing, [], none, []⟩ ∧
      Outcome.firstLineMissing.exitStatus = some 1 := by
  obtain ⟨r1, r2, r3, D1, D2, D3, a1, _, _, a4, _, a6⟩ := main_header_shape sock hne
  have hnone : strstr (cstr r1.buf) LINE_END = none := by
    cases h : strstr (cstr r1.buf) LINE_END with
    | none => rfl
    | some i =>
      exfalso
      apply hno
      have h1 := strstr_infix _ _ _ h
      rw [a1.1, cstr_zeros] at h1
      have h2 : cstr D1 <:+: sock.pending.flatten := by
        rw [a4]
        exact ((List.takeWhile_prefix _).isInfix).trans
          ⟨[], D2 ++ D3 ++ r3.sock.pending.flatten, by simp [List.append_assoc]⟩
      exact h1.trans h2
  refine ⟨?_, rfl⟩
  simp only [main_response, a6, hnone]

/-- Witness of C15: the empty stream, and a stream that closes after
`"garbage"`. -/
theorem missing_status_line_witness :
    main_response ⟨[], []⟩ [111, 117, 116] true (fun _ => some 1) =
        some ⟨Outcome.firstLineMissing, [], none, []⟩ ∧
      main_response ⟨[[103, 97, 114], [98, 97, 103, 101]], []⟩ [111, 117, 116] true
        (fun _ => some 1) = some ⟨Outcome.firstLineMissing, [], none, []⟩ :=
  ⟨(missing_status_line ⟨[], []⟩ [111, 117, 116] true (fun _ => some 1) (by decide)
      (by decide)).1,
    (missing_status_line ⟨[[103, 97, 114], [98, 97, 103, 101]], []⟩ [111, 117, 116] true
      (fun _ => some 1) (by decide) (by decide)).1⟩

/-- When the first fragment fills the buffer, the first read takes 4096 bytes
in one call of `recv`. -/
theorem first_read_full (sock : Sock) (F : List Nat) (rest : List (List Nat))
    (hp : sock.pending = F :: rest) (hF : MAX_BUFFER ≤ F.length) :
    ∃ buf sock1, read_from_socket sock (List.replicate MAX_BUFFER 0) MAX_BUFFER true false false
        0 0 = some ⟨true, buf, MAX_BUFFER, MAX_BUFFER, sock1⟩ ∧
      sock1.log = sock.log ++ [⟨0, MAX_BUFFER, MAX_BUFFER⟩] := by
  have hrecv : (sock.recv 0 MAX_BUFFER).1.length = MAX_BUFFER := by
    obtain ⟨pending, log⟩ := sock
    simp only at hp
    subst hp
    by_cases hle : F.length ≤ MAX_BUFFER
    · simp only [Sock.recv, hle, if_true]; omega
    · simp only [Sock.recv, hle, if_false, List.length_take]; omega
  have hlog := (recv_log sock 0 MAX_BUFFER).1
  rw [hrecv] at hlog
  refine ⟨poke (List.replicate MAX_BUFFER 0) 0 (sock.recv 0 MAX_BUFFER).1,
    (sock.recv 0 MAX_BUFFER).2, ?_, hlog⟩
  have hm : MAX_BUFFER - 0 = 4095 + 1 := by decide
  have h0 : ¬ (0 ≥ MAX_BUFFER) := by decide
  have hne0 : ¬ MAX_BUFFER = 0 := by decide
  simp only [read_from_socket, if_neg h0]
  rw [hm, read_loop, stop_check_zeros]
  simp only [Bool.false_eq_true, if_false]
  rw [← hm, Nat.sub_zero, hrecv, if_neg hne0, Nat.sub_self, if_neg (Nat.lt_irrefl 0)]
  simp

/-- In that case the second and the third header read return at once and the
count stored by the first read stays in `length`. -/
theorem session_after_full_fragment (sock : Sock) (s : Session) (F : List Nat)
    (rest : List (List Nat)) (hp : sock.pending = F :: rest) (hF : MAX_BUFFER ≤ F.length)
    (hs : main_header sock = some (Stage.go s)) :
    s.offset = MAX_BUFFER ∧ s.length = MAX_BUFFER ∧
      s.sockfd.log = sock.log ++ [⟨0, MAX_BUFFER, MAX_BUFFER⟩] := by
  obtain ⟨r1, r2, r3, j, e1, e2, e3, _, rfl⟩ := main_header_reads sock s hs
  obtain ⟨buf, sock1, a1, a2⟩ := first_read_full sock F rest hp hF
  rw [e1] at a1
  cases a1
  simp only [if_true] at e2
  rw [read_from_socket_full _ _ _ _ _ _ _ _ (le_refl _)] at e2
  cases e2
  simp only [if_true] at e3
  rw [read_from_socket_full _ _ _ _ _ _ _ _ (le_refl _)] at e3
  cases e3
  exact ⟨rfl, rfl, a2⟩

/-- C17 (failing input). A call of `read_from_socket` entered with
`offset = max_bytes = 4096` while `*pread_length` holds 4096 returns with the
offset unchanged and 4096 still in `*pread_length`, not 0.  `main` makes such
calls: when the peer sends the scenario header followed by 4058 more bytes in
one fragment, the header reads make a single call of `recv`, and the second
and the third read leave 4096 in `length` though they read nothing. -/
theorem read_length_left_stale :
    read_from_socket ⟨[[65]], []⟩ (List.replicate 4096 65) 4096 false true false 4096 4096 =
        some ⟨true, List.replicate 4096 65, 4096, 4096, ⟨[[65]], []⟩⟩ ∧
      ∃ s, main_header ⟨[scenario_header ++ List.replicate 4058 65, [65]], []⟩ =
          some (Stage.go s) ∧
        s.offset = 4096 ∧ s.length = 4096 ∧ s.sockfd.log = [⟨0, 4096, 4096⟩] := by
  constructor
  · exact read_from_socket_full _ _ _ _ _ _ _ _ (by decide)
  · have hF : MAX_BUFFER ≤ (scenario_header ++ List.replicate 4058 65).length := by
      rw [List.length_append, List.length_replicate]
      decide
    obtain ⟨s, hs, _, _⟩ := header_session scenario_header 5 17 [10, 13, 10]
      ⟨[scenario_header ++ List.replicate 4058 65, [65]], []⟩ (by decide)
      ⟨[72, 84, 84, 80, 47, 49, 46, 48, 32],
        [67, 111, 110, 116, 101, 110, 116, 45, 76, 101, 110, 103, 116, 104, 58, 32, 53, 13, 10,
          13, 10], rfl⟩
      (by decide) (by decide) (by decide) (by decide) (by decide)
      (by
        intro f hf
        simp only [List.mem_cons, List.mem_singleton, List.not_mem_nil, or_false] at hf
        rcases hf with rfl | rfl
        · intro h
          have := congrArg List.length h
          rw [List.length_append, List.length_replicate] at this
          simp only [List.length_nil] at this
          omega
        · exact List.cons_ne_nil _ _)
      ⟨_, _, rfl, List.prefix_append _ _⟩
    obtain ⟨h1, h2, h3⟩ := session_after_full_fragment _ s _ _ rfl hF hs
    exact ⟨s, hs, h1, h2, h3⟩

/-! ## The end of a short transfer -/

/-- C16 (failing input). The scenario header declares 5 bytes; the peer sends
`"He"` with it and closes the stream.  The body loop takes the branch marked
`// possible error.` and the run ends as a full download does: the end of
`main` is reached and the exit status is 0, with 2 bytes in the file.  The
same early close inside the header, before the first line is complete, ends
the run with status 1. -/
theorem short_body_exit_zero :
    main_response ⟨[scenario_header ++ [72, 101]], []⟩ [111, 117, 116] true
        (fun _ => some 4096) =
      some ⟨Outcome.finished, [], some [111, 117, 116], [72, 101]⟩ ∧
    main_response ⟨[scenario_header ++ scenario_body], []⟩ [111, 117, 116] true
        (fun _ => some 4096) =
      some ⟨Outcome.finished, [], some [111, 117, 116], scenario_body⟩ ∧
    Outcome.finished.exitStatus = some 0 ∧
    main_response ⟨[scenario_header.take 12], []⟩ [111, 117, 116] true (fun _ => some 4096) =
      some ⟨Outcome.firstLineMissing, [], none, []⟩ ∧
    Outcome.firstLineMissing.exitStatus = some 1 := by
  refine ⟨?_, ?_, ?_, ?_, ?_⟩ <;> rfl

/-! ## The sign of the content length -/

theorem dropWhile_append_cons (p : Nat → Bool) (X : List Nat) (a : Nat) (r : List Nat) :
    ∀ (P : List Nat), P.dropWhile p = a :: r → (P ++ X).dropWhile p = a :: (r ++ X) := by
  intro P
  induction P with
  | nil => intro h; cases h
  | cons b t ih =>
    intro h
    by_cases hb : p b = true
    · simp only [List.dropWhile_cons, hb, if_true, List.cons_append] at h ⊢
      exact ih h
    · simp only [List.dropWhile_cons, hb, if_false, List.cons_append, Bool.false_eq_true] at h ⊢
      cases h
      rfl

theorem atoi_digits_ge (r : List Nat) : ∀ acc, acc ≤ atoi_digits acc r := by
  induction r with
  | nil => intro acc; exact Nat.le_refl _
  | cons c cs ih =>
    intro acc
    simp only [atoi_digits]
    split
    · exact Nat.le_trans (by omega) (ih _)
    · exact Nat.le_refl _

/-- More text never makes the number read smaller. -/
theorem atoi_digits_append (Y : List Nat) (r : List Nat) :
    ∀ acc, atoi_digits acc r ≤ atoi_digits acc (r ++ Y) := by
  induction r with
  | nil => intro acc; exact atoi_digits_ge Y acc
  | cons c cs ih =>
    intro acc
    simp only [List.cons_append, atoi_digits]
    split
    · exact ih _
    · exact Nat.le_refl _

/-- A text that does not begin, after white space, with a minus sign and
whose digits, once more text `Y` has been added, make a number below `2^31`
gives `atoi` a value that is not negative. -/
theorem atoi_nonneg (P Y : List Nat)
    (hhead : ((P ++ Y).dropWhile isspace).head? ≠ some 45)
    (hbound : atoi_digits 0 (number_text (P ++ Y)) < 2 ^ 31) : 0 ≤ atoi P := by
  cases hd : P.dropWhile isspace with
  | nil =>
    have : strtol P = 0 := by
      simp only [strtol, hd, atoi_digits, LONG_MAX]
      rfl
    rw [atoi, this]
    decide
  | cons a r =>
    have hfull := dropWhile_append_cons isspace Y a r P hd
    rw [hfull] at hhead
    have ha : a ≠ 45 := by
      intro h
      apply hhead
      rw [h]
      rfl
    by_cases h43 : a = 43
    · subst h43
      have h1 : strtol P = min (atoi_digits 0 r : Int) LONG_MAX := by
        simp only [strtol, hd]
      have h2 : number_text (P ++ Y) = r ++ Y := by
        simp only [number_text, hfull]
      rw [h2] at hbound
      have h3 := atoi_digits_append Y r 0
      rw [atoi, h1, toInt_small _ (by omega)]
      exact Int.natCast_nonneg _
    · have h1 : strtol P = min (atoi_digits 0 (a :: r) : Int) LONG_MAX := by
        unfold strtol
        rw [hd]
        split
        · rename_i h; simp only [List.cons.injEq] at h; exact absurd h.1 ha
        · rename_i h; simp only [List.cons.injEq] at h; exact absurd h.1 h43
        · rfl
      have h2 : number_text (P ++ Y) = a :: (r ++ Y) := by
        unfold number_text
        rw [hfull]
        split
        · rename_i h; simp only [List.cons.injEq] at h; exact absurd h.1 ha
        · rename_i h; simp only [List.cons.injEq] at h; exact absurd h.1 h43
        · rfl
      rw [h2] at hbound
      have h3 := atoi_digits_append Y (a :: r) 0
      rw [List.cons_append] at h3
      rw [atoi, h1, toInt_small _ (by omega)]
      exact Int.natCast_nonneg _

theorem cstr_grows (A B : List Nat) : ∃ Y, cstr (A ++ B) = cstr A ++ Y := by
  induction A with
  | nil => exact ⟨cstr B, by simp [cstr]⟩
  | cons a t ih =>
    obtain ⟨Y, hY⟩ := ih
    by_cases h : a = 0
    · exact ⟨[], by simp [cstr, h]⟩
    · refine ⟨Y, ?_⟩
      simp only [cstr] at hY ⊢
      simp [List.takeWhile_cons, h, hY]

/-- C18 (counterexample). Two responses that pass the status test and contain
the field: with `"Content-Length: -5"` `main` extracts the content length -5,
and with `"Content-Length: 2147483648"`, which has no sign, it extracts
-2147483648. -/
theorem negative_length_parsed :
    parsed_length (main_header ⟨[[72, 84, 84, 80, 47, 49, 46, 48, 32, 50, 48, 48, 32, 79, 75, 13,
      10, 67, 111, 110, 116, 101, 110, 116, 45, 76, 101, 110, 103, 116, 104, 58, 32, 45, 53, 13,
      10, 13, 10, 72, 101, 108, 108, 111]], []⟩) = some (-5) ∧
    parsed_length (main_header ⟨[[72, 84, 84, 80, 47, 49, 46, 48, 32, 50, 48, 48, 32, 79, 75, 13,
      10, 67, 111, 110, 116, 101, 110, 116, 45, 76, 101, 110, 103, 116, 104, 58, 32, 50, 49, 52,
      55, 52, 56, 51, 54, 52, 56, 13, 10, 13, 10, 72, 101, 108, 108, 111]], []⟩) =
      some (-2147483648) := by
  constructor <;> rfl

/-- C18 (amended). In a session of `main` (status test passed, field found at
index `j` of the buffer), the content length extracted is not negative when
the text after the field name does not begin, after white space, with a minus
sign, which `atoi` accepts, and its digits make a number below `2^31`, the
range of an `int`; and whatever the value extracted, the length left by the
initial flush is not negative. -/
theorem content_length_sign (sock : Sock) (s : Session) (hne : ∀ f ∈ sock.pending, f ≠ [])
    (hs : main_header sock = some (Stage.go s)) :
    (∃ j, strstr (cstr s.buf) CONTENT_LENGTH_FIELD = some j ∧
      ((((cstr s.buf).drop (j + 15)).dropWhile isspace).head? ≠ some 45 →
        atoi_digits 0 (number_text ((cstr s.buf).drop (j + 15))) < 2 ^ 31 →
        0 ≤ s.content_length)) ∧
    (∀ (output_fd : Dest) (split : Nat) (t : Transfer) (remaining : Int),
      initial_flush s.buf s.offset s.content_length output_fd split = some (t, remaining) →
      0 ≤ remaining) := by
  constructor
  · obtain ⟨r1, r2, r3, D1, D2, D3, _, a2, a3, _, _, a6⟩ := main_header_shape sock hne
    rw [a6] at hs
    split at hs
    · cases hs
    · split at hs
      · cases hs
      · split at hs
        · cases hs
        · rename_i j hj
          cases hs
          simp only
          obtain ⟨Y, hY⟩ := cstr_grows (D1 ++ D2) D3
          have c2 : cstr r2.buf = cstr (D1 ++ D2) := by rw [a2.1, cstr_zeros]
          have c3 : cstr r3.buf = cstr r2.buf ++ Y := by rw [a3.1, cstr_zeros, hY, c2]
          have hjb : j + 15 ≤ (cstr r2.buf).length := by
            have := (strstr_bound _ _ _ hj).2
            simpa [CONTENT_LENGTH_FIELD] using this
          refine ⟨j, by rw [c3]; exact strstr_append _ _ _ _ hj, ?_⟩
          intro hhead hbound
          have hsl : j + strlen CONTENT_LENGTH_FIELD = j + 15 := by
            simp [strlen, CONTENT_LENGTH_FIELD]
          rw [hsl]
          rw [c3, List.drop_append_of_le_length hjb] at hhead hbound
          exact atoi_nonneg _ Y hhead hbound
  · intro output_fd split t remaining h
    simp only [initial_flush] at h
    split at h
    · cases h
    · cases h
      split <;> omega

/-- Witness of C18 (amended): the session of the scenario header with
`"Hello, world"`; the field is found at index 17, the text after it is
`" 5\r\n\r\nHello, world"` and the content length is not negative. -/
theorem content_length_sign_witness :
    strstr (cstr long_session.buf) CONTENT_LENGTH_FIELD = some 17 ∧
      0 ≤ long_session.content_length := by
  obtain ⟨j, hj, h⟩ := (content_length_sign ⟨[scenario_header ++ [72, 101, 108, 108, 111, 44, 32,
    119, 111, 114, 108, 100]], []⟩ long_session (by decide) (by rfl)).1
  have h17 : strstr (cstr long_session.buf) CONTENT_LENGTH_FIELD = some 17 := by rfl
  rw [h17] at hj
  cases hj
  exact ⟨h17, h (by decide) (by decide)⟩

/-! ## The status line -/

/-- Once the first read has left a buffer in which `"\r\n"` and `"200 OK\r\n"`
are found, `main` goes on to the search of the field: it ends with "file
length unknown" or with a session. -/
theorem main_header_after_status (sock : Sock) (r1 : ReadResult) (D1 : List Nat) (i1 i2 : Nat)
    (e1 : read_from_socket sock (List.replicate MAX_BUFFER 0) MAX_BUFFER true false false 0 0 =
      some r1)
    (h : Holds D1 r1) (hline : strstr (cstr r1.buf) LINE_END = some i1)
    (hok : strstr (cstr r1.buf) HTTP_RESPONSE_OK = some i2) :
    main_header sock = some (Stage.exit Outcome.lengthUnknown) ∨
      ∃ s, main_header sock = some (Stage.go s) := by
  obtain ⟨r2, D2, b1, b2, _⟩ := header_next false true false r1 D1 h
  obtain ⟨r3, D3, c1, _, _⟩ := header_next false false true r2 (D1 ++ D2) b2
  simp only [main_header, e1, hline, hok, Option.isNone_some, Bool.false_eq_true, if_false, b1]
  cases h3 : strstr (cstr r2.buf) CONTENT_LENGTH_FIELD with
  | none => exact Or.inl rfl
  | some j =>
    simp only [c1]
    exact Or.inr ⟨_, rfl⟩

/-- The first read of `main` ends with the whole first line in the buffer,
when the stream has one that fits. -/
theorem first_read_line (sock : Sock) (line rest : List Nat)
    (hne : ∀ f ∈ sock.pending, f ≠ [])
    (hstream : sock.pending.flatten = line ++ LINE_END ++ rest)
    (hfirst : strstr (line ++ LINE_END) LINE_END = some line.length)
    (hlen : line.length + 2 ≤ MAX_BUFFER) :
    ∃ r1 D1, read_from_socket sock (List.replicate MAX_BUFFER 0) MAX_BUFFER true false false
        0 0 = some r1 ∧
      Holds D1 r1 ∧ line ++ LINE_END <+: D1 := by
  obtain ⟨r, D, h1, h2, h3, h4, h5, h6, h7, h8, _⟩ :=
    read_from_socket_spec true false false (List.replicate MAX_BUFFER 0) MAX_BUFFER 0 0 sock
      (by simp) hne
  have hbuf : r.buf = D ++ List.replicate (MAX_BUFFER - D.length) 0 := by
    have := poke_zeros [] D MAX_BUFFER
    simp only [List.nil_append, List.length_nil] at this
    rw [h2, this]
  have hD : D <+: line ++ LINE_END ++ rest := by
    rw [← hstream, h5]; exact List.prefix_append _ _
  have hL : line ++ LINE_END <+: line ++ LINE_END ++ rest := List.prefix_append _ _
  have hLlen : (line ++ LINE_END).length = line.length + 2 := by
    simp [LINE_END]
  refine ⟨r, D, h1, ⟨hbuf, by omega, by omega, h6, fun hr => (h7 hr).1⟩, ?_⟩
  have key : line.length + 2 ≤ D.length := by
    cases hr : r.ret
    · have hp := (h7 hr).1
      rw [hp] at h5
      simp only [List.flatten_nil, List.append_nil] at h5
      have := congrArg List.length h5
      rw [hstream] at this
      simp only [List.length_append] at this hLlen
      omega
    · rcases h8 hr with hfull | hstop
      · omega
      · have hsome : (strstr (cstr r.buf) LINE_END).isSome = true := by
          simpa [stop_check] using hstop
        obtain ⟨i, hi⟩ := Option.isSome_iff_exists.mp hsome
        rw [hbuf, cstr_zeros] at hi
        have hcD : cstr D <+: line ++ LINE_END ++ rest :=
          (List.takeWhile_prefix _).trans hD
        obtain ⟨Z, hZ⟩ := hcD
        have e1 := strstr_append LINE_END Z _ _ hi
        rw [hZ] at e1
        have e2 := strstr_append LINE_END rest _ _ hfirst
        rw [e1] at e2
        cases e2
        have hb := (strstr_bound _ _ _ hi).2
        have hc := cstr_length_le D
        simp only [LINE_END, List.length_cons, List.length_nil] at hb
        omega
  exact List.prefix_of_prefix_length_le hL hD (by omega)

/-- C14 (counterexample). The status line `"HTTP/1.0 200 OK (cached)"`
contains `"200 OK"`, but no `"200 OK\r\n"` is in the buffer: `main` takes the
non-success exit and prints the line. -/
theorem ok_inside_status_line :
    STATUS_OK <:+: [72, 84, 84, 80, 47, 49, 46, 48, 32, 50, 48, 48, 32, 79, 75, 32, 40, 99, 97, 99,
      104, 101, 100, 41] ∧
    main_response ⟨[[72, 84, 84, 80, 47, 49, 46, 48, 32, 50, 48, 48, 32, 79, 75, 32, 40, 99, 97,
        99, 104, 101, 100, 41, 13, 10, 67, 111, 110, 116, 101, 110, 116, 45, 76, 101, 110, 103,
        116, 104, 58, 32, 53, 13, 10, 13, 10, 72, 101, 108, 108, 111]], []⟩ [111, 117, 116] true
        (fun _ => some 4096) =
      some ⟨Outcome.badStatus [72, 84, 84, 80, 47, 49, 46, 48, 32, 50, 48, 48, 32, 79, 75, 32, 40,
        99, 97, 99, 104, 101, 100, 41], [], none, []⟩ :=
  ⟨⟨[72, 84, 84, 80, 47, 49, 46, 48, 32], [32, 40, 99, 97, 99, 104, 101, 100, 41], rfl⟩, rfl⟩

/-- C14 (amended). For every response whose status line, the bytes before
the first `"\r\n"`, ends with `"200 OK"` (it has no NUL byte and fits the
buffer with its `"\r\n"`), delivered in non-empty fragments cut in any way,
`main` takes neither the "can not read the first line" exit nor the
non-success exit: it goes on to the search of `"Content-Length:"` and ends
with "file length unknown" or goes on with a session. -/
theorem status_line_ends_ok (sock : Sock) (line rest : List Nat)
    (hne : ∀ f ∈ sock.pending, f ≠ [])
    (hstream : sock.pending.flatten = line ++ LINE_END ++ rest)
    (hfirst : strstr (line ++ LINE_END) LINE_END = some line.length)
    (hnul : ∀ b ∈ line, b ≠ 0) (hlen : line.length + 2 ≤ MAX_BUFFER)
    (hok : STATUS_OK <:+ line) :
    main_header sock = some (Stage.exit Outcome.lengthUnknown) ∨
      ∃ s, main_header sock = some (Stage.go s) := by
  obtain ⟨r1, D1, e1, hh, hpre⟩ := first_read_line sock line rest hne hstream hfirst hlen
  have hnul2 : ∀ b ∈ line ++ LINE_END, b ≠ 0 := by
    intro b hb
    rw [List.mem_append] at hb
    rcases hb with hb | hb
    · exact hnul b hb
    · simp only [LINE_END, List.mem_cons, List.mem_singleton, List.not_mem_nil, or_false] at hb
      rcases hb with rfl | rfl <;> decide
  obtain ⟨Y, hY⟩ := cstr_of_prefix (line ++ LINE_END) D1 (MAX_BUFFER - D1.length) hnul2 hpre
  rw [← hh.1] at hY
  obtain ⟨u, hu⟩ := hok
  have h1 : ∃ i, strstr (line ++ LINE_END) LINE_END = some i := ⟨_, hfirst⟩
  have h2 : ∃ i, strstr (line ++ LINE_END) HTTP_RESPONSE_OK = some i := by
    have := strstr_mid HTTP_RESPONSE_OK [] u
    rw [← hu]
    simpa [HTTP_RESPONSE_OK, STATUS_OK, LINE_END, List.append_assoc] using this
  obtain ⟨i1, hi1⟩ := h1
  obtain ⟨i2, hi2⟩ := h2
  exact main_header_after_status sock r1 D1 i1 i2 e1 hh
    (by rw [hY]; exact strstr_append _ _ _ _ hi1)
    (by rw [hY]; exact strstr_append _ _ _ _ hi2)

/-- Witness of C14 (amended): the status line `"HTTP/1.0 200 OK"` cut in the
middle, followed by the rest of the scenario response. -/
theorem status_line_ends_ok_witness :
    main_header ⟨[[72, 84, 84, 80, 47, 49, 46, 48, 32, 50, 48], [48, 32, 79, 75, 13],
        [10, 67, 111, 110, 116, 101, 110, 116, 45, 76, 101, 110, 103, 116, 104, 58, 32, 53, 13,
          10, 13, 10, 72, 101, 108, 108, 111]], []⟩ = some (Stage.exit Outcome.lengthUnknown) ∨
      ∃ s, main_header ⟨[[72, 84, 84, 80, 47, 49, 46, 48, 32, 50, 48], [48, 32, 79, 75, 13],
        [10, 67, 111, 110, 116, 101, 110, 116, 45, 76, 101, 110, 103, 116, 104, 58, 32, 53, 13,
          10, 13, 10, 72, 101, 108, 108, 111]], []⟩ = some (Stage.go s) :=
  status_line_ends_ok _ [72, 84, 84, 80, 47, 49, 46, 48, 32, 50, 48, 48, 32, 79, 75]
    [67, 111, 110, 116, 101, 110, 116, 45, 76, 101, 110, 103, 116, 104, 58, 32, 53, 13, 10, 13,
      10, 72, 101, 108, 108, 111]
    (by decide) (by decide) (by decide) (by decide) (by decide)
    ⟨[72, 84, 84, 80, 47, 49, 46, 48, 32], rfl⟩

/-! ## Fragments cut anywhere in the header -/


/-- The loop of `read_from_socket` on a stream of non-empty fragments ends at
the full count or at the end of a fragment: it has taken `k` whole fragments
and the others are still pending. -/
theorem read_loop_aligned (fl rc rs : Bool) (fuel : Nat) :
    ∀ (buf : List Nat) (off left rl : Nat) (sock : Sock),
    0 < left → left ≤ fuel → (∀ f ∈ sock.pending, f ≠ []) →
    ∃ r, read_loop fl rc rs fuel buf off left rl sock = some r ∧
      (off + left ≤ r.offset ∨
        ∃ k, r.offset = off + ((sock.pending.take k).flatten).length ∧
          r.sock.pending = sock.pending.drop k) := by
  induction fuel with
  | zero => intro buf off left rl sock h0 h1; omega
  | succ fuel ih =>
    intro buf off left rl sock hpos hfuel hne
    by_cases hs : stop_check fl rc rs buf = true
    · exact ⟨⟨true, buf, off, rl, sock⟩, by simp [read_loop, hs], Or.inr ⟨0, by simp, by simp⟩⟩
    · have hs2 : stop_check fl rc rs buf = false := by
        cases h : stop_check fl rc rs buf
        · rfl
        · exact absurd h hs
      obtain ⟨pending, log⟩ := sock
      cases pending with
      | nil =>
        exact ⟨⟨false, buf, off, rl, ⟨[], log ++ [⟨off, left, 0⟩]⟩⟩,
          by simp [read_loop, hs2, Sock.recv], Or.inr ⟨0, by simp, by simp⟩⟩
      | cons f rest =>
        have hf : f ≠ [] := hne f (by simp)
        have hflen : 0 < f.length := List.length_pos.mpr hf
        have hrest : ∀ g ∈ rest, g ≠ [] := fun g hg => hne g (by simp [hg])
        by_cases hfl : f.length ≤ left
        · by_cases hmore : left - f.length > 0
          · obtain ⟨r, h1, h2⟩ :=
              ih (poke buf off f) (off + f.length) (left - f.length) (rl + f.length)
                ⟨rest, log ++ [⟨off, left, f.length⟩]⟩ hmore (by omega) hrest
            refine ⟨r, ?_, ?_⟩
            · simp only [read_loop, hs2, Sock.recv, hfl, if_true, Bool.false_eq_true, if_false]
              rw [if_neg (Nat.pos_iff_ne_zero.mp hflen), if_pos hmore]
              exact h1
            · rcases h2 with h2 | ⟨k, h2, h3⟩
              · left; omega
              · right
                refine ⟨k + 1, ?_, ?_⟩
                · simp only [List.take_succ_cons, List.flatten_cons, List.length_append]
                  simp only at h2
                  omega
                · simpa using h3
          · refine ⟨⟨true, poke buf off f, off + f.length, rl + f.length,
              ⟨rest, log ++ [⟨off, left, f.length⟩]⟩⟩, ?_, Or.inl ?_⟩
            · simp only [read_loop, hs2, Sock.recv, hfl, if_true, Bool.false_eq_true, if_false]
              rw [if_neg (Nat.pos_iff_ne_zero.mp hflen), if_neg hmore]
            · simp only; omega
        · have hlt : left < f.length := by omega
          have hlen : (f.take left).length = left := by
            rw [List.length_take]; omega
          refine ⟨⟨true, poke buf off (f.take left), off + left, rl + left,
            ⟨f.drop left :: rest, log ++ [⟨off, left, left⟩]⟩⟩, ?_, Or.inl (Nat.le_refl _)⟩
          simp only [read_loop, hs2, Sock.recv, hfl, if_false, hlen, Bool.false_eq_true]
          rw [if_neg (Nat.pos_iff_ne_zero.mp hpos), if_neg (by simp)]

/-- The same for `read_from_socket` itself. -/
theorem read_from_socket_aligned (fl rc rs : Bool) (buf : List Nat) (max_bytes off rl : Nat)
    (sock : Sock) (hne : ∀ f ∈ sock.pending, f ≠ []) :
    ∃ r, read_from_socket sock buf max_bytes fl rc rs off rl = some r ∧
      (max_bytes ≤ r.offset ∨
        ∃ k, r.offset = off + ((sock.pending.take k).flatten).length ∧
          r.sock.pending = sock.pending.drop k) := by
  by_cases h : off ≥ max_bytes
  · exact ⟨⟨true, buf, off, rl, sock⟩, by simp [read_from_socket, h], Or.inl h⟩
  · obtain ⟨r, h1, h2⟩ := read_loop_aligned fl rc rs (max_bytes - off) buf off (max_bytes - off)
      0 sock (by omega) (Nat.le_refl _) hne
    refine ⟨r, by simp only [read_from_socket, h, if_false]; exact h1, ?_⟩
    rcases h2 with h2 | h2
    · left; omega
    · right; exact h2

/-- One header read of `main`, made only when the read before returned `true`:
it returns, the buffer still holds the bytes received so far; it ended because
the stream is closed, the buffer is full or its stop test holds; and unless
the buffer is full it ended at the end of a fragment. -/
theorem header_step (fl rc rs : Bool) (r : ReadResult) (D : List Nat) (h : Holds D r) :
    ∃ r1 D1, (if r.ret then
        read_from_socket r.sock r.buf MAX_BUFFER fl rc rs r.offset r.read_length
      else some r) = some r1 ∧
      Holds (D ++ D1) r1 ∧ r.sock.pending.flatten = D1 ++ r1.sock.pending.flatten ∧
      (r1.sock.pending = [] ∨ MAX_BUFFER ≤ r1.offset ∨ stop_check fl rc rs r1.buf = true) ∧
      (MAX_BUFFER ≤ r1.offset ∨
        ∃ k, D1.length = ((r.sock.pending.take k).flatten).length ∧
          r1.sock.pending = r.sock.pending.drop k) := by
  obtain ⟨hb, ho, hl, hne, hret⟩ := h
  cases hr : r.ret
  · refine ⟨r, [], by simp, ?_, by simp, Or.inl (hret hr), Or.inr ⟨0, by simp, by simp⟩⟩
    simp only [List.append_nil]
    exact ⟨hb, ho, hl, hne, hret⟩
  · have hlen : r.buf.length = MAX_BUFFER := by
      rw [hb]; simp only [List.length_append, List.length_replicate]; omega
    obtain ⟨r1, D1, h1, h2, h3, h4, h5, h6, h7, h8, _⟩ :=
      read_from_socket_spec fl rc rs r.buf MAX_BUFFER r.offset r.read_length r.sock
        (by omega) hne
    obtain ⟨r2, g1, g2⟩ :=
      read_from_socket_aligned fl rc rs r.buf MAX_BUFFER r.offset r.read_length r.sock hne
    rw [h1] at g1
    cases g1
    refine ⟨r1, D1, by simpa using h1, ⟨?_, ?_, ?_, h6, fun hr => (h7 hr).1⟩, h5, ?_, ?_⟩
    · rw [h2, hb, ho, poke_zeros, List.length_append]
      congr 2
      omega
    · rw [h3, ho, List.length_append]
    · rw [List.length_append]; omega
    · cases hr1 : r1.ret
      · exact Or.inl (h7 hr1).1
      · exact Or.inr (h8 hr1)
    · rcases g2 with g2 | ⟨k, g2, g3⟩
      · exact Or.inl g2
      · exact Or.inr ⟨k, by omega, g3⟩

/-- The lines 110 to 143 of `main` in terms of the three header reads. -/
theorem main_header_of_reads (sock : Sock) (r1 r2 r3 : ReadResult)
    (e1 : read_from_socket sock (List.replicate MAX_BUFFER 0) MAX_BUFFER true false false 0 0 =
      some r1)
    (e2 : (if r1.ret then
        read_from_socket r1.sock r1.buf MAX_BUFFER false true false r1.offset r1.read_length
      else some r1) = some r2)
    (e3 : (if r2.ret then
        read_from_socket r2.sock r2.buf MAX_BUFFER false false true r2.offset r2.read_length
      else some r2) = some r3) :
    main_header sock =
      (match strstr (cstr r1.buf) LINE_END with
      | none => some (Stage.exit Outcome.firstLineMissing)
      | some first_line_end =>
        if (strstr (cstr r1.buf) HTTP_RESPONSE_OK).isNone then
          some (Stage.exit (Outcome.badStatus ((cstr r1.buf).take first_line_end)))
        else
          match strstr (cstr r2.buf) CONTENT_LENGTH_FIELD with
          | none => some (Stage.exit Outcome.lengthUnknown)
          | some content_length_str =>
            some (Stage.go ⟨r3.buf, r3.offset, r3.read_length, r3.ret,
              atoi ((cstr r2.buf).drop (content_length_str + strlen CONTENT_LENGTH_FIELD)),
              r3.sock⟩)) := by
  simp only [main_header, e1]
  cases h1 : strstr (cstr r1.buf) LINE_END with
  | none => rfl
  | some fle =>
    simp only []
    by_cases h2 : (strstr (cstr r1.buf) HTTP_RESPONSE_OK).isNone = true
    · simp [h2]
    · simp only [h2, if_false, Bool.false_eq_true, e2]
      cases h3 : strstr (cstr r2.buf) CONTENT_LENGTH_FIELD with
      | none => rfl
      | some cls => simp only [e3]


/-- The first occurrence of a needle is found in every beginning of the text
that holds it whole. -/
theorem strstr_take (needle hay : List Nat) (i p : Nat) (h : strstr hay needle = some i)
    (hp : i + needle.length ≤ p) : strstr (hay.take p) needle = some i := by
  cases hc : strstr (hay.take p) needle with
  | some i1 =>
    have := strstr_append needle (hay.drop p) _ _ hc
    rw [List.take_append_drop, h] at this
    rw [this]
  | none =>
    exfalso
    obtain ⟨⟨t, ht⟩, hb⟩ := strstr_bound needle hay i h
    have e : hay.take p = hay.take i ++ needle ++ t.take (p - i - needle.length) := by
      have e1 : hay.take p = (hay.take i ++ (needle ++ t)).take p := by
        rw [ht, List.take_append_drop]
      rw [e1, List.take_append_eq_append_take, List.take_append_eq_append_take,
        List.append_assoc]
      have l1 : (hay.take i).length = i := by rw [List.length_take]; omega
      rw [l1, List.take_of_length_le (by omega : (hay.take i).length ≤ p),
        List.take_of_length_le (by omega : needle.length ≤ p - i)]
    obtain ⟨i2, hi2⟩ := strstr_mid needle (t.take (p - i - needle.length)) (hay.take i)
    rw [← e, hc] at hi2
    cases hi2

/-- The text of a buffer that holds a beginning `P` of the stream `H ++ body`,
where the header `H` has no NUL byte: the bytes of `H` received so far, and
bytes of the body only once the header is complete. -/
theorem cstr_of_stream (H body P : List Nat) (hnul : ∀ b ∈ H, b ≠ 0) (hP : P <+: H ++ body) :
    ∃ Y, cstr P = H.take P.length ++ Y ∧ (P.length ≤ H.length → Y = []) := by
  by_cases hl : P.length ≤ H.length
  · have hPH : P <+: H := List.prefix_of_prefix_length_le hP (List.prefix_append _ _) hl
    have hPe : P = H.take P.length := List.prefix_iff_eq_take.mp hPH
    refine ⟨[], ?_, fun _ => rfl⟩
    rw [List.append_nil, ← hPe]
    have hnulP : ∀ b ∈ P, b ≠ 0 := fun b hb => hnul b (hPH.subset hb)
    have := cstr_append P [] hnulP
    simpa [cstr] using this
  · have hHP : H <+: P := List.prefix_of_prefix_length_le (List.prefix_append _ _) hP (by omega)
    obtain ⟨X, rfl⟩ := hHP
    refine ⟨cstr X, ?_, fun h => absurd h hl⟩
    rw [cstr_append H X hnul, List.take_of_length_le (by simp)]

/-- A needle whose first occurrence in the header is at `i` is found there in
the text of every buffer that holds the stream up to the end of that
occurrence. -/
theorem strstr_found (needle H body P : List Nat) (i : Nat) (hnul : ∀ b ∈ H, b ≠ 0)
    (hP : P <+: H ++ body) (h : strstr H needle = some i) (hl : i + needle.length ≤ P.length) :
    strstr (cstr P) needle = some i := by
  obtain ⟨Y, hY, _⟩ := cstr_of_stream H body P hnul hP
  rw [hY]
  exact strstr_append _ _ _ _ (strstr_take needle H i P.length h hl)

/-- A needle found in the text of a buffer that holds a beginning of the
stream lies at its first occurrence in the header, which the buffer holds
whole. -/
theorem strstr_needs (needle H body P : List Nat) (i : Nat) (hP : P <+: H ++ body)
    (h : strstr H needle = some i) (hs : (strstr (cstr P) needle).isSome = true) :
    i + needle.length ≤ P.length := by
  obtain ⟨i1, hi1⟩ := Option.isSome_iff_exists.mp hs
  have hc : cstr P <+: H ++ body := (List.takeWhile_prefix _).trans hP
  obtain ⟨Z, hZ⟩ := hc
  have e1 := strstr_append needle Z _ _ hi1
  rw [hZ] at e1
  have e2 := strstr_append needle body _ _ h
  rw [e1] at e2
  cases e2
  have hb := (strstr_bound _ _ _ hi1).2
  have := cstr_length_le P
  omega


/-- The value `atoi` reads from the text after the field name, in a buffer
that holds the stream at least up to the last digit of the number. -/
theorem atoi_of_stream (H body P : List Nat) (N j : Nat) (tail : List Nat)
    (hnul : ∀ b ∈ H, b ≠ 0) (hP : P <+: H ++ body)
    (hfield : H.drop (j + 15) = 32 :: (decimalNat N ++ 13 :: tail)) (hN : N < 2 ^ 31)
    (hl : j + 16 + (decimalNat N).length ≤ P.length) :
    atoi ((cstr P).drop (j + 15)) = (N : Int) := by
  obtain ⟨Y, hY, hY0⟩ := cstr_of_stream H body P hnul hP
  have hHl : H.length = j + 15 + (1 + ((decimalNat N).length + (1 + tail.length))) := by
    have := congrArg List.length hfield
    simp only [List.length_drop, List.length_cons, List.length_append] at this
    omega
  have h1 : j + 15 ≤ (H.take P.length).length := by
    rw [List.length_take]; omega
  rw [hY, List.drop_append_of_le_length h1, List.drop_take, hfield]
  have h2 : (32 :: (decimalNat N ++ 13 :: tail)).take (P.length - (j + 15)) =
      32 :: (decimalNat N ++
        (13 :: tail).take (P.length - (j + 15) - 1 - (decimalNat N).length)) := by
    obtain ⟨m, hm⟩ : ∃ m, P.length - (j + 15) = (m + (decimalNat N).length) + 1 :=
      ⟨P.length - (j + 15) - 1 - (decimalNat N).length, by omega⟩
    rw [hm, List.take_succ_cons, List.take_append_eq_append_take,
      List.take_of_length_le (by omega)]
    congr 3
  rw [h2]
  show atoi (32 :: (decimalNat N ++ _ ++ Y)) = _
  rw [List.append_assoc]
  apply atoi_number N _ hN
  intro c hc
  by_cases hm : P.length - (j + 15) - 1 - (decimalNat N).length = 0
  · have hy : Y = [] := hY0 (by omega)
    rw [hm, hy] at hc
    simp at hc
  · obtain ⟨m, hm1⟩ := Nat.exists_eq_succ_of_ne_zero hm
    rw [hm1, List.take_succ_cons] at hc
    simp only [List.cons_append, List.head?_cons, Option.mem_def, Option.some.injEq] at hc
    subst hc
    decide

/-- A response `H ++ body` delivered in non-empty fragments of which none ends
between the end of the field name and the last digit of the declared length
`N < 2^31`: the header reads end in a session with the content length `N` and
the separator found at the end of the header. -/
theorem header_any_cut (sock : Sock) (H body line : List Nat) (N j : Nat) (tail : List Nat)
    (hne : ∀ f ∈ sock.pending, f ≠ [])
    (hstream : sock.pending.flatten = H ++ body)
    (hnul : ∀ b ∈ H, b ≠ 0)
    (hline : line ++ LINE_END <+: H)
    (hfirst : strstr (line ++ LINE_END) LINE_END = some line.length)
    (hok : STATUS_OK <:+ line)
    (hsplit : strstr H HEAD_CONTENT_SPLIT = some (H.length - 4))
    (hj : strstr H CONTENT_LENGTH_FIELD = some j)
    (hfield : H.drop (j + 15) = 32 :: (decimalNat N ++ 13 :: tail))
    (hlen : H.length ≤ MAX_BUFFER) (hN : N < 2 ^ 31)
    (hcut : ∀ k, ((sock.pending.take k).flatten).length < j + 15 ∨
      j + 16 + (decimalNat N).length ≤ ((sock.pending.take k).flatten).length) :
    ∃ s, main_header sock = some (Stage.go s) ∧ s.content_length = (N : Int) ∧
      strstr (cstr s.buf) HEAD_CONTENT_SPLIT = some (H.length - 4) := by
  -- the three reads
  have h0 : Holds [] ⟨true, List.replicate MAX_BUFFER 0, 0, 0, sock⟩ :=
    ⟨by simp, rfl, by simp, hne, by intro h; cases h⟩
  obtain ⟨r1, D1, e1, H1, c1, s1, al1⟩ := header_step true false false _ [] h0
  simp only [if_true, List.nil_append] at e1 H1 c1 al1
  obtain ⟨r2, D2, e2, H2, c2, s2, al2⟩ := header_step false true false r1 D1 H1
  obtain ⟨r3, D3, e3, H3, c3, s3, _⟩ := header_step false false true r2 (D1 ++ D2) H2
  have hm := main_header_of_reads sock r1 r2 r3 e1 e2 e3
  -- what the buffers hold
  have hS1 : H ++ body = D1 ++ r1.sock.pending.flatten := by rw [← hstream, c1]
  have hS2 : H ++ body = D1 ++ D2 ++ r2.sock.pending.flatten := by
    rw [hS1, c2, List.append_assoc]
  have hS3 : H ++ body = D1 ++ D2 ++ D3 ++ r3.sock.pending.flatten := by
    rw [hS2, c3, List.append_assoc, List.append_assoc, List.append_assoc]
  have p1 : D1 <+: H ++ body := ⟨_, hS1.symm⟩
  have p2 : D1 ++ D2 <+: H ++ body := ⟨_, hS2.symm⟩
  have p3 : D1 ++ D2 ++ D3 <+: H ++ body := ⟨_, hS3.symm⟩
  have b1 : cstr r1.buf = cstr D1 := by rw [H1.1, cstr_zeros]
  have b2 : cstr r2.buf = cstr (D1 ++ D2) := by rw [H2.1, cstr_zeros]
  have b3 : cstr r3.buf = cstr (D1 ++ D2 ++ D3) := by rw [H3.1, cstr_zeros]
  -- lengths in the header
  have hHl : H.length = j + 15 + (1 + ((decimalNat N).length + (1 + tail.length))) := by
    have := congrArg List.length hfield
    simp only [List.length_drop, List.length_cons, List.length_append] at this
    omega
  have h4 : H.length - 4 + 4 ≤ H.length := by
    have := (strstr_bound _ _ _ hsplit).2
    simpa [HEAD_CONTENT_SPLIT] using this
  have hLl : line.length + 2 ≤ H.length := by
    have := hline.length_le
    simpa [LINE_END] using this
  obtain ⟨R, hR⟩ := hline
  have hl1 : strstr H LINE_END = some line.length := by
    rw [← hR]; exact strstr_append _ _ _ _ hfirst
  obtain ⟨u, hu⟩ := hok
  obtain ⟨i2, hi2⟩ : ∃ i, strstr (line ++ LINE_END) HTTP_RESPONSE_OK = some i := by
    have := strstr_mid HTTP_RESPONSE_OK [] u
    rw [← hu]
    simpa [HTTP_RESPONSE_OK, STATUS_OK, LINE_END, List.append_assoc] using this
  have hi2b : i2 + 8 ≤ line.length + 2 := by
    have := (strstr_bound _ _ _ hi2).2
    simpa [HTTP_RESPONSE_OK, LINE_END] using this
  have hl2 : strstr H HTTP_RESPONSE_OK = some i2 := by
    rw [← hR]; exact strstr_append _ _ _ _ hi2
  -- a read that ended on the end of the stream or on a full buffer holds the header
  have hwhole : ∀ (r : ReadResult) (D : List Nat), Holds D r →
      H ++ body = D ++ r.sock.pending.flatten →
      r.sock.pending = [] ∨ MAX_BUFFER ≤ r.offset → H.length ≤ D.length := by
    intro r D hD hS hc
    rcases hc with hc | hc
    · rw [hc] at hS
      have := congrArg List.length hS
      simp only [List.length_append, List.flatten_nil, List.length_nil] at this
      omega
    · have := hD.2.1
      omega
  -- how far each read went
  have n1 : line.length + 2 ≤ D1.length := by
    rcases s1 with s | s | s
    · have := hwhole r1 D1 H1 hS1 (Or.inl s); omega
    · have := hwhole r1 D1 H1 hS1 (Or.inr s); omega
    · have hsome : (strstr (cstr r1.buf) LINE_END).isSome = true := by
        simpa [stop_check] using s
      rw [b1] at hsome
      have := strstr_needs LINE_END H body D1 _ p1 hl1 hsome
      simpa [LINE_END] using this
  have n2a : j + 15 ≤ (D1 ++ D2).length := by
    rcases s2 with s | s | s
    · have := hwhole r2 _ H2 hS2 (Or.inl s); omega
    · have := hwhole r2 _ H2 hS2 (Or.inr s); omega
    · have hsome : (strstr (cstr r2.buf) HEAD_CONTENT_SPLIT).isSome = true ∨
          (strstr (cstr r2.buf) CONTENT_LENGTH_FIELD).isSome = true := by
        simpa [stop_check] using s
      rw [b2] at hsome
      rcases hsome with hsome | hsome
      · have := strstr_needs HEAD_CONTENT_SPLIT H body _ _ p2 hsplit hsome
        simp only [HEAD_CONTENT_SPLIT, List.length_cons, List.length_nil] at this
        omega
      · have := strstr_needs CONTENT_LENGTH_FIELD H body _ _ p2 hj hsome
        simpa [CONTENT_LENGTH_FIELD] using this
  have n2 : j + 16 + (decimalNat N).length ≤ (D1 ++ D2).length := by
    rcases al1 with a | ⟨k1, a1, a2⟩
    · have := H1.2.1
      rw [List.length_append]
      omega
    · rcases al2 with a | ⟨k2, a3, _⟩
      · have := H2.2.1
        omega
      · have e : (D1 ++ D2).length = ((sock.pending.take (k1 + k2)).flatten).length := by
          rw [List.take_add, List.flatten_append, List.length_append, List.length_append, a1, a3,
            a2]
        rcases hcut (k1 + k2) with c | c
        · omega
        · omega
  have n3 : H.length ≤ (D1 ++ D2 ++ D3).length := by
    rcases s3 with s | s | s
    · exact hwhole r3 _ H3 hS3 (Or.inl s)
    · exact hwhole r3 _ H3 hS3 (Or.inr s)
    · have hsome : (strstr (cstr r3.buf) HEAD_CONTENT_SPLIT).isSome = true := by
        simpa [stop_check] using s
      rw [b3] at hsome
      have := strstr_needs HEAD_CONTENT_SPLIT H body _ _ p3 hsplit hsome
      simp only [HEAD_CONTENT_SPLIT, List.length_cons, List.length_nil] at this
      omega
  -- what `strstr` and `atoi` find
  have f1 : strstr (cstr r1.buf) LINE_END = some line.length := by
    rw [b1]
    exact strstr_found LINE_END H body D1 _ hnul p1 hl1 (by simpa [LINE_END] using n1)
  have f2 : strstr (cstr r1.buf) HTTP_RESPONSE_OK = some i2 := by
    rw [b1]
    exact strstr_found HTTP_RESPONSE_OK H body D1 _ hnul p1 hl2
      (by simp only [HTTP_RESPONSE_OK, List.length_cons, List.length_nil]; omega)
  have f3 : strstr (cstr r2.buf) CONTENT_LENGTH_FIELD = some j := by
    rw [b2]
    exact strstr_found CONTENT_LENGTH_FIELD H body _ _ hnul p2 hj
      (by simpa [CONTENT_LENGTH_FIELD] using n2a)
  have f4 : atoi ((cstr r2.buf).drop (j + strlen CONTENT_LENGTH_FIELD)) = (N : Int) := by
    have hs : j + strlen CONTENT_LENGTH_FIELD = j + 15 := by
      simp [strlen, CONTENT_LENGTH_FIELD]
    rw [hs, b2]
    exact atoi_of_stream H body _ N j tail hnul p2 hfield hN n2
  have f5 : strstr (cstr r3.buf) HEAD_CONTENT_SPLIT = some (H.length - 4) := by
    rw [b3]
    exact strstr_found HEAD_CONTENT_SPLIT H body _ _ hnul p3 hsplit
      (by simp only [HEAD_CONTENT_SPLIT, List.length_cons, List.length_nil]; omega)
  refine ⟨⟨r3.buf, r3.offset, r3.read_length, r3.ret, (N : Int), r3.sock⟩, ?_, rfl, f5⟩
  rw [hm, f1]
  simp only [f2, Option.isNone_some, Bool.false_eq_true, if_false, f3, f4]


/-- C4 (counterexample). Four responses with a complete header whose stream
closes before the declared number of body bytes has come.  With
`"Content-Length: 4294967297"` and the body bytes `"abc"`, only `"a"` is
written.  With `"Content-Length: 10"` cut between its two digits and the body
bytes `"Hello"`, only `"H"` is written; cut right after the field name,
nothing is written.  With `"X-Content-Length: 3"` before `"Content-Length: 10"`
and the body bytes `"Hello"`, only `"Hel"` is written. -/
theorem early_close_loses_bytes :
    main_response ⟨[[72, 84, 84, 80, 47, 49, 46, 48, 32, 50, 48, 48, 32, 79, 75, 13, 10, 67, 111,
        110, 116, 101, 110, 116, 45, 76, 101, 110, 103, 116, 104, 58, 32, 52, 50, 57, 52, 57, 54,
        55, 50, 57, 55, 13, 10, 13, 10, 97, 98, 99]], []⟩ [111, 117, 116] true
        (fun _ => some 4096) =
      some ⟨Outcome.finished, [], some [111, 117, 116], [97]⟩ ∧
    main_response ⟨[[72, 84, 84, 80, 47, 49, 46, 48, 32, 50, 48, 48, 32, 79, 75, 13, 10, 67, 111,
        110, 116, 101, 110, 116, 45, 76, 101, 110, 103, 116, 104, 58, 32, 49],
        [48, 13, 10, 13, 10, 72, 101, 108, 108, 111]], []⟩ [111, 117, 116] true
        (fun _ => some 4096) =
      some ⟨Outcome.finished, [], some [111, 117, 116], [72]⟩ ∧
    main_response ⟨[[72, 84, 84, 80, 47, 49, 46, 48, 32, 50, 48, 48, 32, 79, 75, 13, 10, 67, 111,
        110, 116, 101, 110, 116, 45, 76, 101, 110, 103, 116, 104, 58],
        [32, 49, 48, 13, 10, 13, 10, 72, 101, 108, 108, 111]], []⟩ [111, 117, 116] true
        (fun _ => some 4096) =
      some ⟨Outcome.finished, [], some [111, 117, 116], []⟩ ∧
    main_response ⟨[[72, 84, 84, 80, 47, 49, 46, 48, 32, 50, 48, 48, 32, 79, 75, 13, 10, 88, 45,
        67, 111, 110, 116, 101, 110, 116, 45, 76, 101, 110, 103, 116, 104, 58, 32, 51, 13, 10, 67,
        111, 110, 116, 101, 110, 116, 45, 76, 101, 110, 103, 116, 104, 58, 32, 49, 48, 13, 10, 13,
        10, 72, 101, 108, 108, 111]], []⟩ [111, 117, 116] true (fun _ => some 4096) =
      some ⟨Outcome.finished, [], some [111, 117, 116], [72, 101, 108]⟩ := by
  refine ⟨?_, ?_, ?_, ?_⟩ <;> rfl

/-- C4 (amended). A 200 OK response `H ++ body`: the header `H` has no NUL
byte and fits the buffer, its first line ends with `"200 OK"`, its first
`"\r\n\r\n"` is at its end and its first `"Content-Length:"` is followed by
`" N\r"` with `N < 2^31`.  The response is delivered in non-empty fragments cut
in any way, but for one restriction: no fragment ends between the end of the
field name and the last digit of `N`.  When the stream closes after fewer than
`N` body bytes, the run reaches the end of `main` and the file holds exactly
the body bytes received, in the order received. -/
theorem early_close (frags : List (List Nat)) (log : List RecvCall) (H body line : List Nat)
    (N j : Nat) (tail : List Nat) (file_name : List Nat) (file_cap : Nat → Option Nat)
    (hne : ∀ f ∈ frags, f ≠ []) (hstream : frags.flatten = H ++ body)
    (hnul : ∀ b ∈ H, b ≠ 0) (hline : line ++ LINE_END <+: H)
    (hfirst : strstr (line ++ LINE_END) LINE_END = some line.length)
    (hok : STATUS_OK <:+ line)
    (hsplit : strstr H HEAD_CONTENT_SPLIT = some (H.length - 4))
    (hj : strstr H CONTENT_LENGTH_FIELD = some j)
    (hfield : H.drop (j + 15) = 32 :: (decimalNat N ++ 13 :: tail))
    (hlen : H.length ≤ MAX_BUFFER) (hN : N < 2 ^ 31)
    (hcut : ∀ k, ((frags.take k).flatten).length < j + 15 ∨
      j + 16 + (decimalNat N).length ≤ ((frags.take k).flatten).length)
    (hshort : body.length < N) (hcap : Accepting file_cap) :
    ∃ run, main_response ⟨frags, log⟩ file_name true file_cap = some run ∧
      run.outcome = Outcome.finished ∧ run.written = body := by
  obtain ⟨s, s1, s2, s3⟩ := header_any_cut ⟨frags, log⟩ H body line N j tail hne hstream hnul
    hline hfirst hok hsplit hj hfield hlen hN hcut
  have h4 : 4 ≤ H.length := by
    have := (strstr_bound _ _ _ hsplit).2
    simp only [HEAD_CONTENT_SPLIT, List.length_cons, List.length_nil] at this
    omega
  have hb := main_body_spec ⟨frags, log⟩ s file_name file_cap (H.length - 4) hne s1 s3 hcap
  have hr : main_response ⟨frags, log⟩ file_name true file_cap =
      main_body s file_name true file_cap := by
    simp only [main_response, s1]
  rw [hb] at hr
  refine ⟨_, hr, rfl, ?_⟩
  have e : H.length - 4 + 4 = H.length := by omega
  simp only [hstream, e, s2, Int.toNat_ofNat, List.drop_left]
  exact List.take_of_length_le (by omega)

/-- Witness of C4 (amended): the scenario header, which declares 5 bytes, cut
inside the status line, inside the field name and after the value, with the
body bytes `"He"` then `"l"` before the peer closes the stream; the file holds
`"Hel"`. -/
theorem early_close_witness :
    ∃ run, main_response ⟨[[72, 84, 84, 80, 47, 49, 46, 48, 32, 50, 48, 48],
        [32, 79, 75, 13, 10, 67, 111, 110, 116, 101, 110, 116, 45, 76, 101],
        [110, 103, 116, 104, 58, 32, 53, 13], [10, 13, 10, 72, 101], [108]], []⟩
        [111, 117, 116] true (fun _ => some 4096) = some run ∧
      run.outcome = Outcome.finished ∧ run.written = [72, 101, 108] :=
  early_close _ [] scenario_header [72, 101, 108]
    [72, 84, 84, 80, 47, 49, 46, 48, 32, 50, 48, 48, 32, 79, 75] 5 17 [10, 13, 10] _ _
    (by decide) (by decide) (by decide)
    ⟨[67, 111, 110, 116, 101, 110, 116, 45, 76, 101, 110, 103, 116, 104, 58, 32, 53, 13, 10, 13,
      10], rfl⟩
    (by decide) ⟨[72, 84, 84, 80, 47, 49, 46, 48, 32], rfl⟩ (by decide) (by decide) (by decide)
    (by decide) (by decide)
    (by
      have hd : (decimalNat 5).length = 1 := by decide
      intro k
      rw [hd]
      rcases k with _ | _ | _ | _ | _ | k <;> simp)
    (by decide) (fun _ => ⟨4096, rfl, by decide⟩)


/-! ## Declared lengths that are misread -/

theorem huge_header_shape :
    (∀ b ∈ huge_header, b ≠ 0) ∧ HTTP_RESPONSE_OK <:+: huge_header ∧
    strstr huge_header HEAD_CONTENT_SPLIT = some (huge_header.length - 4) ∧
    strstr huge_header CONTENT_LENGTH_FIELD = some 17 ∧
    huge_header.drop (17 + 15) = 32 :: (decimalNat 2147483648 ++ 13 :: [10, 13, 10]) ∧
    huge_header.length ≤ MAX_BUFFER :=
  ⟨by decide, ⟨[72, 84, 84, 80, 47, 49, 46, 48, 32], [67, 111, 110, 116, 101, 110, 116, 45, 76,
      101, 110, 103, 116, 104, 58, 32, 50, 49, 52, 55, 52, 56, 51, 54, 52, 56, 13, 10, 13, 10],
      rfl⟩, by decide, by decide, by rfl, by decide⟩

theorem huge_response_fragment :
    ∀ f ∈ (⟨[huge_header ++ List.replicate 2147483648 65], []⟩ : Sock).pending, f ≠ [] := by
  intro f hf
  simp only [List.mem_singleton] at hf
  subst hf
  intro h
  have := congrArg List.length h
  rw [List.length_append, List.length_replicate] at this
  simp only [List.length_nil] at this
  omega

/-- The header reads on the response that declares 2147483648 bytes and
carries them: the content length is -2147483648. -/
theorem huge_response_session :
    ∃ s, main_header ⟨[huge_header ++ List.replicate 2147483648 65], []⟩ = some (Stage.go s) ∧
      s.content_length = -2147483648 ∧
      strstr (cstr s.buf) HEAD_CONTENT_SPLIT = some (huge_header.length - 4) := by
  obtain ⟨a1, a2, a3, a4, a5, a6⟩ := huge_header_shape
  obtain ⟨s, s1, s2, s3⟩ := header_session_int huge_header 2147483648 17 [10, 13, 10]
    ⟨[huge_header ++ List.replicate 2147483648 65], []⟩ a1 a2 a3 a4 a5 a6
    huge_response_fragment ⟨_, _, rfl, List.prefix_append _ _⟩
  have h0 : toInt (min ((2147483648 : Nat) : Int) LONG_MAX) = -2147483648 := by decide
  exact ⟨s, s1, by rw [s2, h0], s3⟩

/-- After header reads that end in a session, `main` goes on with the lines
145 to 176. -/
theorem main_response_go (sock : Sock) (s : Session) (file_name : List Nat) (can_open : Bool)
    (file_cap : Nat → Option Nat) (h : main_header sock = some (Stage.go s)) :
    main_response sock file_name can_open file_cap = main_body s file_name can_open file_cap := by
  simp only [main_response, h]

/-- C2 (counterexample). Two 200 OK responses that arrive whole, header and
body, in one fragment.  With `"X-Content-Length: 3"` before
`"Content-Length: 10"` and the body `"0123456789"`, the file holds `"012"`,
not the 10 body bytes.  With `"Content-Length: 2147483648"` and a body of
2147483648 bytes, the file stays empty. -/
theorem declared_length_misread :
    main_response ⟨[[72, 84, 84, 80, 47, 49, 46, 48, 32, 50, 48, 48, 32, 79, 75, 13, 10, 88, 45,
        67, 111, 110, 116, 101, 110, 116, 45, 76, 101, 110, 103, 116, 104, 58, 32, 51, 13, 10, 67,
        111, 110, 116, 101, 110, 116, 45, 76, 101, 110, 103, 116, 104, 58, 32, 49, 48, 13, 10, 13,
        10, 48, 49, 50, 51, 52, 53, 54, 55, 56, 57]], []⟩ [111, 117, 116] true
        (fun _ => some 4096) =
      some ⟨Outcome.finished, [], some [111, 117, 116], [48, 49, 50]⟩ ∧
    main_response ⟨[huge_header ++ List.replicate 2147483648 65], []⟩ [111, 117, 116] true
        (fun _ => some 4096) =
      some ⟨Outcome.finished, [], some [111, 117, 116], []⟩ := by
  constructor
  · rfl
  · obtain ⟨s, s1, s2, s3⟩ := huge_response_session
    have hb := main_body_spec _ s [111, 117, 116] (fun _ => some 4096) (huge_header.length - 4)
      huge_response_fragment s1 s3 (fun _ => ⟨4096, rfl, by decide⟩)
    rw [main_response_go _ s _ _ _ s1, hb, s2]
    rfl

end HttpClient
